import Mathlib

/-!
# Comment-triggered presubmit dispatch (`prow/plugins/trigger/ic.go`)

A shallow embedding of `handleIC` and of the two package-level regular
expressions `okToTest` and `retest`.

* Collaborators (`GitHubClient`, `Config`, `KubeClient`, and the package
  functions `isUserTrusted`, `trustedPullRequest`, `clearStaleComments`, which
  live in other files of the package) are fields of `Client`.  Every response
  may depend on the arguments of the call and on the number of collaborator
  calls that returned earlier in the same run, so a client can answer two
  identical calls differently.
* A run produces the value returned by `handleIC` (`none` is Go's `nil` error)
  together with the list of collaborator calls, in the order in which they
  returned, each with what it returned.
* Logging (`c.Logger`) has no influence on control flow and is left out.
-/

namespace Trigger

/-! ## Regular expressions (the fragment of Go `regexp` syntax the file uses) -/

/-- One piece of a pattern. A pattern is the concatenation of its pieces. -/
inductive Re where
  /-- Pattern `^` under the flag `(?m)`: at the start of the text or right after a line feed. -/
  | beginLine : Re
  /-- Pattern `$` under the flag `(?m)`: at the end of the text or right before a line feed. -/
  | endLine : Re
  /-- A literal character. -/
  | lit : Char → Re
  /-- The star `x*` of a character class `x`. -/
  | star : (Char → Bool) → Re

/-- The class `\s` of Go's regexp syntax: `[\t\n\f\r ]`. -/
def isSpace (c : Char) : Bool :=
  c == '\t' || c == '\n' || c == Char.ofNat 12 || c == '\r' || c == ' '

/-- The literal pieces of a string. -/
def litStr (s : String) : List Re := s.data.map Re.lit

/-- Try `k` after zero or more characters of the class `cls`. -/
def starLoop (cls : Char → Bool) (k : Option Char → List Char → Bool) :
    Option Char → List Char → Bool
  | prev, [] => k prev []
  | prev, x :: xs => k prev (x :: xs) || (cls x && starLoop cls k (some x) xs)

/-- Does the pattern match a prefix of the text `s`, `prev` being the character before `s`? -/
def matchHere : List Re → Option Char → List Char → Bool
  | [], _, _ => true
  | Re.beginLine :: r, prev, s =>
    (prev == none || prev == some '\n') && matchHere r prev s
  | Re.endLine :: r, prev, s =>
    (s.head? == none || s.head? == some '\n') && matchHere r prev s
  | Re.lit c :: r, _, s =>
    match s with
    | [] => false
    | x :: xs => x == c && matchHere r (some x) xs
  | Re.star cls :: r, prev, s => starLoop cls (matchHere r) prev s

/-- The unanchored search behind `MatchString`: try every position. -/
def search (re : List Re) : Option Char → List Char → Bool
  | prev, [] => matchHere re prev []
  | prev, x :: xs => matchHere re prev (x :: xs) || search re (some x) xs

/-- Model of `(*Regexp).MatchString`. -/
def MatchString (re : List Re) (s : String) : Bool := search re none s.data

/-- The pattern of `okToTest`, `(?m)^/ok-to-test\s*$`. -/
def okToTest : List Re := [Re.beginLine] ++ litStr "/ok-to-test" ++ [Re.star isSpace, Re.endLine]

/-- The pattern of `retest`, `(?m)^/retest\s*$`. -/
def retest : List Re := [Re.beginLine] ++ litStr "/retest" ++ [Re.star isSpace, Re.endLine]

/-! ## What the specification says about command lines -/

/-- The lines of a text: the pieces between line feeds. -/
def splitLines : List Char → List (List Char)
  | [] => [[]]
  | c :: cs =>
    if c = '\n' then [] :: splitLines cs
    else
      match splitLines cs with
      | [] => [[c]]
      | l :: ls => (c :: l) :: ls

/-- A line without its trailing whitespace. -/
def trimRight (l : List Char) : List Char := (l.reverse.dropWhile isSpace).reverse

/-- A line without its leading and trailing whitespace. -/
def trimSpace (l : List Char) : List Char := trimRight (l.dropWhile isSpace)

/-- Some line of the body, trimmed of whitespace, is exactly the command. -/
def hasTrimmedLine (cmd body : String) : Bool :=
  (splitLines body.data).any (fun l => trimSpace l == cmd.data)

/-- Some line of the body is the command followed by whitespace only. -/
def hasCommandLine (cmd body : String) : Bool :=
  (splitLines body.data).any (fun l => trimRight l == cmd.data)

/-- The character before a position: the last one of what was read, else the one before that. -/
def lastOr (prev : Option Char) (pre : List Char) : Option Char :=
  match pre.getLast? with
  | some c => some c
  | none => prev

/-! ## Data model

Types of the packages `github`, `config` and `kube`, with the fields that
`handleIC` reads.  Methods of those types that `handleIC` calls
(`Issue.IsPullRequest`, `Issue.HasLabel`, `Presubmit.RunsAgainstBranch`) are
declared outside this file; a value carries their result as a field. -/

/-- A Go `error`, by its message. -/
abbrev Error := String

/-- Go type `github.User`. -/
structure User where
  Login : String

/-- Go type `github.Repo`. -/
structure Repo where
  Owner : User
  Name : String
  FullName : String

/-- Go type `github.Issue`; `IsPullRequest` and `HasLabel` are its methods. -/
structure Issue where
  Number : Int
  State : String
  IsPullRequest : Bool
  HasLabel : String → Bool

/-- Go type `github.IssueComment`. -/
structure IssueComment where
  Body : String
  User : User

/-- Go type `github.IssueCommentEvent`. -/
structure IssueCommentEvent where
  Action : String
  Issue : Issue
  Comment : IssueComment
  Repo : Repo
  GUID : String

/-- Go type `github.PullRequestBranch`. -/
structure PullRequestBranch where
  Ref : String
  SHA : String

/-- Go type `github.PullRequest`. -/
structure PullRequest where
  User : User
  Base : PullRequestBranch
  Head : PullRequestBranch

/-- Go type `github.PullRequestChange`. -/
structure PullRequestChange where
  Filename : String

/-- Go type `github.Status`. -/
structure Status where
  State : String
  Context : String
  Description : String

/-- Go type `github.CombinedStatus`. -/
structure CombinedStatus where
  Statuses : List Status

/-- Go type `config.Presubmit`; `RunsAgainstBranch` is its method, `Labels` a Go map
given by its entries. -/
structure Presubmit where
  Name : String
  Context : String
  SkipReport : Bool
  Labels : List (String × String)
  RunsAgainstBranch : String → Bool

/-- Go type `kube.Pull`. -/
structure Pull where
  Number : Int
  Author : String
  SHA : String

/-- Go type `kube.Refs`. -/
structure Refs where
  Org : String
  Repo : String
  BaseRef : String
  BaseSHA : String
  Pulls : List Pull

/-- The value `pjutil.NewProwJob(pjutil.PresubmitSpec(job, kr), labels)`: both functions are
declared outside this file, so the record keeps their three arguments. -/
structure ProwJob where
  job : Presubmit
  refs : Refs
  labels : List (String × String)

/-- Modelled from the spec: the constant `github.IssueCommentActionCreated` (the action kind
"created"). -/
def IssueCommentActionCreated : String := "created"

/-- Modelled from the spec: the constant `github.StatusSuccess`. -/
def StatusSuccess : String := "success"

/-- Modelled from the spec: the constant `github.StatusPending`. -/
def StatusPending : String := "pending"

/-- Modelled from the spec: the constant `github.StatusError`. -/
def StatusError : String := "error"

/-- Modelled from the spec: the constant `github.StatusFailure`. -/
def StatusFailure : String := "failure"

/-- Modelled from the spec: the package constant `needsOkToTest` (the label
`needs-ok-to-test` of Scenario A), declared in another file of the package. -/
def needsOkToTest : String := "needs-ok-to-test"

/-- A collaborator that is handed the lazy accessor `files`: it returns, or it invokes the
accessor and goes on with what the accessor gave. -/
inductive WithFiles (α : Type) where
  | ret : α → WithFiles α
  | callFiles : (Except Error (List String) → WithFiles α) → WithFiles α

/-- The collaborators of `handleIC`.  The first argument of every call is the number of
collaborator calls that returned before it in the run.  A Go result `(v, err)` is an
`Except`, a Go result `error` is an `Option` (`none` for `nil`). -/
structure Client where
  BotName : Nat → Except Error String
  GetPullRequestChanges : Nat → String → String → Int → Except Error (List PullRequestChange)
  MatchingPresubmits : Nat → String → String → Bool → WithFiles (Except Error (List Presubmit))
  RetestPresubmits : Nat → String → List String → List String →
    WithFiles (Except Error (List Presubmit))
  isUserTrusted : Nat → String → String → String → Except Error Bool
  trustedPullRequest : Nat → PullRequest → String → List IssueComment → Except Error Bool
  clearStaleComments : Nat → String → PullRequest → List IssueComment → Option Error
  RemoveLabel : Nat → String → String → Int → String → Option Error
  GetPullRequest : Nat → String → String → Int → Except Error PullRequest
  GetCombinedStatus : Nat → String → String → String → Except Error CombinedStatus
  ListIssueComments : Nat → String → String → Int → Except Error (List IssueComment)
  CreateComment : Nat → String → String → Int → String → Option Error
  GetRef : Nat → String → String → String → Except Error String
  CreateStatus : Nat → String → String → String → Status → Option Error
  CreateProwJob : Nat → ProwJob → Option Error
  /-- The pure helper `plugins.FormatICResponse`. -/
  FormatICResponse : IssueComment → String → String
  /-- The constant `github.EventGUID`, a label key. -/
  EventGUID : String

/-- A collaborator call that returned, with its arguments and its result. -/
inductive Event where
  | BotName (r : Except Error String)
  | GetPullRequestChanges (org repo : String) (number : Int)
      (r : Except Error (List PullRequestChange))
  | MatchingPresubmits (fullName body : String) (testAll : Bool)
      (r : Except Error (List Presubmit))
  | RetestPresubmits (fullName : String) (skipContexts runContexts : List String)
      (r : Except Error (List Presubmit))
  | isUserTrusted (user trustedOrg org : String) (r : Except Error Bool)
  | trustedPullRequest (pr : PullRequest) (trustedOrg : String) (comments : List IssueComment)
      (r : Except Error Bool)
  | clearStaleComments (trustedOrg : String) (pr : PullRequest) (comments : List IssueComment)
      (r : Option Error)
  | RemoveLabel (org repo : String) (number : Int) (label : String) (r : Option Error)
  | GetPullRequest (org repo : String) (number : Int) (r : Except Error PullRequest)
  | GetCombinedStatus (org repo sha : String) (r : Except Error CombinedStatus)
  | ListIssueComments (org repo : String) (number : Int) (r : Except Error (List IssueComment))
  | CreateComment (org repo : String) (number : Int) (body : String) (r : Option Error)
  | GetRef (org repo ref : String) (r : Except Error String)
  | CreateStatus (org repo sha : String) (status : Status) (r : Option Error)
  | CreateProwJob (pj : ProwJob) (r : Option Error)

/-! ## The handler -/

/-- The closure `files`: `changedFiles` is the captured variable (`none` for a nil slice),
`now` the number of calls made so far.  Returns the closure's result, the new value of
`changedFiles` and the calls made. -/
def files (c : Client) (org repo : String) (number : Int)
    (changedFiles : Option (List String)) (now : Nat) :
    Except Error (List String) × Option (List String) × List Event :=
  match changedFiles with
  | some cached => (.ok cached, some cached, [])
  | none =>
    match c.GetPullRequestChanges now org repo number with
    | .error err => (.error err, none, [Event.GetPullRequestChanges org repo number (.error err)])
    | .ok changes =>
      (.ok (changes.map (·.Filename)), some (changes.map (·.Filename)),
        [Event.GetPullRequestChanges org repo number (.ok changes)])

/-- Run a collaborator that was handed `files`. -/
def runWithFiles {α : Type} (c : Client) (org repo : String) (number : Int) :
    WithFiles α → Option (List String) → Nat → α × Option (List String) × List Event
  | .ret a, changedFiles, _ => (a, changedFiles, [])
  | .callFiles k, changedFiles, now =>
    let r := files c org repo number changedFiles now
    let rest := runWithFiles c org repo number (k r.1) r.2.1 (now + r.2.2.length)
    (rest.1, rest.2.1, r.2.2 ++ rest.2.2)

/-- A Go `map[string]bool` used as a set: `m[k] = true`. -/
def setInsert (m : List String) (k : String) : List String :=
  if k ∈ m then m else m ++ [k]

/-- The loop over `combinedStatus.Statuses`: the pair `(skipContexts, runContexts)`. -/
def classifyStatuses : List Status → List String × List String → List String × List String
  | [], acc => acc
  | status :: rest, (skipContexts, runContexts) =>
    if status.State = StatusSuccess ∨ status.State = StatusPending then
      classifyStatuses rest (setInsert skipContexts status.Context, runContexts)
    else if status.State = StatusError ∨ status.State = StatusFailure then
      classifyStatuses rest (skipContexts, setInsert runContexts status.Context)
    else
      classifyStatuses rest (skipContexts, runContexts)

/-- The first loop over `requestedJobs`: the keys of `anyShardRunsAgainstBranch`. -/
def anyShardRunsAgainstBranch (baseRef : String) : List Presubmit → List String → List String
  | [], m => m
  | job :: rest, m =>
    if job.RunsAgainstBranch baseRef then
      anyShardRunsAgainstBranch baseRef rest (setInsert m job.Context)
    else
      anyShardRunsAgainstBranch baseRef rest m

/-- A Go map assignment `m[k] = v` on a map given by its entries. -/
def mapSet (m : List (String × String)) (k v : String) : List (String × String) :=
  m.filter (fun e => e.1 != k) ++ [(k, v)]

/-- A Go map lookup. -/
def mapGet (m : List (String × String)) (k : String) : Option String :=
  (m.find? (fun e => e.1 == k)).map (·.2)

/-- The label map of a new job: a copy of `job.Labels` with `github.EventGUID` set. -/
def jobLabels (c : Client) (ic : IssueCommentEvent) (job : Presubmit) : List (String × String) :=
  mapSet (job.Labels.foldl (fun labels e => mapSet labels e.1 e.2) []) c.EventGUID ic.GUID

/-- The job record built for an applicable job. -/
def newProwJob (c : Client) (ic : IssueCommentEvent) (pr : PullRequest) (ref : String)
    (job : Presubmit) : ProwJob :=
  { job := job
    refs :=
      { Org := ic.Repo.Owner.Login
        Repo := ic.Repo.Name
        BaseRef := pr.Base.Ref
        BaseSHA := ref
        Pulls := [{ Number := ic.Issue.Number, Author := pr.User.Login, SHA := pr.Head.SHA }] }
    labels := jobLabels c ic job }

/-- The placeholder status of an inapplicable job. -/
def skippedStatus (job : Presubmit) : Status :=
  { State := StatusSuccess, Context := job.Context, Description := "Skipped" }

/-- The value of `fmt.Errorf("errors starting jobs: %v", errors)`. -/
def startErrors (errors : List Error) : Error :=
  "errors starting jobs: [" ++ " ".intercalate errors ++ "]"

/-- The second loop over `requestedJobs` and the return that follows it: `anyShard` is the
map built by the first loop, `errors` the slice collected so far, `now` the number of calls
made so far. -/
def startJobs (c : Client) (ic : IssueCommentEvent) (pr : PullRequest) (ref : String)
    (anyShard : List String) : List Presubmit → List Error → Nat → Option Error × List Event
  | [], errors, _ => (if errors.length > 0 then some (startErrors errors) else none, [])
  | job :: rest, errors, now =>
    if !job.RunsAgainstBranch pr.Base.Ref then
      if !job.SkipReport && !(anyShard.contains job.Context) then
        match c.CreateStatus now ic.Repo.Owner.Login ic.Repo.Name pr.Head.SHA (skippedStatus job) with
        | some err =>
          (some err,
            [Event.CreateStatus ic.Repo.Owner.Login ic.Repo.Name pr.Head.SHA (skippedStatus job)
              (some err)])
        | none =>
          let r := startJobs c ic pr ref anyShard rest errors (now + 1)
          (r.1,
            Event.CreateStatus ic.Repo.Owner.Login ic.Repo.Name pr.Head.SHA (skippedStatus job) none
              :: r.2)
      else
        startJobs c ic pr ref anyShard rest errors now
    else
      match c.CreateProwJob now (newProwJob c ic pr ref job) with
      | some err =>
        let r := startJobs c ic pr ref anyShard rest (errors ++ [err]) (now + 1)
        (r.1, Event.CreateProwJob (newProwJob c ic pr ref job) (some err) :: r.2)
      | none =>
        let r := startJobs c ic pr ref anyShard rest errors (now + 1)
        (r.1, Event.CreateProwJob (newProwJob c ic pr ref job) none :: r.2)

/-- The body of the denial comment. -/
def denialResponse (trustedOrg org : String) : String :=
  let more := if org ≠ trustedOrg then
    "or [" ++ org ++ "](https://github.com/orgs/" ++ org ++ "/people) " else ""
  "you can't request testing unless you are a [" ++ trustedOrg ++ "](https://github.com/orgs/"
    ++ trustedOrg ++ "/people) " ++ more ++ "member."

/-- How the part of `handleIC` before the two loops over `requestedJobs` ends: with a
`return`, or with the values the loops use. -/
inductive Gathered where
  | returned (err : Option Error) (calls : List Event)
  | dispatch (pr : PullRequest) (ref : String) (requestedJobs : List Presubmit)
      (calls : List Event)

/-- Lines 148-156: the calls made by the block `if testAll && ic.Issue.HasLabel(needsOkToTest)`
after the trust gate: the removal of the label and the clearing of stale comments, whose
errors are only logged.  `now` is the number of calls made so far. -/
def cleanupCalls (c : Client) (trustedOrg : String) (ic : IssueCommentEvent) (pr : PullRequest)
    (comments : List IssueComment) (testAll : Bool) (now : Nat) : List Event :=
  if testAll && ic.Issue.HasLabel needsOkToTest then
    [Event.RemoveLabel ic.Repo.Owner.Login ic.Repo.Name ic.Issue.Number needsOkToTest
        (c.RemoveLabel now ic.Repo.Owner.Login ic.Repo.Name ic.Issue.Number needsOkToTest),
      Event.clearStaleComments trustedOrg pr comments
        (c.clearStaleComments (now + 1) trustedOrg pr comments)]
  else []

/-- Lines 148-161: the block of `cleanupCalls`, then the fetch of the base ref.  `calls` are
the calls made so far. -/
def resolveBase (c : Client) (trustedOrg : String) (ic : IssueCommentEvent) (pr : PullRequest)
    (requestedJobs : List Presubmit) (comments : List IssueComment) (testAll : Bool)
    (calls : List Event) : Gathered :=
  match c.GetRef (calls ++ cleanupCalls c trustedOrg ic pr comments testAll calls.length).length
      ic.Repo.Owner.Login ic.Repo.Name ("heads/" ++ pr.Base.Ref) with
  | .error err =>
    .returned (some err) (calls ++ cleanupCalls c trustedOrg ic pr comments testAll calls.length ++
      [Event.GetRef ic.Repo.Owner.Login ic.Repo.Name ("heads/" ++ pr.Base.Ref) (.error err)])
  | .ok ref =>
    .dispatch pr ref requestedJobs
      (calls ++ cleanupCalls c trustedOrg ic pr comments testAll calls.length ++
        [Event.GetRef ic.Repo.Owner.Login ic.Repo.Name ("heads/" ++ pr.Base.Ref) (.ok ref)])

/-- Lines 122-146: the trust gate, then `resolveBase`. -/
def trustGate (c : Client) (trustedOrg : String) (ic : IssueCommentEvent) (pr : PullRequest)
    (requestedJobs : List Presubmit) (testAll : Bool) (calls : List Event) : Gathered :=
  let org := ic.Repo.Owner.Login
  let repo := ic.Repo.Name
  let number := ic.Issue.Number
  let commentAuthor := ic.Comment.User.Login
  match c.isUserTrusted calls.length commentAuthor trustedOrg org with
  | .error err =>
    .returned (some err) (calls ++ [Event.isUserTrusted commentAuthor trustedOrg org (.error err)])
  | .ok orgMember =>
    if !orgMember then
      match c.ListIssueComments (calls.length + 1) org repo number with
      | .error err =>
        .returned (some err) (calls ++
          [Event.isUserTrusted commentAuthor trustedOrg org (.ok orgMember),
            Event.ListIssueComments org repo number (.error err)])
      | .ok comments =>
        match c.trustedPullRequest (calls.length + 2) pr trustedOrg comments with
        | .error err =>
          .returned (some err) (calls ++
            [Event.isUserTrusted commentAuthor trustedOrg org (.ok orgMember),
              Event.ListIssueComments org repo number (.ok comments),
              Event.trustedPullRequest pr trustedOrg comments (.error err)])
        | .ok trusted =>
          if !trusted then
            .returned
              (c.CreateComment (calls.length + 3) org repo number
                (c.FormatICResponse ic.Comment (denialResponse trustedOrg org)))
              (calls ++
                [Event.isUserTrusted commentAuthor trustedOrg org (.ok orgMember),
                  Event.ListIssueComments org repo number (.ok comments),
                  Event.trustedPullRequest pr trustedOrg comments (.ok trusted),
                  Event.CreateComment org repo number
                    (c.FormatICResponse ic.Comment (denialResponse trustedOrg org))
                    (c.CreateComment (calls.length + 3) org repo number
                      (c.FormatICResponse ic.Comment (denialResponse trustedOrg org)))])
          else
            resolveBase c trustedOrg ic pr requestedJobs comments testAll (calls ++
              [Event.isUserTrusted commentAuthor trustedOrg org (.ok orgMember),
                Event.ListIssueComments org repo number (.ok comments),
                Event.trustedPullRequest pr trustedOrg comments (.ok trusted)])
    else
      resolveBase c trustedOrg ic pr requestedJobs [] testAll
        (calls ++ [Event.isUserTrusted commentAuthor trustedOrg org (.ok orgMember)])

/-- The block `if shouldRetestFailed { ... }` up to the call of `RetestPresubmits`: the jobs
to append to `requestedJobs` (or the error returned) and the calls made. -/
def retestBlock (c : Client) (ic : IssueCommentEvent) (pr : PullRequest)
    (changedFiles : Option (List String)) (now : Nat) :
    Except Error (List Presubmit) × List Event :=
  let org := ic.Repo.Owner.Login
  let repo := ic.Repo.Name
  let number := ic.Issue.Number
  match c.GetCombinedStatus now org repo pr.Head.SHA with
  | .error err => (.error err, [Event.GetCombinedStatus org repo pr.Head.SHA (.error err)])
  | .ok combinedStatus =>
    let sets := classifyStatuses combinedStatus.Statuses ([], [])
    let m := runWithFiles c org repo number
      (c.RetestPresubmits (now + 1) ic.Repo.FullName sets.1 sets.2) changedFiles (now + 1)
    (m.1, [Event.GetCombinedStatus org repo pr.Head.SHA (.ok combinedStatus)] ++ m.2.2 ++
      [Event.RetestPresubmits ic.Repo.FullName sets.1 sets.2 m.1])

/-- Lines 100-120: the block `if shouldRetestFailed { ... }`, which appends the jobs of
`retestBlock` to `requestedJobs`; nothing is appended and no call is made when the comment
did not ask for a retest. -/
def retestSelection (c : Client) (ic : IssueCommentEvent) (pr : PullRequest)
    (changedFiles : Option (List String)) (shouldRetestFailed : Bool) (now : Nat) :
    Except Error (List Presubmit) × List Event :=
  if shouldRetestFailed then retestBlock c ic pr changedFiles now else (.ok [], [])

/-- Lines 95-120: the fetch of the pull request and the retest selection, then `trustGate`.
`changedFiles` is the variable captured by `files`. -/
def fetchPullRequest (c : Client) (trustedOrg : String) (ic : IssueCommentEvent)
    (requestedJobs : List Presubmit) (changedFiles : Option (List String))
    (testAll shouldRetestFailed : Bool) (calls : List Event) : Gathered :=
  match c.GetPullRequest calls.length ic.Repo.Owner.Login ic.Repo.Name ic.Issue.Number with
  | .error err =>
    .returned (some err)
      (calls ++ [Event.GetPullRequest ic.Repo.Owner.Login ic.Repo.Name ic.Issue.Number (.error err)])
  | .ok pr =>
    match (retestSelection c ic pr changedFiles shouldRetestFailed (calls.length + 1)).1 with
    | .error err =>
      .returned (some err)
        (calls ++ [Event.GetPullRequest ic.Repo.Owner.Login ic.Repo.Name ic.Issue.Number (.ok pr)]
          ++ (retestSelection c ic pr changedFiles shouldRetestFailed (calls.length + 1)).2)
    | .ok retests =>
      trustGate c trustedOrg ic pr (requestedJobs ++ retests) testAll
        (calls ++ [Event.GetPullRequest ic.Repo.Owner.Login ic.Repo.Name ic.Issue.Number (.ok pr)]
          ++ (retestSelection c ic pr changedFiles shouldRetestFailed (calls.length + 1)).2)

/-- Lines 80-93: the return taken when no job is requested. -/
def noCandidateJobs (c : Client) (trustedOrg : String) (ic : IssueCommentEvent)
    (testAll : Bool) (calls : List Event) : Gathered :=
  let org := ic.Repo.Owner.Login
  let commentAuthor := ic.Comment.User.Login
  if testAll && ic.Issue.HasLabel needsOkToTest then
    match c.isUserTrusted calls.length commentAuthor trustedOrg org with
    | .error err =>
      .returned (some err) (calls ++ [Event.isUserTrusted commentAuthor trustedOrg org (.error err)])
    | .ok orgMember =>
      if orgMember then
        .returned
          (c.RemoveLabel (calls.length + 1) ic.Repo.Owner.Login ic.Repo.Name ic.Issue.Number
            needsOkToTest)
          (calls ++
            [Event.isUserTrusted commentAuthor trustedOrg org (.ok orgMember),
              Event.RemoveLabel ic.Repo.Owner.Login ic.Repo.Name ic.Issue.Number needsOkToTest
                (c.RemoveLabel (calls.length + 1) ic.Repo.Owner.Login ic.Repo.Name
                  ic.Issue.Number needsOkToTest)])
      else
        .returned none (calls ++ [Event.isUserTrusted commentAuthor trustedOrg org (.ok orgMember)])
  else .returned none calls

/-- Lines 73-76: the call `c.Config.MatchingPresubmits(ic.Repo.FullName, ic.Comment.Body,
testAll, files)`, made after the call of `BotName`: its result, the value of `changedFiles`
after it and the calls the accessor made. -/
def matchingPresubmits (c : Client) (ic : IssueCommentEvent) :
    Except Error (List Presubmit) × Option (List String) × List Event :=
  runWithFiles c ic.Repo.Owner.Login ic.Repo.Name ic.Issue.Number
    (c.MatchingPresubmits 1 ic.Repo.FullName ic.Comment.Body
      (MatchString okToTest ic.Comment.Body)) none 1

/-- The calls made once `MatchingPresubmits` has returned `r`. -/
def callsAfterMatching (c : Client) (ic : IssueCommentEvent) (botName : String)
    (r : Except Error (List Presubmit)) : List Event :=
  [Event.BotName (.ok botName)] ++ (matchingPresubmits c ic).2.2 ++
    [Event.MatchingPresubmits ic.Repo.FullName ic.Comment.Body
      (MatchString okToTest ic.Comment.Body) r]

/-- Lines 32-79, then `noCandidateJobs` or `fetchPullRequest`: the part of `handleIC` before
the two loops over `requestedJobs`. -/
def gatherJobs (c : Client) (trustedOrg : String) (ic : IssueCommentEvent) : Gathered :=
  if ic.Action ≠ IssueCommentActionCreated then .returned none []
  else if !ic.Issue.IsPullRequest then .returned none []
  else if ic.Issue.State ≠ "open" then .returned none []
  else
    match c.BotName 0 with
    | .error err => .returned (some err) [Event.BotName (.error err)]
    | .ok botName =>
      if ic.Comment.User.Login = botName then .returned none [Event.BotName (.ok botName)]
      else
        match (matchingPresubmits c ic).1 with
        | .error err => .returned (some err) (callsAfterMatching c ic botName (.error err))
        | .ok requestedJobs =>
          if !(MatchString retest ic.Comment.Body) && requestedJobs.length == 0 then
            noCandidateJobs c trustedOrg ic (MatchString okToTest ic.Comment.Body)
              (callsAfterMatching c ic botName (.ok requestedJobs))
          else
            fetchPullRequest c trustedOrg ic requestedJobs (matchingPresubmits c ic).2.1
              (MatchString okToTest ic.Comment.Body) (MatchString retest ic.Comment.Body)
              (callsAfterMatching c ic botName (.ok requestedJobs))

/-- Lines 163-214: the two loops over `requestedJobs` and the final return. -/
def dispatchJobs (c : Client) (ic : IssueCommentEvent) : Gathered → Option Error × List Event
  | .returned err calls => (err, calls)
  | .dispatch pr ref requestedJobs calls =>
    ((startJobs c ic pr ref (anyShardRunsAgainstBranch pr.Base.Ref requestedJobs [])
        requestedJobs [] calls.length).1,
      calls ++ (startJobs c ic pr ref (anyShardRunsAgainstBranch pr.Base.Ref requestedJobs [])
        requestedJobs [] calls.length).2)

/-- Model of `handleIC`: the error returned (`none` for `nil`) and the collaborator calls
made, in order. -/
def handleIC (c : Client) (trustedOrg : String) (ic : IssueCommentEvent) :
    Option Error × List Event :=
  dispatchJobs c ic (gatherJobs c trustedOrg ic)

/-! ## Observations on a run -/

/-- A call of `CreateProwJob`. -/
def Event.isCreateProwJob : Event → Bool
  | .CreateProwJob _ _ => true
  | _ => false

/-- A call of `CreateStatus`. -/
def Event.isCreateStatus : Event → Bool
  | .CreateStatus _ _ _ _ _ => true
  | _ => false

/-- A call of `CreateComment`. -/
def Event.isCreateComment : Event → Bool
  | .CreateComment _ _ _ _ _ => true
  | _ => false

/-- A call of `RemoveLabel`. -/
def Event.isRemoveLabel : Event → Bool
  | .RemoveLabel _ _ _ _ _ => true
  | _ => false

/-- A call of `GetPullRequest`. -/
def Event.isGetPullRequest : Event → Bool
  | .GetPullRequest _ _ _ _ => true
  | _ => false

/-- A call of `isUserTrusted` that returned `true`. -/
def Event.userTrusted : Event → Bool
  | .isUserTrusted _ _ _ (.ok true) => true
  | _ => false

/-- A call of `isUserTrusted` that returned `false`. -/
def Event.userUntrusted : Event → Bool
  | .isUserTrusted _ _ _ (.ok false) => true
  | _ => false

/-- A call of `trustedPullRequest` that returned `true`. -/
def Event.prTrusted : Event → Bool
  | .trustedPullRequest _ _ _ (.ok true) => true
  | _ => false

/-- A call of `trustedPullRequest` that returned `false`. -/
def Event.prUntrusted : Event → Bool
  | .trustedPullRequest _ _ _ (.ok false) => true
  | _ => false

/-- A call of `isUserTrusted` or `trustedPullRequest` that returned an error. -/
def Event.trustError : Event → Bool
  | .isUserTrusted _ _ _ (.error _) => true
  | .trustedPullRequest _ _ _ (.error _) => true
  | _ => false

/-- A call of `GetPullRequestChanges`. -/
def Event.isGetPullRequestChanges : Event → Bool
  | .GetPullRequestChanges _ _ _ _ => true
  | _ => false

/-- A successful trust decision. -/
def Event.trustGranted (e : Event) : Bool := e.userTrusted || e.prTrusted

/-- A call of `CreateComment` that succeeded. -/
def Event.commentCreated : Event → Bool
  | .CreateComment _ _ _ _ r => r.isNone
  | _ => false

/-- A call of `MatchingPresubmits` that returned no job. -/
def Event.matchedNothing : Event → Bool
  | .MatchingPresubmits _ _ _ (.ok []) => true
  | _ => false

/-- A call of `RemoveLabel` for the given label. -/
def Event.removesLabel (label : String) : Event → Bool
  | .RemoveLabel _ _ _ l _ => l == label
  | _ => false

/-- A call of `CreateStatus` with the description "Skipped" on the given context. -/
def Event.isSkippedFor (context : String) : Event → Bool
  | .CreateStatus _ _ _ status _ => status.Description == "Skipped" && status.Context == context
  | _ => false

/-- The job of a call of `CreateProwJob`. -/
def Event.submitted? : Event → Option ProwJob
  | .CreateProwJob pj _ => some pj
  | _ => none

/-- The jobs for which `CreateProwJob` was called, in order. -/
def submitted (calls : List Event) : List ProwJob := calls.filterMap Event.submitted?

/-- The reporting contexts of the jobs for which `CreateProwJob` was called, in order. -/
def submittedContexts (calls : List Event) : List String :=
  (submitted calls).map (fun pj => pj.job.Context)

/-- The calls made before the loops. -/
def Gathered.calls : Gathered → List Event
  | .returned _ calls => calls
  | .dispatch _ _ _ calls => calls

/-- No event of kind `q` occurs before the first event of kind `p`. -/
def guarded (p q : Event → Bool) : List Event → Bool
  | [] => true
  | e :: es => if p e then true else (!q e && guarded p q es)

/-- The candidate-list entries that get a "Skipped" status on `context`: those that do not
run against the base branch, do not suppress the report, and share their context with no
candidate that runs against the base branch. -/
def skipReported (baseRef : String) (requestedJobs : List Presubmit) (context : String) :
    List Presubmit :=
  requestedJobs.filter (fun job =>
    !job.RunsAgainstBranch baseRef && !job.SkipReport && job.Context == context &&
      !requestedJobs.any (fun other => other.RunsAgainstBranch baseRef &&
        other.Context == context))

/-! ## Sample runs -/

/-- A comment created by `alice` on the open pull request 7 of `kubernetes/test-infra`. -/
def sampleEvent (body : String) (labelled : Bool) : IssueCommentEvent :=
  { Action := "created"
    Issue :=
      { Number := 7, State := "open", IsPullRequest := true
        HasLabel := fun l => labelled && l == "needs-ok-to-test" }
    Comment := { Body := body, User := { Login := "alice" } }
    Repo := { Owner := { Login := "kubernetes" }, Name := "test-infra",
              FullName := "kubernetes/test-infra" }
    GUID := "guid-1" }

/-- A client whose calls all succeed: `member` and `approved` are the answers of
`isUserTrusted` and `trustedPullRequest`, `matching` and `retests` those of
`MatchingPresubmits` and `RetestPresubmits`; the base branch is `release-1.2`. -/
def sampleClient (member approved : Bool) (matching retests : List Presubmit) : Client :=
  { BotName := fun _ => .ok "k8s-ci-robot"
    GetPullRequestChanges := fun _ _ _ _ => .ok []
    MatchingPresubmits := fun _ _ _ _ => .ret (.ok matching)
    RetestPresubmits := fun _ _ _ _ => .ret (.ok retests)
    isUserTrusted := fun _ _ _ _ => .ok member
    trustedPullRequest := fun _ _ _ _ => .ok approved
    clearStaleComments := fun _ _ _ _ => none
    RemoveLabel := fun _ _ _ _ _ => none
    GetPullRequest := fun _ _ _ _ =>
      .ok { User := { Login := "bob" }, Base := { Ref := "release-1.2", SHA := "b0" },
            Head := { Ref := "feature", SHA := "h0" } }
    GetCombinedStatus := fun _ _ _ _ => .ok { Statuses := [] }
    ListIssueComments := fun _ _ _ _ => .ok []
    CreateComment := fun _ _ _ _ _ => none
    GetRef := fun _ _ _ _ => .ok "b0"
    CreateStatus := fun _ _ _ _ _ => none
    CreateProwJob := fun _ _ => none
    FormatICResponse := fun _ resp => resp
    EventGUID := "event-GUID" }

/-- A job with the given name and context that runs against one branch only. -/
def shard (name context branch : String) : Presubmit :=
  { Name := name, Context := context, SkipReport := false, Labels := []
    RunsAgainstBranch := fun b => b == branch }

/-- Scenario D: two shards of `e2e`, neither of which runs against `release-1.2`. -/
def scenarioD : Option Error × List Event :=
  handleIC (sampleClient true false [shard "e2e" "e2e" "master", shard "e2e" "e2e" "release-1.1"] [])
    "kubernetes" (sampleEvent "/test e2e" false)

/-- A comment that selects the job `unit` explicitly and through `/retest`. -/
def namedTwice : Option Error × List Event :=
  handleIC (sampleClient true false [shard "unit" "unit" "release-1.2"]
      [shard "unit" "unit" "release-1.2"])
    "kubernetes" (sampleEvent "/test unit\n/retest" false)

/-- The sets passed to a call of `RetestPresubmits`: `(skipContexts, runContexts)`. -/
def Event.retestSets? : Event → Option (List String × List String)
  | .RetestPresubmits _ skipContexts runContexts _ => some (skipContexts, runContexts)
  | _ => none

/-- The combined status returned by a successful call of `GetCombinedStatus`. -/
def Event.combinedStatus? : Event → Option CombinedStatus
  | .GetCombinedStatus _ _ _ (.ok combinedStatus) => some combinedStatus
  | _ => none

/-- The pairs of sets passed to `RetestPresubmits` in a run. -/
def retestSets (calls : List Event) : List (List String × List String) :=
  calls.filterMap Event.retestSets?

/-- The combined statuses fetched in a run. -/
def combinedStatuses (calls : List Event) : List CombinedStatus :=
  calls.filterMap Event.combinedStatus?

/-- Scenario B: `/retest` by a member, `unit-tests` failed and `lint` succeeded, and the
catalogue resolves the retest to one job that runs against the base branch. -/
def scenarioB : Option Error × List Event :=
  handleIC
    { sampleClient true false [] [shard "unit" "unit-tests" "release-1.2"] with
      GetCombinedStatus := fun _ _ _ _ =>
        .ok { Statuses :=
          [{ State := "failure", Context := "unit-tests", Description := "" },
            { State := "success", Context := "lint", Description := "" }] } }
    "kubernetes" (sampleEvent "/retest" false)

/-- Every pair of sets passed to `RetestPresubmits` is the classification of a combined
status fetched in the same run. -/
def Classified (calls : List Event) : Prop :=
  ∀ sets ∈ retestSets calls, ∃ combinedStatus ∈ combinedStatuses calls,
    sets = classifyStatuses combinedStatus.Statuses ([], [])

/-- The arguments of a call of `CreateStatus`: organisation, repository, commit and status. -/
def Event.status? : Event → Option (String × String × String × Status)
  | .CreateStatus org repo sha status _ => some (org, repo, sha, status)
  | _ => none

/-- The statuses for which `CreateStatus` was called, in order. -/
def createdStatuses (calls : List Event) : List (String × String × String × Status) :=
  calls.filterMap Event.status?

/-- The candidate-list entries that get a placeholder status: those that do not run against
the base branch, do not suppress the report, and share their context with no candidate that
runs against the base branch. -/
def skipPlaceholders (baseRef : String) (requestedJobs : List Presubmit) : List Presubmit :=
  requestedJobs.filter (fun job =>
    !job.RunsAgainstBranch baseRef && !job.SkipReport &&
      !requestedJobs.any (fun other => other.RunsAgainstBranch baseRef &&
        other.Context == job.Context))

/-- The error of a call of `CreateProwJob` that failed. -/
def Event.submitError? : Event → Option Error
  | .CreateProwJob _ (some err) => some err
  | _ => none

/-- The errors of the calls of `CreateProwJob` that failed, in order. -/
def submitErrors (calls : List Event) : List Error := calls.filterMap Event.submitError?

/-- A call of `CreateStatus` that failed. -/
def Event.statusFailed : Event → Bool
  | .CreateStatus _ _ _ _ (some _) => true
  | _ => false

/-- A run in which the submission of `unit` fails and then the placeholder status of `e2e`
fails too. -/
def submitThenStatusFails : Option Error × List Event :=
  handleIC
    { sampleClient true false
        [shard "unit" "unit" "release-1.2", shard "e2e" "e2e" "master"] [] with
      CreateProwJob := fun _ _ => some "backend down"
      CreateStatus := fun _ _ _ _ _ => some "status down" }
    "kubernetes" (sampleEvent "/test all" false)

/-- A call of `GetPullRequestChanges` that succeeded. -/
def Event.changesFetched : Event → Bool
  | .GetPullRequestChanges _ _ _ (.ok _) => true
  | _ => false

/-- The number of calls of `GetPullRequestChanges` made after the first one that succeeded. -/
def fetchesAfterSuccess : List Event → Nat
  | [] => 0
  | e :: es =>
    if e.changesFetched then es.countP Event.isGetPullRequestChanges
    else fetchesAfterSuccess es

/-- A run in which `MatchingPresubmits` invokes the accessor twice and the fetch of the
changes fails each time. -/
def fetchFailsTwice : Option Error × List Event :=
  handleIC
    { sampleClient true false [] [] with
      GetPullRequestChanges := fun _ _ _ _ => .error "rate limited"
      MatchingPresubmits := fun _ _ _ _ =>
        .callFiles (fun _ => .callFiles (fun _ => .ret (.ok []))) }
    "kubernetes" (sampleEvent "/test all" false)

/-- A call of the comment-history fallback: `ListIssueComments` or `trustedPullRequest`. -/
def Event.isFallback : Event → Bool
  | .ListIssueComments _ _ _ _ => true
  | .trustedPullRequest _ _ _ _ => true
  | _ => false

/-- The error returned by a fetch that failed: a call of `BotName`, `MatchingPresubmits`,
`GetPullRequest`, `GetCombinedStatus`, `RetestPresubmits`, `isUserTrusted`,
`ListIssueComments`, `trustedPullRequest` or `GetRef` whose result is an error. -/
def Event.fetchError? : Event → Option Error
  | .BotName (.error err) => some err
  | .MatchingPresubmits _ _ _ (.error err) => some err
  | .GetPullRequest _ _ _ (.error err) => some err
  | .GetCombinedStatus _ _ _ (.error err) => some err
  | .RetestPresubmits _ _ _ (.error err) => some err
  | .isUserTrusted _ _ _ (.error err) => some err
  | .ListIssueComments _ _ _ (.error err) => some err
  | .trustedPullRequest _ _ _ (.error err) => some err
  | .GetRef _ _ _ (.error err) => some err
  | _ => none

/-- A fetch that failed. -/
def Event.isFetchError (e : Event) : Bool :=
  e.fetchError?.isSome

/-- The first failed fetch of `calls`, if there is one, is the last call, and `result` is its
error. -/
def endsAtFetchError (result : Option Error) : List Event → Bool
  | [] => true
  | e :: es =>
    match e.fetchError? with
    | some err => es.isEmpty && result == some err
    | none => endsAtFetchError result es

/-- A client whose membership lookup fails. -/
def lookupFails : Client :=
  { sampleClient true false [shard "unit" "unit" "release-1.2"] [] with
    isUserTrusted := fun _ _ _ _ => .error "lookup failed" }

/-- The call with the outcome of `RemoveLabel` or `clearStaleComments` erased. -/
def Event.eraseCleanup : Event → Event
  | .RemoveLabel org repo number label _ => .RemoveLabel org repo number label none
  | .clearStaleComments trustedOrg pr comments _ => .clearStaleComments trustedOrg pr comments none
  | e => e

/-- The outcome of the part before the loops, with the outcomes of `RemoveLabel` and
`clearStaleComments` erased from the calls. -/
def Gathered.eraseCleanup : Gathered → Gathered
  | .returned err calls => .returned err (calls.map Event.eraseCleanup)
  | .dispatch pr ref requestedJobs calls =>
    .dispatch pr ref requestedJobs (calls.map Event.eraseCleanup)

/-- A call of `RemoveLabel` whose outcome is not `result`. -/
def Event.removalDiffers (result : Option Error) : Event → Bool
  | .RemoveLabel _ _ _ _ r => r != result
  | _ => false

/-- A client whose calls all succeed but `RemoveLabel`; `MatchingPresubmits` returns no job. -/
def labelLocked : Client :=
  { sampleClient true false [] [] with
    RemoveLabel := fun _ _ _ _ _ => some "label locked" }

/-- A call of `clearStaleComments`. -/
def Event.isClearStaleComments : Event → Bool
  | .clearStaleComments _ _ _ _ => true
  | _ => false

/-- A call of `GetRef`. -/
def Event.isGetRef : Event → Bool
  | .GetRef _ _ _ _ => true
  | _ => false

/-- The calls start with a call of `clearStaleComments` followed by a call of `GetRef`. -/
def startsWithCleanup : List Event → Bool
  | e2 :: e3 :: _ => e2.isClearStaleComments && e3.isGetRef
  | _ => false

/-- A run contains a call of `RemoveLabel` directly followed by a call of
`clearStaleComments` and a call of `GetRef`. -/
def cleanupThenRef : List Event → Bool
  | [] => false
  | e :: es => (e.isRemoveLabel && startsWithCleanup es) || cleanupThenRef es

/-- A call of `isUserTrusted`. -/
def Event.isTrustCheck : Event → Bool
  | .isUserTrusted _ _ _ _ => true
  | _ => false

/-- A call of `MatchingPresubmits`. -/
def Event.isMatchingPresubmits : Event → Bool
  | .MatchingPresubmits _ _ _ _ => true
  | _ => false

/-- A call of `RetestPresubmits`. -/
def Event.isRetestPresubmits : Event → Bool
  | .RetestPresubmits _ _ _ _ => true
  | _ => false

/-- The jobs returned by the calls of `MatchingPresubmits` of a run, in order. -/
def matchedJobs : List Event → List Presubmit
  | [] => []
  | .MatchingPresubmits _ _ _ (.ok jobs) :: es => jobs ++ matchedJobs es
  | _ :: es => matchedJobs es

/-- The jobs returned by the calls of `RetestPresubmits` of a run, in order. -/
def retestJobs : List Event → List Presubmit
  | [] => []
  | .RetestPresubmits _ _ _ (.ok jobs) :: es => jobs ++ retestJobs es
  | _ :: es => retestJobs es

/-- What a collaborator that was handed the accessor returns when the invocations of the
accessor are answered, in order, with the errors `errs` and every further one with `v`. -/
def WithFiles.withAnswers {α : Type} :
    WithFiles α → List Error → Except Error (List String) → α
  | .ret a, _, _ => a
  | .callFiles k, err :: errs, v => (k (.error err)).withAnswers errs v
  | .callFiles k, [], v => (k v).withAnswers [] v

/-- The errors of the calls of `GetPullRequestChanges` that failed, in order. -/
def failedFetches : List Event → List Error
  | [] => []
  | .GetPullRequestChanges _ _ _ (.error err) :: es => err :: failedFetches es
  | _ :: es => failedFetches es

/-- The filenames of the changes returned by the first call of `GetPullRequestChanges` that
succeeded, in the order of the changes. -/
def fetchedFiles : List Event → Option (List String)
  | [] => none
  | .GetPullRequestChanges _ _ _ (.ok changes) :: _ => some (changes.map (·.Filename))
  | _ :: es => fetchedFiles es

/-- A call of `GetCombinedStatus`. -/
def Event.isGetCombinedStatus : Event → Bool
  | .GetCombinedStatus _ _ _ _ => true
  | _ => false

/-- A call made to select jobs: `MatchingPresubmits`, `RetestPresubmits`,
`GetCombinedStatus` or `GetPullRequestChanges`. -/
def Event.isSelection : Event → Bool
  | .MatchingPresubmits _ _ _ _ => true
  | .RetestPresubmits _ _ _ _ => true
  | .GetCombinedStatus _ _ _ _ => true
  | .GetPullRequestChanges _ _ _ _ => true
  | _ => false

/-- A client whose fetch of the changes returns two files; `MatchingPresubmits` invokes the
accessor twice and `RetestPresubmits` once, and each returns one job per filename of the
last answer it got. -/
def twoFiles : Client :=
  { sampleClient true false [] [] with
    GetPullRequestChanges := fun _ _ _ _ => .ok [{ Filename := "a.go" }, { Filename := "b.go" }]
    MatchingPresubmits := fun _ _ _ _ =>
      .callFiles (fun _ => .callFiles (fun r =>
        .ret (r.map (fun names => names.map (fun n => shard n n "release-1.2")))))
    RetestPresubmits := fun _ _ _ _ =>
      .callFiles (fun r =>
        .ret (r.map (fun names => names.map (fun n => shard n n "release-1.2")))) }

/-! ## Lemmas on the matcher -/

theorem lastOr_nil (prev : Option Char) : lastOr prev [] = prev := rfl

theorem lastOr_cons (prev : Option Char) (x : Char) (xs : List Char) :
    lastOr prev (x :: xs) = lastOr (some x) xs := by
  cases xs with
  | nil => simp [lastOr]
  | cons y ys =>
    simp only [lastOr, List.getLast?_cons_cons]
    cases h : (y :: ys).getLast? with
    | none => simp at h
    | some c => rfl

theorem search_iff (re : List Re) (prev : Option Char) (s : List Char) :
    search re prev s = true ↔
      ∃ pre rest, s = pre ++ rest ∧ matchHere re (lastOr prev pre) rest = true := by
  induction s generalizing prev with
  | nil =>
    constructor
    · intro h
      exact ⟨[], [], rfl, by simpa [search, lastOr_nil] using h⟩
    · rintro ⟨pre, rest, h, hm⟩
      have hp : pre = [] := by
        cases pre with
        | nil => rfl
        | cons a b => simp at h
      have hr : rest = [] := by
        cases rest with
        | nil => rfl
        | cons a b => simp at h
      subst hp; subst hr
      simpa [search, lastOr_nil] using hm
  | cons x xs ih =>
    constructor
    · intro h
      simp only [search, Bool.or_eq_true] at h
      rcases h with h | h
      · exact ⟨[], x :: xs, rfl, by simpa [lastOr_nil] using h⟩
      · obtain ⟨pre, rest, hs, hm⟩ := (ih (some x)).1 h
        exact ⟨x :: pre, rest, by simp [hs], by simpa [lastOr_cons] using hm⟩
    · rintro ⟨pre, rest, hs, hm⟩
      simp only [search, Bool.or_eq_true]
      cases pre with
      | nil =>
        left
        simp only [List.nil_append] at hs
        subst hs
        simpa [lastOr_nil] using hm
      | cons a pre =>
        right
        simp only [List.cons_append, List.cons.injEq] at hs
        obtain ⟨ha, hs⟩ := hs
        subst ha
        exact (ih (some x)).2 ⟨pre, rest, hs, by simpa [lastOr_cons] using hm⟩

theorem starLoop_iff (cls : Char → Bool) (k : Option Char → List Char → Bool)
    (prev : Option Char) (s : List Char) :
    starLoop cls k prev s = true ↔
      ∃ ws rest, s = ws ++ rest ∧ (∀ c ∈ ws, cls c = true) ∧ k (lastOr prev ws) rest = true := by
  induction s generalizing prev with
  | nil =>
    constructor
    · intro h
      exact ⟨[], [], rfl, by simp, by simpa [starLoop, lastOr_nil] using h⟩
    · rintro ⟨ws, rest, h, _, hk⟩
      have hp : ws = [] := by
        cases ws with
        | nil => rfl
        | cons a b => simp at h
      have hr : rest = [] := by
        cases rest with
        | nil => rfl
        | cons a b => simp at h
      subst hp; subst hr
      simpa [starLoop, lastOr_nil] using hk
  | cons x xs ih =>
    constructor
    · intro h
      simp only [starLoop, Bool.or_eq_true, Bool.and_eq_true] at h
      rcases h with h | ⟨hx, h⟩
      · exact ⟨[], x :: xs, rfl, by simp, by simpa [lastOr_nil] using h⟩
      · obtain ⟨ws, rest, hs, hws, hk⟩ := (ih (some x)).1 h
        refine ⟨x :: ws, rest, by simp [hs], ?_, by simpa [lastOr_cons] using hk⟩
        intro c hc
        rcases List.mem_cons.1 hc with rfl | hc
        · exact hx
        · exact hws c hc
    · rintro ⟨ws, rest, hs, hws, hk⟩
      simp only [starLoop, Bool.or_eq_true, Bool.and_eq_true]
      cases ws with
      | nil =>
        left
        simp only [List.nil_append] at hs
        subst hs
        simpa [lastOr_nil] using hk
      | cons a ws =>
        right
        simp only [List.cons_append, List.cons.injEq] at hs
        obtain ⟨ha, hs⟩ := hs
        subst ha
        refine ⟨hws x (List.mem_cons_self _ _), (ih (some x)).2 ⟨ws, rest, hs, ?_, ?_⟩⟩
        · intro c hc
          exact hws c (List.mem_cons_of_mem _ hc)
        · simpa [lastOr_cons] using hk

theorem matchHere_lits (cs : List Char) (r : List Re) (prev : Option Char) (s : List Char) :
    matchHere (cs.map Re.lit ++ r) prev s = true ↔
      ∃ xs, s = cs ++ xs ∧ matchHere r (lastOr prev cs) xs = true := by
  induction cs generalizing prev s with
  | nil => simp [lastOr_nil]
  | cons c cs ih =>
    cases s with
    | nil => simp [matchHere]
    | cons x xs =>
      simp only [List.map_cons, List.cons_append, matchHere, Bool.and_eq_true, beq_iff_eq,
        List.cons.injEq, lastOr_cons]
      constructor
      · rintro ⟨rfl, h⟩
        obtain ⟨ys, hy, hm⟩ := (ih (some x) xs).1 h
        exact ⟨ys, ⟨rfl, hy⟩, hm⟩
      · rintro ⟨ys, ⟨rfl, hy⟩, hm⟩
        exact ⟨rfl, (ih (some x) xs).2 ⟨ys, hy, hm⟩⟩

/-- What a match of a command pattern `(?m)^cmd\s*$` amounts to. -/
theorem command_match_iff (cmd : String) (body : String) :
    MatchString ([Re.beginLine] ++ litStr cmd ++ [Re.star isSpace, Re.endLine]) body = true ↔
      ∃ pre ws rest, body.data = pre ++ (cmd.data ++ (ws ++ rest)) ∧
        (pre.getLast? = none ∨ pre.getLast? = some '\n') ∧
        (∀ c ∈ ws, isSpace c = true) ∧
        (rest.head? = none ∨ rest.head? = some '\n') := by
  unfold MatchString
  rw [search_iff]
  constructor
  · rintro ⟨pre, rest, hs, hm⟩
    simp only [List.singleton_append, List.append_assoc, matchHere, litStr, Bool.and_eq_true,
      Bool.or_eq_true, beq_iff_eq] at hm
    obtain ⟨hpre, hm⟩ := hm
    obtain ⟨xs, hx, hm⟩ := (matchHere_lits _ _ _ _).1 hm
    simp only [matchHere] at hm
    obtain ⟨ws, rest2, hw, hws, hk⟩ := (starLoop_iff _ _ _ _).1 hm
    simp only [matchHere, Bool.and_true, Bool.or_eq_true, beq_iff_eq] at hk
    refine ⟨pre, ws, rest2, by rw [hs, hx, hw], ?_, hws, hk⟩
    cases hg : pre.getLast? with
    | none => left; rfl
    | some c =>
      right
      simp only [lastOr, hg] at hpre
      rcases hpre with h | h
      · simp at h
      · exact h
  · rintro ⟨pre, ws, rest, hs, hpre, hws, hrest⟩
    refine ⟨pre, cmd.data ++ (ws ++ rest), hs, ?_⟩
    simp only [List.singleton_append, List.append_assoc, matchHere, litStr, Bool.and_eq_true,
      Bool.or_eq_true, beq_iff_eq]
    constructor
    · rcases hpre with h | h
      · left; simp [lastOr, h]
      · right; simp [lastOr, h]
    · refine (matchHere_lits _ _ _ _).2 ⟨ws ++ rest, rfl, ?_⟩
      simp only [matchHere]
      refine (starLoop_iff _ _ _ _).2 ⟨ws, rest, rfl, hws, ?_⟩
      simpa only [matchHere, Bool.and_true, Bool.or_eq_true, beq_iff_eq] using hrest

/-! ## Lemmas on lines -/

theorem splitLines_shape (s : List Char) :
    ∃ l0 ls post, splitLines s = l0 :: ls ∧ s = l0 ++ post ∧ '\n' ∉ l0 ∧
      (post.head? = none ∨ post.head? = some '\n') ∧
      ∀ l ∈ ls, ∃ pre post2, s = pre ++ (l ++ post2) ∧ '\n' ∉ l ∧
        pre.getLast? = some '\n' ∧ (post2.head? = none ∨ post2.head? = some '\n') := by
  induction s with
  | nil => exact ⟨[], [], [], rfl, rfl, by simp, Or.inl rfl, by simp⟩
  | cons c cs ih =>
    obtain ⟨l0, ls, post, hsp, hcs, hl0, hpost, hls⟩ := ih
    by_cases hc : c = '\n'
    · subst hc
      refine ⟨[], l0 :: ls, '\n' :: cs, by simp [splitLines, hsp], rfl, by simp,
        Or.inr rfl, ?_⟩
      intro l hl
      rcases List.mem_cons.1 hl with rfl | hl
      · exact ⟨['\n'], post, by simp [← hcs], hl0, rfl, hpost⟩
      · obtain ⟨pre, post2, h1, h2, h3, h4⟩ := hls l hl
        refine ⟨'\n' :: pre, post2, by simp [← h1], h2, ?_, h4⟩
        cases pre with
        | nil => simp at h3
        | cons a b => simpa [List.getLast?_cons_cons] using h3
    · refine ⟨c :: l0, ls, post, by simp [splitLines, hc, hsp], by simp [← hcs], ?_, hpost, ?_⟩
      · intro hmem
        rcases List.mem_cons.1 hmem with h | h
        · exact hc h.symm
        · exact hl0 h
      · intro l hl
        obtain ⟨pre, post2, h1, h2, h3, h4⟩ := hls l hl
        refine ⟨c :: pre, post2, by simp [← h1], h2, ?_, h4⟩
        cases pre with
        | nil => simp at h3
        | cons a b => simpa [List.getLast?_cons_cons] using h3

/-- A line of the text sits between two line breaks (or ends of the text). -/
theorem position_of_mem_splitLines (s l : List Char) (h : l ∈ splitLines s) :
    ∃ pre post, s = pre ++ (l ++ post) ∧ '\n' ∉ l ∧
      (pre.getLast? = none ∨ pre.getLast? = some '\n') ∧
      (post.head? = none ∨ post.head? = some '\n') := by
  obtain ⟨l0, ls, post, hsp, hs, hl0, hpost, hls⟩ := splitLines_shape s
  rw [hsp] at h
  rcases List.mem_cons.1 h with rfl | h
  · exact ⟨[], post, by simpa using hs, hl0, Or.inl rfl, hpost⟩
  · obtain ⟨pre, post2, h1, h2, h3, h4⟩ := hls l h
    exact ⟨pre, post2, h1, h2, Or.inr h3, h4⟩

theorem splitLines_first (l post : List Char) (hl : '\n' ∉ l)
    (hpost : post.head? = none ∨ post.head? = some '\n') :
    ∃ ls, splitLines (l ++ post) = l :: ls := by
  induction l with
  | nil =>
    cases post with
    | nil => exact ⟨[], rfl⟩
    | cons p ps =>
      have hp : p = '\n' := by simpa using hpost
      subst hp
      exact ⟨splitLines ps, by simp [splitLines]⟩
  | cons c cs ih =>
    have hc : c ≠ '\n' := fun h => hl (by simp [h])
    obtain ⟨ls, h⟩ := ih (fun h => hl (List.mem_cons_of_mem _ h))
    exact ⟨ls, by simp [splitLines, hc, h]⟩

theorem splitLines_after (p t : List Char) :
    ∃ f fs, splitLines (p ++ '\n' :: t) = (f :: fs) ++ splitLines t := by
  induction p with
  | nil => exact ⟨[], [], by simp [splitLines]⟩
  | cons c cs ih =>
    obtain ⟨f, fs, h⟩ := ih
    by_cases hc : c = '\n'
    · exact ⟨[], f :: fs, by simp [splitLines, hc, h]⟩
    · exact ⟨c :: f, fs, by simp [splitLines, hc, h]⟩

/-- What sits between two line breaks (or ends of the text) is a line of the text. -/
theorem mem_splitLines_of_position (pre l post : List Char) (hl : '\n' ∉ l)
    (hpre : pre.getLast? = none ∨ pre.getLast? = some '\n')
    (hpost : post.head? = none ∨ post.head? = some '\n') :
    l ∈ splitLines (pre ++ (l ++ post)) := by
  obtain ⟨ls, hfirst⟩ := splitLines_first l post hl hpost
  rcases hpre with h | h
  · have : pre = [] := by simpa using h
    subst this
    simp [hfirst]
  · obtain ⟨p, hp⟩ : ∃ p, pre = p ++ ['\n'] := by
      rcases List.eq_nil_or_concat pre with h0 | ⟨p, b, h0⟩
      · simp [h0] at h
      · subst h0
        simp at h
        exact ⟨p, by simp [h]⟩
    subst hp
    obtain ⟨f, fs, hafter⟩ := splitLines_after p (l ++ post)
    have : p ++ ['\n'] ++ (l ++ post) = p ++ '\n' :: (l ++ post) := by simp
    rw [this, hafter, hfirst]
    simp

theorem dropWhile_append_of_all (p : Char → Bool) (a b : List Char)
    (ha : ∀ c ∈ a, p c = true) : (a ++ b).dropWhile p = b.dropWhile p := by
  induction a with
  | nil => rfl
  | cons x xs ih =>
    have hx : p x = true := ha x (List.mem_cons_self _ _)
    simp only [List.cons_append, List.dropWhile_cons, hx, if_true]
    exact ih (fun c hc => ha c (List.mem_cons_of_mem _ hc))

theorem trimRight_eq_iff (l cmd : List Char) (hcmd : ∃ t ini, cmd.reverse = t :: ini ∧ isSpace t = false) :
    trimRight l = cmd ↔ ∃ ws, l = cmd ++ ws ∧ ∀ c ∈ ws, isSpace c = true := by
  obtain ⟨t, ini, hrev, ht⟩ := hcmd
  constructor
  · intro h
    refine ⟨(l.reverse.takeWhile isSpace).reverse, ?_, ?_⟩
    · have h1 := List.takeWhile_append_dropWhile isSpace l.reverse
      have h2 : l = (l.reverse.dropWhile isSpace).reverse ++ (l.reverse.takeWhile isSpace).reverse := by
        rw [← List.reverse_append, h1, List.reverse_reverse]
      rw [← h]
      exact h2
    · intro c hc
      exact List.mem_takeWhile_imp (List.mem_reverse.1 hc)
  · rintro ⟨ws, rfl, hws⟩
    unfold trimRight
    rw [List.reverse_append, dropWhile_append_of_all _ _ _ (fun c hc => hws c (List.mem_reverse.1 hc)),
      hrev]
    simp only [List.dropWhile_cons, ht]
    rw [← hrev]
    simp

theorem break_at_line_feed (ws : List Char) :
    ∃ a b, ws = a ++ b ∧ '\n' ∉ a ∧ (b.head? = none ∨ b.head? = some '\n') := by
  induction ws with
  | nil => exact ⟨[], [], rfl, by simp, Or.inl rfl⟩
  | cons c cs ih =>
    by_cases hc : c = '\n'
    · exact ⟨[], c :: cs, rfl, by simp, Or.inr (by simp [hc])⟩
    · obtain ⟨a, b, h1, h2, h3⟩ := ih
      refine ⟨c :: a, b, by simp [h1], ?_, h3⟩
      intro hm
      rcases List.mem_cons.1 hm with h | h
      · exact hc h.symm
      · exact h2 h

/-- Completeness of a command pattern for lines made of the command and trailing whitespace. -/
theorem command_match_of_line (cmd body : String)
    (hcmd : ∃ t ini, cmd.data.reverse = t :: ini ∧ isSpace t = false)
    (h : hasCommandLine cmd body = true) :
    MatchString ([Re.beginLine] ++ litStr cmd ++ [Re.star isSpace, Re.endLine]) body = true := by
  simp only [hasCommandLine, List.any_eq_true, beq_iff_eq] at h
  obtain ⟨l, hl, htrim⟩ := h
  obtain ⟨ws, rfl, hws⟩ := (trimRight_eq_iff l cmd.data hcmd).1 htrim
  obtain ⟨pre, post, hs, _, hpre, hpost⟩ := position_of_mem_splitLines _ _ hl
  exact (command_match_iff cmd body).2 ⟨pre, ws, post, by simpa using hs, hpre, hws, hpost⟩

/-- Soundness of a command pattern: a match sits on a line that trims to the command. -/
theorem line_of_command_match (cmd body : String)
    (hfeed : '\n' ∉ cmd.data)
    (hhead : ∃ h tl, cmd.data = h :: tl ∧ isSpace h = false)
    (hcmd : ∃ t ini, cmd.data.reverse = t :: ini ∧ isSpace t = false)
    (h : MatchString ([Re.beginLine] ++ litStr cmd ++ [Re.star isSpace, Re.endLine]) body = true) :
    hasTrimmedLine cmd body = true := by
  obtain ⟨pre, ws, rest, hs, hpre, hws, hrest⟩ := (command_match_iff cmd body).1 h
  obtain ⟨a, b, hab, ha, hb⟩ := break_at_line_feed ws
  subst hab
  have hpost : (b ++ rest).head? = none ∨ (b ++ rest).head? = some '\n' := by
    cases b with
    | nil => simpa using hrest
    | cons x xs => simpa using hb
  have hline : '\n' ∉ cmd.data ++ a := by
    intro hm
    rcases List.mem_append.1 hm with h1 | h1
    · exact hfeed h1
    · exact ha h1
  have hmem := mem_splitLines_of_position pre (cmd.data ++ a) (b ++ rest) hline hpre hpost
  have hs2 : body.data = pre ++ (cmd.data ++ a ++ (b ++ rest)) := by simpa using hs
  rw [← hs2] at hmem
  simp only [hasTrimmedLine, List.any_eq_true, beq_iff_eq]
  refine ⟨cmd.data ++ a, hmem, ?_⟩
  unfold trimSpace
  obtain ⟨h0, tl, hc, hh0⟩ := hhead
  have hdrop : (cmd.data ++ a).dropWhile isSpace = cmd.data ++ a := by
    rw [hc]
    simp [List.dropWhile_cons, hh0]
  rw [hdrop]
  exact (trimRight_eq_iff _ _ hcmd).2 ⟨a, rfl, fun c hc => hws c (List.mem_append_left _ hc)⟩

/-- A match of a command pattern sits on a line made of the command followed by whitespace
only. -/
theorem commandLine_of_command_match (cmd body : String)
    (hfeed : '\n' ∉ cmd.data)
    (hcmd : ∃ t ini, cmd.data.reverse = t :: ini ∧ isSpace t = false)
    (h : MatchString ([Re.beginLine] ++ litStr cmd ++ [Re.star isSpace, Re.endLine]) body = true) :
    hasCommandLine cmd body = true := by
  obtain ⟨pre, ws, rest, hs, hpre, hws, hrest⟩ := (command_match_iff cmd body).1 h
  obtain ⟨a, b, hab, ha, hb⟩ := break_at_line_feed ws
  subst hab
  have hpost : (b ++ rest).head? = none ∨ (b ++ rest).head? = some '\n' := by
    cases b with
    | nil => simpa using hrest
    | cons x xs => simpa using hb
  have hline : '\n' ∉ cmd.data ++ a := by
    intro hm
    rcases List.mem_append.1 hm with h1 | h1
    · exact hfeed h1
    · exact ha h1
  have hmem := mem_splitLines_of_position pre (cmd.data ++ a) (b ++ rest) hline hpre hpost
  have hs2 : body.data = pre ++ (cmd.data ++ a ++ (b ++ rest)) := by simpa using hs
  rw [← hs2] at hmem
  simp only [hasCommandLine, List.any_eq_true, beq_iff_eq]
  exact ⟨cmd.data ++ a, hmem,
    (trimRight_eq_iff _ _ hcmd).2 ⟨a, rfl, fun c hc => hws c (List.mem_append_left _ hc)⟩⟩

/-! ## Case analysis of the handler, block by block -/

theorem resolveBase_cases (P : Gathered → Prop) (c : Client) (trustedOrg : String)
    (ic : IssueCommentEvent) (pr : PullRequest) (requestedJobs : List Presubmit)
    (comments : List IssueComment) (testAll : Bool) (calls : List Event)
    (herr : ∀ err,
      c.GetRef (calls ++ cleanupCalls c trustedOrg ic pr comments testAll calls.length).length
        ic.Repo.Owner.Login ic.Repo.Name ("heads/" ++ pr.Base.Ref) = .error err →
      P (.returned (some err)
        (calls ++ cleanupCalls c trustedOrg ic pr comments testAll calls.length ++
          [Event.GetRef ic.Repo.Owner.Login ic.Repo.Name ("heads/" ++ pr.Base.Ref) (.error err)])))
    (hok : ∀ ref,
      c.GetRef (calls ++ cleanupCalls c trustedOrg ic pr comments testAll calls.length).length
        ic.Repo.Owner.Login ic.Repo.Name ("heads/" ++ pr.Base.Ref) = .ok ref →
      P (.dispatch pr ref requestedJobs
        (calls ++ cleanupCalls c trustedOrg ic pr comments testAll calls.length ++
          [Event.GetRef ic.Repo.Owner.Login ic.Repo.Name ("heads/" ++ pr.Base.Ref) (.ok ref)]))) :
    P (resolveBase c trustedOrg ic pr requestedJobs comments testAll calls) := by
  unfold resolveBase
  split
  · exact herr _ (by assumption)
  · exact hok _ (by assumption)

theorem trustGate_cases (P : Gathered → Prop) (c : Client) (trustedOrg : String)
    (ic : IssueCommentEvent) (pr : PullRequest) (requestedJobs : List Presubmit)
    (testAll : Bool) (calls : List Event)
    (huser : ∀ err,
      c.isUserTrusted calls.length ic.Comment.User.Login trustedOrg ic.Repo.Owner.Login
        = .error err →
      P (.returned (some err) (calls ++
        [Event.isUserTrusted ic.Comment.User.Login trustedOrg ic.Repo.Owner.Login (.error err)])))
    (hmember :
      c.isUserTrusted calls.length ic.Comment.User.Login trustedOrg ic.Repo.Owner.Login
        = .ok true →
      P (resolveBase c trustedOrg ic pr requestedJobs [] testAll (calls ++
        [Event.isUserTrusted ic.Comment.User.Login trustedOrg ic.Repo.Owner.Login (.ok true)])))
    (hlist : ∀ err,
      c.isUserTrusted calls.length ic.Comment.User.Login trustedOrg ic.Repo.Owner.Login
        = .ok false →
      c.ListIssueComments (calls.length + 1) ic.Repo.Owner.Login ic.Repo.Name ic.Issue.Number
        = .error err →
      P (.returned (some err) (calls ++
        [Event.isUserTrusted ic.Comment.User.Login trustedOrg ic.Repo.Owner.Login (.ok false),
          Event.ListIssueComments ic.Repo.Owner.Login ic.Repo.Name ic.Issue.Number (.error err)])))
    (hpr : ∀ comments err,
      c.isUserTrusted calls.length ic.Comment.User.Login trustedOrg ic.Repo.Owner.Login
        = .ok false →
      c.ListIssueComments (calls.length + 1) ic.Repo.Owner.Login ic.Repo.Name ic.Issue.Number
        = .ok comments →
      c.trustedPullRequest (calls.length + 2) pr trustedOrg comments = .error err →
      P (.returned (some err) (calls ++
        [Event.isUserTrusted ic.Comment.User.Login trustedOrg ic.Repo.Owner.Login (.ok false),
          Event.ListIssueComments ic.Repo.Owner.Login ic.Repo.Name ic.Issue.Number (.ok comments),
          Event.trustedPullRequest pr trustedOrg comments (.error err)])))
    (hdenied : ∀ comments,
      c.isUserTrusted calls.length ic.Comment.User.Login trustedOrg ic.Repo.Owner.Login
        = .ok false →
      c.ListIssueComments (calls.length + 1) ic.Repo.Owner.Login ic.Repo.Name ic.Issue.Number
        = .ok comments →
      c.trustedPullRequest (calls.length + 2) pr trustedOrg comments = .ok false →
      P (.returned
        (c.CreateComment (calls.length + 3) ic.Repo.Owner.Login ic.Repo.Name ic.Issue.Number
          (c.FormatICResponse ic.Comment (denialResponse trustedOrg ic.Repo.Owner.Login)))
        (calls ++
          [Event.isUserTrusted ic.Comment.User.Login trustedOrg ic.Repo.Owner.Login (.ok false),
            Event.ListIssueComments ic.Repo.Owner.Login ic.Repo.Name ic.Issue.Number
              (.ok comments),
            Event.trustedPullRequest pr trustedOrg comments (.ok false),
            Event.CreateComment ic.Repo.Owner.Login ic.Repo.Name ic.Issue.Number
              (c.FormatICResponse ic.Comment (denialResponse trustedOrg ic.Repo.Owner.Login))
              (c.CreateComment (calls.length + 3) ic.Repo.Owner.Login ic.Repo.Name
                ic.Issue.Number
                (c.FormatICResponse ic.Comment
                  (denialResponse trustedOrg ic.Repo.Owner.Login)))])))
    (hfallback : ∀ comments,
      c.isUserTrusted calls.length ic.Comment.User.Login trustedOrg ic.Repo.Owner.Login
        = .ok false →
      c.ListIssueComments (calls.length + 1) ic.Repo.Owner.Login ic.Repo.Name ic.Issue.Number
        = .ok comments →
      c.trustedPullRequest (calls.length + 2) pr trustedOrg comments = .ok true →
      P (resolveBase c trustedOrg ic pr requestedJobs comments testAll (calls ++
        [Event.isUserTrusted ic.Comment.User.Login trustedOrg ic.Repo.Owner.Login (.ok false),
          Event.ListIssueComments ic.Repo.Owner.Login ic.Repo.Name ic.Issue.Number (.ok comments),
          Event.trustedPullRequest pr trustedOrg comments (.ok true)]))) :
    P (trustGate c trustedOrg ic pr requestedJobs testAll calls) := by
  unfold trustGate
  dsimp only
  split
  · exact huser _ (by assumption)
  · rename_i orgMember hu
    cases orgMember with
    | true => simpa using hmember hu
    | false =>
      simp only [Bool.not_false, if_true]
      split
      · exact hlist _ hu (by assumption)
      · rename_i comments hl
        split
        · exact hpr _ _ hu hl (by assumption)
        · rename_i trusted ht
          cases trusted with
          | true => simpa using hfallback _ hu hl ht
          | false => simpa using hdenied _ hu hl ht

theorem fetchPullRequest_cases (P : Gathered → Prop) (c : Client) (trustedOrg : String)
    (ic : IssueCommentEvent) (requestedJobs : List Presubmit)
    (changedFiles : Option (List String)) (testAll shouldRetestFailed : Bool)
    (calls : List Event)
    (hpull : ∀ err,
      c.GetPullRequest calls.length ic.Repo.Owner.Login ic.Repo.Name ic.Issue.Number
        = .error err →
      P (.returned (some err) (calls ++
        [Event.GetPullRequest ic.Repo.Owner.Login ic.Repo.Name ic.Issue.Number (.error err)])))
    (hretest : ∀ pr err,
      c.GetPullRequest calls.length ic.Repo.Owner.Login ic.Repo.Name ic.Issue.Number = .ok pr →
      (retestSelection c ic pr changedFiles shouldRetestFailed (calls.length + 1)).1
        = .error err →
      P (.returned (some err) (calls ++
        [Event.GetPullRequest ic.Repo.Owner.Login ic.Repo.Name ic.Issue.Number (.ok pr)] ++
        (retestSelection c ic pr changedFiles shouldRetestFailed (calls.length + 1)).2)))
    (hgate : ∀ pr retests,
      c.GetPullRequest calls.length ic.Repo.Owner.Login ic.Repo.Name ic.Issue.Number = .ok pr →
      (retestSelection c ic pr changedFiles shouldRetestFailed (calls.length + 1)).1
        = .ok retests →
      P (trustGate c trustedOrg ic pr (requestedJobs ++ retests) testAll (calls ++
        [Event.GetPullRequest ic.Repo.Owner.Login ic.Repo.Name ic.Issue.Number (.ok pr)] ++
        (retestSelection c ic pr changedFiles shouldRetestFailed (calls.length + 1)).2))) :
    P (fetchPullRequest c trustedOrg ic requestedJobs changedFiles testAll shouldRetestFailed
      calls) := by
  unfold fetchPullRequest
  split
  · exact hpull _ (by assumption)
  · rename_i pr hp
    split
    · exact hretest _ _ hp (by assumption)
    · exact hgate _ _ hp (by assumption)

theorem noCandidateJobs_cases (P : Gathered → Prop) (c : Client) (trustedOrg : String)
    (ic : IssueCommentEvent) (testAll : Bool) (calls : List Event)
    (hskip : (testAll && ic.Issue.HasLabel needsOkToTest) = false → P (.returned none calls))
    (huser : ∀ err, (testAll && ic.Issue.HasLabel needsOkToTest) = true →
      c.isUserTrusted calls.length ic.Comment.User.Login trustedOrg ic.Repo.Owner.Login
        = .error err →
      P (.returned (some err) (calls ++
        [Event.isUserTrusted ic.Comment.User.Login trustedOrg ic.Repo.Owner.Login (.error err)])))
    (hmember : (testAll && ic.Issue.HasLabel needsOkToTest) = true →
      c.isUserTrusted calls.length ic.Comment.User.Login trustedOrg ic.Repo.Owner.Login
        = .ok true →
      P (.returned
        (c.RemoveLabel (calls.length + 1) ic.Repo.Owner.Login ic.Repo.Name ic.Issue.Number
          needsOkToTest)
        (calls ++
          [Event.isUserTrusted ic.Comment.User.Login trustedOrg ic.Repo.Owner.Login (.ok true),
            Event.RemoveLabel ic.Repo.Owner.Login ic.Repo.Name ic.Issue.Number needsOkToTest
              (c.RemoveLabel (calls.length + 1) ic.Repo.Owner.Login ic.Repo.Name
                ic.Issue.Number needsOkToTest)])))
    (hother : (testAll && ic.Issue.HasLabel needsOkToTest) = true →
      c.isUserTrusted calls.length ic.Comment.User.Login trustedOrg ic.Repo.Owner.Login
        = .ok false →
      P (.returned none (calls ++
        [Event.isUserTrusted ic.Comment.User.Login trustedOrg ic.Repo.Owner.Login
          (.ok false)]))) :
    P (noCandidateJobs c trustedOrg ic testAll calls) := by
  unfold noCandidateJobs
  dsimp only
  split
  · rename_i hl
    split
    · exact huser _ hl (by assumption)
    · rename_i orgMember hu
      cases orgMember with
      | true => simpa using hmember hl hu
      | false => simpa using hother hl hu
  · rename_i hl
    exact hskip (by simpa using hl)

theorem gatherJobs_cases (P : Gathered → Prop) (c : Client) (trustedOrg : String)
    (ic : IssueCommentEvent)
    (hfilter : (ic.Action ≠ IssueCommentActionCreated ∨ ic.Issue.IsPullRequest = false ∨
        ic.Issue.State ≠ "open") → P (.returned none []))
    (hbot : ∀ err, ic.Action = IssueCommentActionCreated → ic.Issue.IsPullRequest = true →
      ic.Issue.State = "open" → c.BotName 0 = .error err →
      P (.returned (some err) [Event.BotName (.error err)]))
    (hself : ∀ botName, ic.Action = IssueCommentActionCreated → ic.Issue.IsPullRequest = true →
      ic.Issue.State = "open" → c.BotName 0 = .ok botName → ic.Comment.User.Login = botName →
      P (.returned none [Event.BotName (.ok botName)]))
    (hmatch : ∀ botName err, ic.Action = IssueCommentActionCreated →
      ic.Issue.IsPullRequest = true → ic.Issue.State = "open" → c.BotName 0 = .ok botName →
      ic.Comment.User.Login ≠ botName → (matchingPresubmits c ic).1 = .error err →
      P (.returned (some err) (callsAfterMatching c ic botName (.error err))))
    (hnone : ∀ botName, ic.Action = IssueCommentActionCreated →
      ic.Issue.IsPullRequest = true → ic.Issue.State = "open" → c.BotName 0 = .ok botName →
      ic.Comment.User.Login ≠ botName → (matchingPresubmits c ic).1 = .ok [] →
      MatchString retest ic.Comment.Body = false →
      P (noCandidateJobs c trustedOrg ic (MatchString okToTest ic.Comment.Body)
        (callsAfterMatching c ic botName (.ok []))))
    (hsome : ∀ botName requestedJobs, ic.Action = IssueCommentActionCreated →
      ic.Issue.IsPullRequest = true → ic.Issue.State = "open" → c.BotName 0 = .ok botName →
      ic.Comment.User.Login ≠ botName → (matchingPresubmits c ic).1 = .ok requestedJobs →
      (MatchString retest ic.Comment.Body = true ∨ requestedJobs ≠ []) →
      P (fetchPullRequest c trustedOrg ic requestedJobs (matchingPresubmits c ic).2.1
        (MatchString okToTest ic.Comment.Body) (MatchString retest ic.Comment.Body)
        (callsAfterMatching c ic botName (.ok requestedJobs)))) :
    P (gatherJobs c trustedOrg ic) := by
  unfold gatherJobs
  split
  · exact hfilter (Or.inl (by assumption))
  · rename_i h1
    split
    · rename_i h2
      exact hfilter (Or.inr (Or.inl (by simpa using h2)))
    · rename_i h2
      split
      · exact hfilter (Or.inr (Or.inr (by assumption)))
      · rename_i h3
        have h1 : ic.Action = IssueCommentActionCreated := by simpa using h1
        have h2 : ic.Issue.IsPullRequest = true := by simpa using h2
        have h3 : ic.Issue.State = "open" := by simpa using h3
        split
        · exact hbot _ h1 h2 h3 (by assumption)
        · rename_i botName hb
          split
          · exact hself _ h1 h2 h3 hb (by assumption)
          · rename_i hne
            split
            · exact hmatch _ _ h1 h2 h3 hb hne (by assumption)
            · rename_i requestedJobs hm
              split
              · rename_i hc
                simp only [Bool.and_eq_true, Bool.not_eq_true', beq_iff_eq,
                  List.length_eq_zero] at hc
                obtain ⟨hr, hj⟩ := hc
                subst hj
                exact hnone _ h1 h2 h3 hb hne hm hr
              · rename_i hc
                refine hsome _ _ h1 h2 h3 hb hne hm ?_
                simp only [Bool.and_eq_true, Bool.not_eq_true', beq_iff_eq,
                  List.length_eq_zero, not_and] at hc
                by_cases hr : MatchString retest ic.Comment.Body = true
                · exact Or.inl hr
                · exact Or.inr (hc (by simpa using hr))

/-! ## The calls made by the loops and the accessor -/

theorem files_events (c : Client) (org repo : String) (number : Int)
    (cf : Option (List String)) (now : Nat) :
    ∀ e ∈ (files c org repo number cf now).2.2, e.isGetPullRequestChanges = true := by
  unfold files
  split
  · simp
  · split <;> simp [Event.isGetPullRequestChanges]

theorem runWithFiles_events {α : Type} (c : Client) (org repo : String) (number : Int)
    (w : WithFiles α) (cf : Option (List String)) (now : Nat) :
    ∀ e ∈ (runWithFiles c org repo number w cf now).2.2, e.isGetPullRequestChanges = true := by
  induction w generalizing cf now with
  | ret a => simp [runWithFiles]
  | callFiles k ih =>
    intro e he
    simp only [runWithFiles, List.mem_append] at he
    rcases he with he | he
    · exact files_events _ _ _ _ _ _ e he
    · exact ih _ _ _ e he

theorem countP_runWithFiles {α : Type} (p : Event → Bool)
    (hp : ∀ org repo number r, p (Event.GetPullRequestChanges org repo number r) = false)
    (c : Client) (org repo : String) (number : Int)
    (w : WithFiles α) (cf : Option (List String)) (now : Nat) :
    List.countP p (runWithFiles c org repo number w cf now).2.2 = 0 := by
  rw [List.countP_eq_zero]
  intro e he
  have := runWithFiles_events c org repo number w cf now e he
  cases e <;> simp_all [Event.isGetPullRequestChanges]

theorem countP_matchingPresubmits (p : Event → Bool)
    (hp : ∀ org repo number r, p (Event.GetPullRequestChanges org repo number r) = false)
    (c : Client) (ic : IssueCommentEvent) :
    List.countP p (matchingPresubmits c ic).2.2 = 0 :=
  countP_runWithFiles p hp _ _ _ _ _ _ _

theorem countP_retestBlock (p : Event → Bool)
    (hp : ∀ org repo number r, p (Event.GetPullRequestChanges org repo number r) = false)
    (hs : ∀ org repo sha r, p (Event.GetCombinedStatus org repo sha r) = false)
    (hr : ∀ f s r x, p (Event.RetestPresubmits f s r x) = false)
    (c : Client) (ic : IssueCommentEvent) (pr : PullRequest)
    (cf : Option (List String)) (now : Nat) :
    List.countP p (retestBlock c ic pr cf now).2 = 0 := by
  unfold retestBlock
  dsimp only
  split
  · simp [hs]
  · simp [hs, hr, countP_runWithFiles p hp]

theorem countP_retestSelection (p : Event → Bool)
    (hp : ∀ org repo number r, p (Event.GetPullRequestChanges org repo number r) = false)
    (hs : ∀ org repo sha r, p (Event.GetCombinedStatus org repo sha r) = false)
    (hr : ∀ f s r x, p (Event.RetestPresubmits f s r x) = false)
    (c : Client) (ic : IssueCommentEvent) (pr : PullRequest)
    (cf : Option (List String)) (b : Bool) (now : Nat) :
    List.countP p (retestSelection c ic pr cf b now).2 = 0 := by
  unfold retestSelection
  split
  · exact countP_retestBlock p hp hs hr _ _ _ _ _
  · simp

theorem countP_startJobs (p : Event → Bool)
    (hs : ∀ org repo sha st r, p (Event.CreateStatus org repo sha st r) = false)
    (hj : ∀ pj r, p (Event.CreateProwJob pj r) = false)
    (c : Client) (ic : IssueCommentEvent) (pr : PullRequest) (ref : String)
    (anyShard : List String) (jobs : List Presubmit) (errors : List Error) (now : Nat) :
    List.countP p (startJobs c ic pr ref anyShard jobs errors now).2 = 0 := by
  induction jobs generalizing errors now with
  | nil => simp [startJobs]
  | cons job rest ih =>
    unfold startJobs
    split
    · split
      · split
        · simp [hs]
        · simp [hs, ih]
      · exact ih _ _
    · split <;> simp [hj, ih]

theorem countP_cleanupCalls (p : Event → Bool)
    (hl : ∀ org repo number label r, p (Event.RemoveLabel org repo number label r) = false)
    (hc : ∀ o pr cs r, p (Event.clearStaleComments o pr cs r) = false)
    (c : Client) (trustedOrg : String) (ic : IssueCommentEvent) (pr : PullRequest)
    (comments : List IssueComment) (testAll : Bool) (now : Nat) :
    List.countP p (cleanupCalls c trustedOrg ic pr comments testAll now) = 0 := by
  unfold cleanupCalls
  split <;> simp [hl, hc]


/-! ## Auxiliary facts on runs -/

/-! ## The claims -/

/-- C5. Event filter: an event whose action is not "created", whose issue is not a pull
request or whose issue is not open makes `handleIC` return nil without any collaborator call;
an event that passes these tests and whose comment author is the name returned by `BotName`
makes it return nil after that single call, with no write and no further call. -/
theorem event_filter (c : Client) (trustedOrg : String) (ic : IssueCommentEvent) :
    ((ic.Action ≠ "created" ∨ ic.Issue.IsPullRequest = false ∨ ic.Issue.State ≠ "open") →
      handleIC c trustedOrg ic = (none, [])) ∧
    (∀ botName, ic.Action = "created" → ic.Issue.IsPullRequest = true →
      ic.Issue.State = "open" → c.BotName 0 = .ok botName →
      ic.Comment.User.Login = botName →
      handleIC c trustedOrg ic = (none, [Event.BotName (.ok botName)])) := by
  constructor
  · intro h
    rcases h with h | h | h
    · simp [handleIC, gatherJobs, dispatchJobs, IssueCommentActionCreated, h]
    · by_cases h1 : ic.Action = "created" <;>
        simp [handleIC, gatherJobs, dispatchJobs, IssueCommentActionCreated, h, h1]
    · by_cases h1 : ic.Action = "created" <;> by_cases h2 : ic.Issue.IsPullRequest = true <;>
        simp [handleIC, gatherJobs, dispatchJobs, IssueCommentActionCreated, h, h1, h2]
  · intro botName h1 h2 h3 h4 h5
    simp [handleIC, gatherJobs, dispatchJobs, IssueCommentActionCreated, h1, h2, h3, h4, h5]

/-- Witness of C5: an edited comment, and a comment written by the bot itself. -/
theorem event_filter_witness :
    handleIC (sampleClient true true [] []) "kubernetes"
        { sampleEvent "/retest" false with Action := "edited" } = (none, []) ∧
    handleIC (sampleClient true true [] []) "kubernetes"
        { sampleEvent "/retest" false with
          Comment := { Body := "/retest", User := { Login := "k8s-ci-robot" } } }
      = (none, [Event.BotName (.ok "k8s-ci-robot")]) :=
  ⟨(event_filter _ _ _).1 (Or.inl (by decide)),
    (event_filter _ _ _).2 "k8s-ci-robot" rfl rfl rfl rfl rfl⟩

/-- C2. Denial path: in a run in which `isUserTrusted` returned false and `trustedPullRequest`
returned false, `CreateComment` is called exactly once, `CreateProwJob`, `RemoveLabel` and
`CreateStatus` are never called, and `handleIC` returns nil when the comment was created. -/
theorem denial_path (c : Client) (trustedOrg : String) (ic : IssueCommentEvent)
    (_hu : ∃ e ∈ (handleIC c trustedOrg ic).2, e.userUntrusted = true)
    (hp : ∃ e ∈ (handleIC c trustedOrg ic).2, e.prUntrusted = true) :
    (handleIC c trustedOrg ic).2.countP Event.isCreateComment = 1 ∧
    (handleIC c trustedOrg ic).2.countP Event.isCreateProwJob = 0 ∧
    (handleIC c trustedOrg ic).2.countP Event.isRemoveLabel = 0 ∧
    (handleIC c trustedOrg ic).2.countP Event.isCreateStatus = 0 ∧
    ((∃ e ∈ (handleIC c trustedOrg ic).2, e.commentCreated = true) →
      (handleIC c trustedOrg ic).1 = none) := by
  rw [← List.countP_pos_iff] at hp
  rw [← List.countP_pos_iff]
  revert hp
  obtain ⟨M, hM⟩ : ∃ M : Gathered → Prop, ∀ g, M g ↔
      (0 < List.countP Event.prUntrusted (dispatchJobs c ic g).2 →
      (dispatchJobs c ic g).2.countP Event.isCreateComment = 1 ∧
      (dispatchJobs c ic g).2.countP Event.isCreateProwJob = 0 ∧
      (dispatchJobs c ic g).2.countP Event.isRemoveLabel = 0 ∧
      (dispatchJobs c ic g).2.countP Event.isCreateStatus = 0 ∧
      (0 < List.countP Event.commentCreated (dispatchJobs c ic g).2 →
        (dispatchJobs c ic g).1 = none)) := ⟨_, fun _ => Iff.rfl⟩
  refine (hM (gatherJobs c trustedOrg ic)).1 ?_
  repeat' first
    | apply gatherJobs_cases
    | apply noCandidateJobs_cases
    | apply fetchPullRequest_cases
    | apply trustGate_cases
    | apply resolveBase_cases
    | intro _
  all_goals rw [hM]
  all_goals simp [dispatchJobs, callsAfterMatching, countP_matchingPresubmits,
    countP_retestSelection, countP_startJobs, countP_cleanupCalls, Event.prUntrusted,
    Event.isCreateComment, Event.isCreateProwJob, Event.isRemoveLabel, Event.isCreateStatus,
    Event.commentCreated]

/-- Witness of C2 (Scenario C): the author is no member and the pull request is not approved. -/
theorem denial_path_witness :
    (handleIC (sampleClient false false [shard "unit" "unit" "release-1.2"] []) "kubernetes"
        (sampleEvent "/test unit" true)).2.countP Event.isCreateComment = 1 ∧
    (handleIC (sampleClient false false [shard "unit" "unit" "release-1.2"] []) "kubernetes"
        (sampleEvent "/test unit" true)).2.countP Event.isCreateProwJob = 0 ∧
    (handleIC (sampleClient false false [shard "unit" "unit" "release-1.2"] []) "kubernetes"
        (sampleEvent "/test unit" true)).2.countP Event.isRemoveLabel = 0 ∧
    (handleIC (sampleClient false false [shard "unit" "unit" "release-1.2"] []) "kubernetes"
        (sampleEvent "/test unit" true)).1 = none :=
  have h := denial_path (sampleClient false false [shard "unit" "unit" "release-1.2"] [])
    "kubernetes" (sampleEvent "/test unit" true) (by decide) (by decide)
  ⟨h.1, h.2.1, h.2.2.1, h.2.2.2.2 (by decide)⟩

theorem not_mem_of_countP (p : Event → Bool) (l : List Event) (e : Event)
    (h : List.countP p l = 0) (he : p e = true) : e ∉ l := by
  intro hm
  rw [List.countP_eq_zero] at h
  exact h e hm he

theorem isUserTrusted_not_mem_matching (c : Client) (ic : IssueCommentEvent)
    (u t o : String) (r : Except Error Bool) :
    Event.isUserTrusted u t o r ∉ (matchingPresubmits c ic).2.2 :=
  not_mem_of_countP Event.isTrustCheck _ _
    (countP_matchingPresubmits _ (fun _ _ _ _ => rfl) c ic) rfl

theorem isUserTrusted_not_mem_retestSelection (c : Client) (ic : IssueCommentEvent)
    (pr : PullRequest) (cf : Option (List String)) (b : Bool) (now : Nat)
    (u t o : String) (r : Except Error Bool) :
    Event.isUserTrusted u t o r ∉ (retestSelection c ic pr cf b now).2 :=
  not_mem_of_countP Event.isTrustCheck _ _
    (countP_retestSelection _ (fun _ _ _ _ => rfl) (fun _ _ _ _ => rfl) (fun _ _ _ _ => rfl)
      c ic pr cf b now) rfl

theorem isUserTrusted_not_mem_cleanupCalls (c : Client) (trustedOrg : String)
    (ic : IssueCommentEvent) (pr : PullRequest) (comments : List IssueComment)
    (testAll : Bool) (now : Nat) (u t o : String) (r : Except Error Bool) :
    Event.isUserTrusted u t o r ∉ cleanupCalls c trustedOrg ic pr comments testAll now :=
  not_mem_of_countP Event.isTrustCheck _ _
    (countP_cleanupCalls _ (fun _ _ _ _ _ => rfl) (fun _ _ _ _ => rfl) c trustedOrg ic pr
      comments testAll now) rfl

theorem isUserTrusted_not_mem_startJobs (c : Client) (ic : IssueCommentEvent)
    (pr : PullRequest) (ref : String) (anyShard : List String) (jobs : List Presubmit)
    (errors : List Error) (now : Nat) (u t o : String) (r : Except Error Bool) :
    Event.isUserTrusted u t o r ∉ (startJobs c ic pr ref anyShard jobs errors now).2 :=
  not_mem_of_countP Event.isTrustCheck _ _
    (countP_startJobs _ (fun _ _ _ _ _ => rfl) (fun _ _ => rfl) c ic pr ref anyShard jobs
      errors now) rfl

theorem trustedPullRequest_not_mem_matching (c : Client) (ic : IssueCommentEvent)
    (p : PullRequest) (t : String) (cs : List IssueComment) (r : Except Error Bool) :
    Event.trustedPullRequest p t cs r ∉ (matchingPresubmits c ic).2.2 :=
  not_mem_of_countP Event.isFallback _ _
    (countP_matchingPresubmits _ (fun _ _ _ _ => rfl) c ic) rfl

theorem trustedPullRequest_not_mem_retestSelection (c : Client) (ic : IssueCommentEvent)
    (pr : PullRequest) (cf : Option (List String)) (b : Bool) (now : Nat)
    (p : PullRequest) (t : String) (cs : List IssueComment) (r : Except Error Bool) :
    Event.trustedPullRequest p t cs r ∉ (retestSelection c ic pr cf b now).2 :=
  not_mem_of_countP Event.isFallback _ _
    (countP_retestSelection _ (fun _ _ _ _ => rfl) (fun _ _ _ _ => rfl) (fun _ _ _ _ => rfl)
      c ic pr cf b now) rfl

theorem trustedPullRequest_not_mem_cleanupCalls (c : Client) (trustedOrg : String)
    (ic : IssueCommentEvent) (pr : PullRequest) (comments : List IssueComment)
    (testAll : Bool) (now : Nat)
    (p : PullRequest) (t : String) (cs : List IssueComment) (r : Except Error Bool) :
    Event.trustedPullRequest p t cs r ∉ cleanupCalls c trustedOrg ic pr comments testAll now :=
  not_mem_of_countP Event.isFallback _ _
    (countP_cleanupCalls _ (fun _ _ _ _ _ => rfl) (fun _ _ _ _ => rfl) c trustedOrg ic pr
      comments testAll now) rfl

theorem trustedPullRequest_not_mem_startJobs (c : Client) (ic : IssueCommentEvent)
    (pr : PullRequest) (ref : String) (anyShard : List String) (jobs : List Presubmit)
    (errors : List Error) (now : Nat)
    (p : PullRequest) (t : String) (cs : List IssueComment) (r : Except Error Bool) :
    Event.trustedPullRequest p t cs r ∉ (startJobs c ic pr ref anyShard jobs errors now).2 :=
  not_mem_of_countP Event.isFallback _ _
    (countP_startJobs _ (fun _ _ _ _ _ => rfl) (fun _ _ => rfl) c ic pr ref anyShard jobs
      errors now) rfl

theorem trust_of_submission (c : Client) (trustedOrg : String) (ic : IssueCommentEvent) :
    0 < List.countP Event.isCreateProwJob (handleIC c trustedOrg ic).2 →
      0 < List.countP Event.userTrusted (handleIC c trustedOrg ic).2 ∨
      0 < List.countP Event.prTrusted (handleIC c trustedOrg ic).2 := by
  obtain ⟨M, hM⟩ : ∃ M : Gathered → Prop, ∀ g, M g ↔
      (0 < List.countP Event.isCreateProwJob (dispatchJobs c ic g).2 →
        0 < List.countP Event.userTrusted (dispatchJobs c ic g).2 ∨
        0 < List.countP Event.prTrusted (dispatchJobs c ic g).2) :=
    ⟨_, fun _ => Iff.rfl⟩
  refine (hM (gatherJobs c trustedOrg ic)).1 ?_
  repeat' first
    | apply gatherJobs_cases
    | apply noCandidateJobs_cases
    | apply fetchPullRequest_cases
    | apply trustGate_cases
    | apply resolveBase_cases
    | intro _
  all_goals rw [hM]
  all_goals simp [dispatchJobs, callsAfterMatching, countP_matchingPresubmits,
    countP_retestSelection, countP_startJobs, countP_cleanupCalls,
    Event.userTrusted, Event.prTrusted, Event.isCreateProwJob]

theorem no_submission_of_refusal (c : Client) (trustedOrg : String) (ic : IssueCommentEvent) :
    (0 < List.countP Event.userUntrusted (handleIC c trustedOrg ic).2 →
      0 < List.countP Event.prUntrusted (handleIC c trustedOrg ic).2 →
      List.countP Event.isCreateProwJob (handleIC c trustedOrg ic).2 = 0) ∧
    (0 < List.countP Event.trustError (handleIC c trustedOrg ic).2 →
      List.countP Event.isCreateProwJob (handleIC c trustedOrg ic).2 = 0) := by
  obtain ⟨M, hM⟩ : ∃ M : Gathered → Prop, ∀ g, M g ↔
      ((0 < List.countP Event.userUntrusted (dispatchJobs c ic g).2 →
        0 < List.countP Event.prUntrusted (dispatchJobs c ic g).2 →
        List.countP Event.isCreateProwJob (dispatchJobs c ic g).2 = 0) ∧
      (0 < List.countP Event.trustError (dispatchJobs c ic g).2 →
        List.countP Event.isCreateProwJob (dispatchJobs c ic g).2 = 0)) :=
    ⟨_, fun _ => Iff.rfl⟩
  refine (hM (gatherJobs c trustedOrg ic)).1 ?_
  repeat' first
    | apply gatherJobs_cases
    | apply noCandidateJobs_cases
    | apply fetchPullRequest_cases
    | apply trustGate_cases
    | apply resolveBase_cases
    | intro _
  all_goals rw [hM]
  all_goals simp [dispatchJobs, callsAfterMatching, countP_matchingPresubmits,
    countP_retestSelection, countP_startJobs, countP_cleanupCalls, Event.prUntrusted,
    Event.userUntrusted, Event.trustError, Event.isCreateProwJob]

theorem isUserTrusted_arguments (c : Client) (trustedOrg : String) (ic : IssueCommentEvent) :
    ∀ u t o r, Event.isUserTrusted u t o r ∈ (handleIC c trustedOrg ic).2 →
      u = ic.Comment.User.Login ∧ t = trustedOrg ∧ o = ic.Repo.Owner.Login := by
  obtain ⟨M, hM⟩ : ∃ M : Gathered → Prop, ∀ g, M g ↔
      (∀ u t o r, Event.isUserTrusted u t o r ∈ (dispatchJobs c ic g).2 →
        u = ic.Comment.User.Login ∧ t = trustedOrg ∧ o = ic.Repo.Owner.Login) :=
    ⟨_, fun _ => Iff.rfl⟩
  refine (hM (gatherJobs c trustedOrg ic)).1 ?_
  repeat' first
    | apply gatherJobs_cases
    | apply noCandidateJobs_cases
    | apply fetchPullRequest_cases
    | apply trustGate_cases
    | apply resolveBase_cases
    | intro _
  all_goals rw [hM]
  all_goals simp [dispatchJobs, callsAfterMatching, isUserTrusted_not_mem_matching,
    isUserTrusted_not_mem_retestSelection, isUserTrusted_not_mem_cleanupCalls,
    isUserTrusted_not_mem_startJobs]
  all_goals
    intros
    exact ⟨by assumption, by assumption, by assumption⟩

theorem trustedPullRequest_arguments (c : Client) (trustedOrg : String)
    (ic : IssueCommentEvent) :
    ∀ p t cs r, Event.trustedPullRequest p t cs r ∈ (handleIC c trustedOrg ic).2 →
      t = trustedOrg ∧
      Event.GetPullRequest ic.Repo.Owner.Login ic.Repo.Name ic.Issue.Number (.ok p) ∈
        (handleIC c trustedOrg ic).2 ∧
      Event.ListIssueComments ic.Repo.Owner.Login ic.Repo.Name ic.Issue.Number (.ok cs) ∈
        (handleIC c trustedOrg ic).2 := by
  obtain ⟨M, hM⟩ : ∃ M : Gathered → Prop, ∀ g, M g ↔
      (∀ p t cs r, Event.trustedPullRequest p t cs r ∈ (dispatchJobs c ic g).2 →
        t = trustedOrg ∧
        Event.GetPullRequest ic.Repo.Owner.Login ic.Repo.Name ic.Issue.Number (.ok p) ∈
          (dispatchJobs c ic g).2 ∧
        Event.ListIssueComments ic.Repo.Owner.Login ic.Repo.Name ic.Issue.Number (.ok cs) ∈
          (dispatchJobs c ic g).2) :=
    ⟨_, fun _ => Iff.rfl⟩
  refine (hM (gatherJobs c trustedOrg ic)).1 ?_
  repeat' first
    | apply gatherJobs_cases
    | apply noCandidateJobs_cases
    | apply fetchPullRequest_cases
    | apply trustGate_cases
    | apply resolveBase_cases
    | intro _
  all_goals rw [hM]
  all_goals simp [dispatchJobs, callsAfterMatching, trustedPullRequest_not_mem_matching,
    trustedPullRequest_not_mem_retestSelection, trustedPullRequest_not_mem_cleanupCalls,
    trustedPullRequest_not_mem_startJobs]
  all_goals
    intro p t cs r h1 h2 h3 _
    subst h1 h2 h3
    simp

/-- C1. Trust gate: a run that calls `CreateProwJob` contains a call of `isUserTrusted` for
the comment author that returned true, or a call of `trustedPullRequest` that returned true
for the pull request fetched in the run and the comments listed in the run; a run in which
both returned false, or in which one of them returned an error, contains no call of
`CreateProwJob`.  Every call of `isUserTrusted` in a run asks about the comment author, the
trusted organisation and the owner of the repository, and every call of
`trustedPullRequest` is about the pull request fetched and the comments listed in that run. -/
theorem trust_gate (c : Client) (trustedOrg : String) (ic : IssueCommentEvent) :
    ((∃ e ∈ (handleIC c trustedOrg ic).2, e.isCreateProwJob = true) →
      Event.isUserTrusted ic.Comment.User.Login trustedOrg ic.Repo.Owner.Login (.ok true) ∈
          (handleIC c trustedOrg ic).2 ∨
      ∃ pr comments,
        Event.trustedPullRequest pr trustedOrg comments (.ok true) ∈
          (handleIC c trustedOrg ic).2 ∧
        Event.GetPullRequest ic.Repo.Owner.Login ic.Repo.Name ic.Issue.Number (.ok pr) ∈
          (handleIC c trustedOrg ic).2 ∧
        Event.ListIssueComments ic.Repo.Owner.Login ic.Repo.Name ic.Issue.Number
          (.ok comments) ∈ (handleIC c trustedOrg ic).2) ∧
    ((∃ e ∈ (handleIC c trustedOrg ic).2, e.userUntrusted = true) →
      (∃ e ∈ (handleIC c trustedOrg ic).2, e.prUntrusted = true) →
      (handleIC c trustedOrg ic).2.countP Event.isCreateProwJob = 0) ∧
    ((∃ e ∈ (handleIC c trustedOrg ic).2, e.trustError = true) →
      (handleIC c trustedOrg ic).2.countP Event.isCreateProwJob = 0) ∧
    (∀ user org1 org2 r,
      Event.isUserTrusted user org1 org2 r ∈ (handleIC c trustedOrg ic).2 →
      user = ic.Comment.User.Login ∧ org1 = trustedOrg ∧ org2 = ic.Repo.Owner.Login) ∧
    (∀ pr org1 comments r,
      Event.trustedPullRequest pr org1 comments r ∈ (handleIC c trustedOrg ic).2 →
      org1 = trustedOrg ∧
      Event.GetPullRequest ic.Repo.Owner.Login ic.Repo.Name ic.Issue.Number (.ok pr) ∈
        (handleIC c trustedOrg ic).2 ∧
      Event.ListIssueComments ic.Repo.Owner.Login ic.Repo.Name ic.Issue.Number
        (.ok comments) ∈ (handleIC c trustedOrg ic).2) := by
  have ha := isUserTrusted_arguments c trustedOrg ic
  have hb := trustedPullRequest_arguments c trustedOrg ic
  have hr := no_submission_of_refusal c trustedOrg ic
  refine ⟨?_, ?_, ?_, ha, hb⟩
  · intro h
    rw [← List.countP_pos_iff] at h
    rcases trust_of_submission c trustedOrg ic h with h1 | h1
    · left
      obtain ⟨e, he, hp⟩ := List.countP_pos_iff.1 h1
      cases e with
      | isUserTrusted u t o r =>
        obtain ⟨h2, h3, h4⟩ := ha u t o r he
        subst h2 h3 h4
        cases r with
        | error err => simp [Event.userTrusted] at hp
        | ok b =>
          cases b with
          | false => simp [Event.userTrusted] at hp
          | true => exact he
      | _ => simp [Event.userTrusted] at hp
    · right
      obtain ⟨e, he, hp⟩ := List.countP_pos_iff.1 h1
      cases e with
      | trustedPullRequest p t cs r =>
        obtain ⟨h2, h3, h4⟩ := hb p t cs r he
        subst h2
        cases r with
        | error err => simp [Event.prTrusted] at hp
        | ok b =>
          cases b with
          | false => simp [Event.prTrusted] at hp
          | true => exact ⟨p, cs, he, h3, h4⟩
      | _ => simp [Event.prTrusted] at hp
  · intro h1 h2
    rw [← List.countP_pos_iff] at h1 h2
    exact hr.1 h1 h2
  · intro h
    rw [← List.countP_pos_iff] at h
    exact hr.2 h

/-- Witness of C1: a member asks for a job that runs against the base branch. -/
theorem trust_gate_witness :
    (∃ e ∈ (handleIC (sampleClient true false [shard "unit" "unit" "release-1.2"] [])
        "kubernetes" (sampleEvent "/test unit" false)).2, e.isCreateProwJob = true) ∧
    (Event.isUserTrusted "alice" "kubernetes" "kubernetes" (.ok true) ∈
        (handleIC (sampleClient true false [shard "unit" "unit" "release-1.2"] [])
          "kubernetes" (sampleEvent "/test unit" false)).2 ∨
      ∃ pr comments,
        Event.trustedPullRequest pr "kubernetes" comments (.ok true) ∈
          (handleIC (sampleClient true false [shard "unit" "unit" "release-1.2"] [])
            "kubernetes" (sampleEvent "/test unit" false)).2 ∧
        Event.GetPullRequest "kubernetes" "test-infra" 7 (.ok pr) ∈
          (handleIC (sampleClient true false [shard "unit" "unit" "release-1.2"] [])
            "kubernetes" (sampleEvent "/test unit" false)).2 ∧
        Event.ListIssueComments "kubernetes" "test-infra" 7 (.ok comments) ∈
          (handleIC (sampleClient true false [shard "unit" "unit" "release-1.2"] [])
            "kubernetes" (sampleEvent "/test unit" false)).2) :=
  ⟨by decide, (trust_gate _ _ _).1 (by decide)⟩


theorem guarded_append (p q : Event → Bool) (a b : List Event) :
    guarded p q (a ++ b) = (guarded p q a && (a.any p || guarded p q b)) := by
  induction a with
  | nil => simp [guarded]
  | cons e es ih =>
    by_cases hp : p e = true
    · simp [guarded, hp]
    · simp [guarded, hp, ih, Bool.and_assoc]

theorem guarded_of_countP (p q : Event → Bool) (a : List Event) (h : List.countP q a = 0) :
    guarded p q a = true := by
  induction a with
  | nil => rfl
  | cons e es ih =>
    rw [List.countP_cons] at h
    have h1 : List.countP q es = 0 := by omega
    have h2 : q e = false := by
      by_cases hq : q e = true
      · simp [hq] at h
      · simpa using hq
    by_cases hp : p e = true
    · simp [guarded, hp]
    · simp [guarded, hp, h2, ih h1]

theorem any_eq_false_of_countP (p : Event → Bool) (a : List Event) (h : List.countP p a = 0) :
    a.any p = false := by
  rw [List.countP_eq_zero] at h
  rw [List.any_eq_false]
  exact h

/-- In a guarded list every event of kind `q` comes after an event of kind `p`. -/
theorem preceded_of_guarded (p q : Event → Bool) (hdisj : ∀ e, q e = true → p e = false)
    (t : List Event) (h : guarded p q t = true)
    (pre : List Event) (e : Event) (post : List Event) (ht : t = pre ++ e :: post)
    (hq : q e = true) : ∃ x ∈ pre, p x = true := by
  subst ht
  induction pre with
  | nil => simp [guarded, hdisj e hq, hq] at h
  | cons x xs ih =>
    by_cases hp : p x = true
    · exact ⟨x, List.mem_cons_self _ _, hp⟩
    · simp only [List.cons_append, guarded, hp, Bool.false_eq_true, if_false,
        Bool.and_eq_true] at h
      obtain ⟨y, hy, hpy⟩ := ih h.2
      exact ⟨y, List.mem_cons_of_mem _ hy, hpy⟩

/-- C6. No-candidate path: when the comment does not ask for a retest and `MatchingPresubmits`
returned no job, `CreateStatus`, `CreateComment`, `CreateProwJob` and `GetPullRequest` are
never called; `RemoveLabel` is called at most once, only for the label `needs-ok-to-test`,
and it is called exactly when the comment matched `/ok-to-test`, the issue carries the label
and `isUserTrusted` returned true. -/
theorem no_candidate_path (c : Client) (trustedOrg : String) (ic : IssueCommentEvent)
    (hretest : MatchString retest ic.Comment.Body = false)
    (hnone : ∃ e ∈ (handleIC c trustedOrg ic).2, e.matchedNothing = true) :
    (handleIC c trustedOrg ic).2.countP Event.isCreateStatus = 0 ∧
    (handleIC c trustedOrg ic).2.countP Event.isCreateComment = 0 ∧
    (handleIC c trustedOrg ic).2.countP Event.isCreateProwJob = 0 ∧
    (handleIC c trustedOrg ic).2.countP Event.isGetPullRequest = 0 ∧
    (handleIC c trustedOrg ic).2.countP Event.isRemoveLabel ≤ 1 ∧
    (handleIC c trustedOrg ic).2.countP (Event.removesLabel needsOkToTest) =
      (handleIC c trustedOrg ic).2.countP Event.isRemoveLabel ∧
    ((handleIC c trustedOrg ic).2.countP Event.isRemoveLabel = 1 ↔
      (MatchString okToTest ic.Comment.Body = true ∧ ic.Issue.HasLabel needsOkToTest = true ∧
        ∃ e ∈ (handleIC c trustedOrg ic).2, e.userTrusted = true)) := by
  rw [← List.countP_pos_iff] at hnone
  rw [← List.countP_pos_iff]
  revert hnone
  obtain ⟨M, hM⟩ : ∃ M : Gathered → Prop, ∀ g, M g ↔
      (0 < List.countP Event.matchedNothing (dispatchJobs c ic g).2 →
      (dispatchJobs c ic g).2.countP Event.isCreateStatus = 0 ∧
      (dispatchJobs c ic g).2.countP Event.isCreateComment = 0 ∧
      (dispatchJobs c ic g).2.countP Event.isCreateProwJob = 0 ∧
      (dispatchJobs c ic g).2.countP Event.isGetPullRequest = 0 ∧
      (dispatchJobs c ic g).2.countP Event.isRemoveLabel ≤ 1 ∧
      (dispatchJobs c ic g).2.countP (Event.removesLabel needsOkToTest) =
        (dispatchJobs c ic g).2.countP Event.isRemoveLabel ∧
      ((dispatchJobs c ic g).2.countP Event.isRemoveLabel = 1 ↔
        (MatchString okToTest ic.Comment.Body = true ∧ ic.Issue.HasLabel needsOkToTest = true ∧
          0 < List.countP Event.userTrusted (dispatchJobs c ic g).2))) :=
    ⟨_, fun _ => Iff.rfl⟩
  refine (hM (gatherJobs c trustedOrg ic)).1 ?_
  apply gatherJobs_cases
  case hnone =>
    intro botName _ _ _ _ _ _ _
    apply noCandidateJobs_cases
    case hskip =>
      intro h1
      rw [hM]
      simp [dispatchJobs, callsAfterMatching, countP_matchingPresubmits, Event.matchedNothing,
        Event.isCreateComment, Event.isCreateProwJob, Event.isRemoveLabel,
        Event.isCreateStatus, Event.isGetPullRequest, Event.userTrusted, Event.removesLabel]
    case huser =>
      intro err h1 _
      rw [hM]
      simp [dispatchJobs, callsAfterMatching, countP_matchingPresubmits, Event.matchedNothing,
        Event.isCreateComment, Event.isCreateProwJob, Event.isRemoveLabel,
        Event.isCreateStatus, Event.isGetPullRequest, Event.userTrusted, Event.removesLabel]
    case hmember =>
      intro h1 _
      have h2 : MatchString okToTest ic.Comment.Body = true ∧
          ic.Issue.HasLabel needsOkToTest = true := by simpa using h1
      rw [hM]
      simp [dispatchJobs, callsAfterMatching, countP_matchingPresubmits, Event.matchedNothing,
        Event.isCreateComment, Event.isCreateProwJob, Event.isRemoveLabel,
        Event.isCreateStatus, Event.isGetPullRequest, Event.userTrusted, Event.removesLabel,
        h2.1, h2.2]
    case hother =>
      intro h1 _
      rw [hM]
      simp [dispatchJobs, callsAfterMatching, countP_matchingPresubmits, Event.matchedNothing,
        Event.isCreateComment, Event.isCreateProwJob, Event.isRemoveLabel,
        Event.isCreateStatus, Event.isGetPullRequest, Event.userTrusted, Event.removesLabel]
  case hsome =>
    intro botName requestedJobs _ _ _ _ _ _ hor
    cases requestedJobs with
    | nil => simp [hretest] at hor
    | cons job rest =>
      clear hor
      repeat' first
        | apply fetchPullRequest_cases
        | apply trustGate_cases
        | apply resolveBase_cases
        | intro _
      all_goals rw [hM]
      all_goals simp [dispatchJobs, callsAfterMatching, countP_matchingPresubmits,
        countP_retestSelection, countP_startJobs, countP_cleanupCalls, Event.matchedNothing]
  all_goals
    intros
    rw [hM]
    simp [dispatchJobs, callsAfterMatching, countP_matchingPresubmits, Event.matchedNothing]

/-- Witness of C6: a member writes `/ok-to-test` on a labelled pull request for which the
catalogue has no job. -/
theorem no_candidate_path_witness :
    (handleIC (sampleClient true false [] []) "kubernetes"
        (sampleEvent "/ok-to-test" true)).2.countP Event.isRemoveLabel = 1 ∧
    (handleIC (sampleClient true false [] []) "kubernetes"
        (sampleEvent "/ok-to-test" true)).2.countP Event.isGetPullRequest = 0 :=
  have h := no_candidate_path (sampleClient true false [] []) "kubernetes"
    (sampleEvent "/ok-to-test" true) (by decide) (by decide)
  ⟨h.2.2.2.2.2.2.2 ⟨by decide, by decide, by decide⟩, h.2.2.2.1⟩

theorem pos_ite_one_zero (P : Prop) [Decidable P] : 0 < (if P then 1 else 0 : Nat) ↔ P := by
  split <;> simp [*]

theorem ite_one_zero_le (P : Prop) [Decidable P] : (if P then 1 else 0 : Nat) ≤ 1 := by
  split <;> simp

theorem countP_isRemoveLabel_cleanupCalls (c : Client) (trustedOrg : String)
    (ic : IssueCommentEvent) (pr : PullRequest) (comments : List IssueComment) (testAll : Bool)
    (now : Nat) :
    List.countP Event.isRemoveLabel (cleanupCalls c trustedOrg ic pr comments testAll now) =
      if (testAll && ic.Issue.HasLabel needsOkToTest) = true then 1 else 0 := by
  unfold cleanupCalls
  split <;> simp [Event.isRemoveLabel]

set_option maxHeartbeats 1600000 in
/-- C7. The label is never removed speculatively: every call of `RemoveLabel` comes after a
call of `isUserTrusted` or `trustedPullRequest` that returned true, is made only when the
comment matched `/ok-to-test` and the issue carries the label, and there is at most one such
call in a run. -/
theorem label_removal_guarded (c : Client) (trustedOrg : String) (ic : IssueCommentEvent) :
    (∀ pre e post, (handleIC c trustedOrg ic).2 = pre ++ e :: post → e.isRemoveLabel = true →
      (∃ x ∈ pre, x.trustGranted = true) ∧
      MatchString okToTest ic.Comment.Body = true ∧ ic.Issue.HasLabel needsOkToTest = true) ∧
    (handleIC c trustedOrg ic).2.countP Event.isRemoveLabel ≤ 1 := by
  have key : guarded Event.trustGranted Event.isRemoveLabel (handleIC c trustedOrg ic).2 = true ∧
      (0 < (handleIC c trustedOrg ic).2.countP Event.isRemoveLabel →
        MatchString okToTest ic.Comment.Body = true ∧ ic.Issue.HasLabel needsOkToTest = true) ∧
      (handleIC c trustedOrg ic).2.countP Event.isRemoveLabel ≤ 1 := by
    obtain ⟨M, hM⟩ : ∃ M : Gathered → Prop, ∀ g, M g ↔
        (guarded Event.trustGranted Event.isRemoveLabel (dispatchJobs c ic g).2 = true ∧
        (0 < (dispatchJobs c ic g).2.countP Event.isRemoveLabel →
          MatchString okToTest ic.Comment.Body = true ∧
            ic.Issue.HasLabel needsOkToTest = true) ∧
        (dispatchJobs c ic g).2.countP Event.isRemoveLabel ≤ 1) := ⟨_, fun _ => Iff.rfl⟩
    refine (hM (gatherJobs c trustedOrg ic)).1 ?_
    repeat' first
      | apply gatherJobs_cases
      | apply noCandidateJobs_cases
      | apply fetchPullRequest_cases
      | apply trustGate_cases
      | apply resolveBase_cases
      | intro _
    all_goals rw [hM]
    all_goals simp (disch := simp [countP_matchingPresubmits, countP_retestSelection,
        countP_startJobs, Event.isRemoveLabel, Event.trustGranted, Event.userTrusted,
        Event.prTrusted])
      [dispatchJobs, callsAfterMatching, countP_matchingPresubmits,
      countP_retestSelection, countP_startJobs, countP_cleanupCalls,
      countP_isRemoveLabel_cleanupCalls, guarded_append,
      guarded_of_countP, any_eq_false_of_countP, guarded, pos_ite_one_zero, ite_one_zero_le,
      Event.isRemoveLabel, Event.trustGranted, Event.userTrusted, Event.prTrusted]
    simpa using ‹(MatchString okToTest ic.Comment.Body && ic.Issue.HasLabel needsOkToTest) = true›
  refine ⟨?_, key.2.2⟩
  intro pre e post ht he
  refine ⟨preceded_of_guarded _ _ ?_ _ key.1 pre e post ht he, key.2.1 ?_⟩
  · intro x hx
    cases x <;> simp_all [Event.isRemoveLabel, Event.trustGranted, Event.userTrusted,
      Event.prTrusted]
  · rw [List.countP_pos_iff]
    exact ⟨e, by simp [ht], he⟩


/-- Witness of C7 (Scenario A): the label is removed after `isUserTrusted` returned true. -/
theorem label_removal_guarded_witness :
    (∃ x ∈ (handleIC (sampleClient true false [shard "unit" "unit" "release-1.2"] [])
        "kubernetes" (sampleEvent "/ok-to-test" true)).2.take 4, x.trustGranted = true) ∧
    MatchString okToTest "/ok-to-test" = true :=
  have h := (label_removal_guarded (sampleClient true false [shard "unit" "unit" "release-1.2"] [])
    "kubernetes" (sampleEvent "/ok-to-test" true)).1
    ((handleIC (sampleClient true false [shard "unit" "unit" "release-1.2"] [])
        "kubernetes" (sampleEvent "/ok-to-test" true)).2.take 4)
    (Event.RemoveLabel "kubernetes" "test-infra" 7 "needs-ok-to-test" none)
    ((handleIC (sampleClient true false [shard "unit" "unit" "release-1.2"] [])
        "kubernetes" (sampleEvent "/ok-to-test" true)).2.drop 5) rfl rfl
  ⟨h.1, h.2.1⟩

/-- C8, as stated, fails: the body ` /retest` has a line that trims to `/retest`, and the
pattern `(?m)^/retest\s*$` does not match it. -/
theorem retest_rejects_indented_line :
    hasTrimmedLine "/retest" " /retest" = true ∧ MatchString retest " /retest" = false := by
  decide

/-- C8, amended. Retest detection is complete for lines that start with the command, and for
those only: a body is matched by the retest pattern exactly when one of its lines is
`/retest` followed by whitespace only (space, tab, carriage return, form feed), so
whitespace before `/retest` on the line is not tolerated; a match starts at the beginning
of the text or right after a line feed. -/
theorem retest_complete (body : String) :
    (hasCommandLine "/retest" body = true → MatchString retest body = true) ∧
    (MatchString retest body = true → hasCommandLine "/retest" body = true) ∧
    (MatchString retest body = true →
      ∃ pre ws rest, body.data = pre ++ ("/retest".data ++ (ws ++ rest)) ∧
        (pre.getLast? = none ∨ pre.getLast? = some '\n') ∧
        (∀ c ∈ ws, isSpace c = true) ∧
        (rest.head? = none ∨ rest.head? = some '\n')) :=
  ⟨command_match_of_line "/retest" body ⟨'t', _, rfl, by decide⟩,
    commandLine_of_command_match "/retest" body (by decide) ⟨'t', _, rfl, by decide⟩,
    (command_match_iff "/retest" body).1⟩

/-- Witness of C8, amended: `/retest` with trailing blanks, between two other lines, is
matched; and a body that is matched has a line made of the command and whitespace. -/
theorem retest_complete_witness :
    (hasCommandLine "/retest" "LGTM\n/retest \t\r\nthanks" = true ∧
      MatchString retest "LGTM\n/retest \t\r\nthanks" = true) ∧
    (MatchString retest "ok\n/retest\n" = true ∧
      hasCommandLine "/retest" "ok\n/retest\n" = true) :=
  ⟨⟨by decide, (retest_complete _).1 (by decide)⟩,
    ⟨by decide, (retest_complete _).2.1 (by decide)⟩⟩

/-- C9. Retest detection is sound: a body matched by `(?m)^/retest\s*$` has a line that,
trimmed of whitespace, is exactly `/retest`; `please /retest`, `/retest now` and `/retesting`
are not matched. -/
theorem retest_sound :
    (∀ body : String, MatchString retest body = true → hasTrimmedLine "/retest" body = true) ∧
    MatchString retest "please /retest" = false ∧
    MatchString retest "/retest now" = false ∧
    MatchString retest "/retesting" = false :=
  ⟨fun body h => line_of_command_match "/retest" body (by decide) ⟨'/', _, rfl, by decide⟩
      ⟨'t', _, rfl, by decide⟩ h,
    by decide, by decide, by decide⟩

/-- Witness of C9: a matched body and its line. -/
theorem retest_sound_witness :
    MatchString retest "ok\n/retest\n" = true ∧ hasTrimmedLine "/retest" "ok\n/retest\n" = true :=
  ⟨by decide, retest_sound.1 _ (by decide)⟩



/-! ## The handler does not look at what `CreateProwJob` returns before the loops -/

theorem runWithFiles_setCreateProwJob {α : Type} (c : Client)
    (f : Nat → ProwJob → Option Error) (org repo : String) (number : Int)
    (w : WithFiles α) (cf : Option (List String)) (now : Nat) :
    runWithFiles { c with CreateProwJob := f } org repo number w cf now =
      runWithFiles c org repo number w cf now := by
  induction w generalizing cf now with
  | ret a => rfl
  | callFiles k ih =>
    have hf : files { c with CreateProwJob := f } org repo number cf now =
        files c org repo number cf now := rfl
    simp only [runWithFiles, hf, ih]

theorem retestSelection_setCreateProwJob (c : Client) (f : Nat → ProwJob → Option Error)
    (ic : IssueCommentEvent) (pr : PullRequest) (cf : Option (List String)) (b : Bool)
    (now : Nat) :
    retestSelection { c with CreateProwJob := f } ic pr cf b now =
      retestSelection c ic pr cf b now := by
  unfold retestSelection retestBlock
  simp only [runWithFiles_setCreateProwJob]

theorem gatherJobs_setCreateProwJob (c : Client) (f : Nat → ProwJob → Option Error)
    (trustedOrg : String) (ic : IssueCommentEvent) :
    gatherJobs { c with CreateProwJob := f } trustedOrg ic = gatherJobs c trustedOrg ic := by
  have hm : matchingPresubmits { c with CreateProwJob := f } ic = matchingPresubmits c ic :=
    runWithFiles_setCreateProwJob _ _ _ _ _ _ _ _
  have hn : ∀ ta calls, noCandidateJobs { c with CreateProwJob := f } trustedOrg ic ta calls =
      noCandidateJobs c trustedOrg ic ta calls := fun _ _ => rfl
  have hg : ∀ pr jobs ta calls, trustGate { c with CreateProwJob := f } trustedOrg ic pr jobs ta
      calls = trustGate c trustedOrg ic pr jobs ta calls := fun _ _ _ _ => rfl
  have hf : ∀ jobs cf ta rt calls,
      fetchPullRequest { c with CreateProwJob := f } trustedOrg ic jobs cf ta rt calls =
        fetchPullRequest c trustedOrg ic jobs cf ta rt calls := by
    intro jobs cf ta rt calls
    unfold fetchPullRequest
    simp only [retestSelection_setCreateProwJob, hg]
  unfold gatherJobs callsAfterMatching
  simp only [hm, hn, hf]

/-! ## The loops over the requested jobs -/

theorem mem_setInsert (m : List String) (k x : String) : x ∈ setInsert m k ↔ x ∈ m ∨ x = k := by
  unfold setInsert
  split
  · constructor
    · exact Or.inl
    · rintro (h | h)
      · exact h
      · subst h; assumption
  · simp

theorem mem_anyShardRunsAgainstBranch (baseRef : String) (jobs : List Presubmit)
    (m : List String) (x : String) :
    x ∈ anyShardRunsAgainstBranch baseRef jobs m ↔
      x ∈ m ∨ ∃ job ∈ jobs, job.RunsAgainstBranch baseRef = true ∧ job.Context = x := by
  induction jobs generalizing m with
  | nil => simp [anyShardRunsAgainstBranch]
  | cons job rest ih =>
    unfold anyShardRunsAgainstBranch
    split
    · rename_i h
      rw [ih, mem_setInsert]
      constructor
      · rintro ((h1 | h1) | ⟨j, hj, h2⟩)
        · exact Or.inl h1
        · exact Or.inr ⟨job, List.mem_cons_self _ _, h, h1.symm⟩
        · exact Or.inr ⟨j, List.mem_cons_of_mem _ hj, h2⟩
      · rintro (h1 | ⟨j, hj, h2⟩)
        · exact Or.inl (Or.inl h1)
        · rcases List.mem_cons.1 hj with rfl | hj
          · exact Or.inl (Or.inr h2.2.symm)
          · exact Or.inr ⟨j, hj, h2⟩
    · rename_i h
      rw [ih]
      constructor
      · rintro (h1 | ⟨j, hj, h2⟩)
        · exact Or.inl h1
        · exact Or.inr ⟨j, List.mem_cons_of_mem _ hj, h2⟩
      · rintro (h1 | ⟨j, hj, h2⟩)
        · exact Or.inl h1
        · rcases List.mem_cons.1 hj with rfl | hj
          · exact absurd h2.1 h
          · exact Or.inr ⟨j, hj, h2⟩

theorem submitted_append (a b : List Event) : submitted (a ++ b) = submitted a ++ submitted b := by
  simp [submitted, List.filterMap_append]

theorem submitted_eq_nil (l : List Event) (h : List.countP Event.isCreateProwJob l = 0) :
    submitted l = [] := by
  induction l with
  | nil => rfl
  | cons e es ih =>
    rw [List.countP_cons] at h
    have h1 : List.countP Event.isCreateProwJob es = 0 := by omega
    cases e <;> simp_all [submitted, Event.submitted?, Event.isCreateProwJob]

theorem countP_isSkippedFor_eq_zero (context : String) (l : List Event)
    (h : List.countP Event.isCreateStatus l = 0) :
    List.countP (Event.isSkippedFor context) l = 0 := by
  rw [List.countP_eq_zero] at h ⊢
  intro e he
  have := h e he
  cases e <;> simp_all [Event.isSkippedFor, Event.isCreateStatus]

theorem startJobs_run_err (c : Client) (ic : IssueCommentEvent) (pr : PullRequest)
    (ref : String) (anyShard : List String) (job : Presubmit) (rest : List Presubmit)
    (errors : List Error) (now : Nat) (err : Error)
    (hr : job.RunsAgainstBranch pr.Base.Ref = true)
    (h : c.CreateProwJob now (newProwJob c ic pr ref job) = some err) :
    startJobs c ic pr ref anyShard (job :: rest) errors now =
      ((startJobs c ic pr ref anyShard rest (errors ++ [err]) (now + 1)).1,
        Event.CreateProwJob (newProwJob c ic pr ref job) (some err) ::
          (startJobs c ic pr ref anyShard rest (errors ++ [err]) (now + 1)).2) := by
  rw [startJobs]
  simp only [hr, h, Bool.not_true, Bool.false_eq_true, if_false]

theorem startJobs_run_ok (c : Client) (ic : IssueCommentEvent) (pr : PullRequest)
    (ref : String) (anyShard : List String) (job : Presubmit) (rest : List Presubmit)
    (errors : List Error) (now : Nat)
    (hr : job.RunsAgainstBranch pr.Base.Ref = true)
    (h : c.CreateProwJob now (newProwJob c ic pr ref job) = none) :
    startJobs c ic pr ref anyShard (job :: rest) errors now =
      ((startJobs c ic pr ref anyShard rest errors (now + 1)).1,
        Event.CreateProwJob (newProwJob c ic pr ref job) none ::
          (startJobs c ic pr ref anyShard rest errors (now + 1)).2) := by
  rw [startJobs]
  simp only [hr, h, Bool.not_true, Bool.false_eq_true, if_false]

theorem startJobs_skip_err (c : Client) (ic : IssueCommentEvent) (pr : PullRequest)
    (ref : String) (anyShard : List String) (job : Presubmit) (rest : List Presubmit)
    (errors : List Error) (now : Nat) (err : Error)
    (hr : job.RunsAgainstBranch pr.Base.Ref = false)
    (hs : (!job.SkipReport && !(anyShard.contains job.Context)) = true)
    (h : c.CreateStatus now ic.Repo.Owner.Login ic.Repo.Name pr.Head.SHA (skippedStatus job)
      = some err) :
    startJobs c ic pr ref anyShard (job :: rest) errors now =
      (some err, [Event.CreateStatus ic.Repo.Owner.Login ic.Repo.Name pr.Head.SHA
        (skippedStatus job) (some err)]) := by
  rw [startJobs]
  simp only [hr, hs, h, Bool.not_false, if_true]

theorem startJobs_skip_ok (c : Client) (ic : IssueCommentEvent) (pr : PullRequest)
    (ref : String) (anyShard : List String) (job : Presubmit) (rest : List Presubmit)
    (errors : List Error) (now : Nat)
    (hr : job.RunsAgainstBranch pr.Base.Ref = false)
    (hs : (!job.SkipReport && !(anyShard.contains job.Context)) = true)
    (h : c.CreateStatus now ic.Repo.Owner.Login ic.Repo.Name pr.Head.SHA (skippedStatus job)
      = none) :
    startJobs c ic pr ref anyShard (job :: rest) errors now =
      ((startJobs c ic pr ref anyShard rest errors (now + 1)).1,
        Event.CreateStatus ic.Repo.Owner.Login ic.Repo.Name pr.Head.SHA (skippedStatus job) none ::
          (startJobs c ic pr ref anyShard rest errors (now + 1)).2) := by
  rw [startJobs]
  simp only [hr, hs, h, Bool.not_false, if_true]

theorem startJobs_silent (c : Client) (ic : IssueCommentEvent) (pr : PullRequest)
    (ref : String) (anyShard : List String) (job : Presubmit) (rest : List Presubmit)
    (errors : List Error) (now : Nat)
    (hr : job.RunsAgainstBranch pr.Base.Ref = false)
    (hs : (!job.SkipReport && !(anyShard.contains job.Context)) = false) :
    startJobs c ic pr ref anyShard (job :: rest) errors now =
      startJobs c ic pr ref anyShard rest errors now := by
  rw [startJobs]
  simp only [hr, hs, Bool.not_false, if_true, Bool.false_eq_true, if_false]

theorem submitted_startJobs_setCreateProwJob (c : Client) (f : Nat → ProwJob → Option Error)
    (ic : IssueCommentEvent) (pr : PullRequest) (ref : String) (anyShard : List String)
    (jobs : List Presubmit) (errors errors2 : List Error) (now : Nat) :
    submitted (startJobs { c with CreateProwJob := f } ic pr ref anyShard jobs errors now).2 =
      submitted (startJobs c ic pr ref anyShard jobs errors2 now).2 := by
  induction jobs generalizing errors errors2 now with
  | nil => simp [startJobs, submitted]
  | cons job rest ih =>
    cases hr : job.RunsAgainstBranch pr.Base.Ref with
    | true =>
      have e1 : ∃ r1 e1, startJobs { c with CreateProwJob := f } ic pr ref anyShard (job :: rest)
          errors now =
          ((startJobs { c with CreateProwJob := f } ic pr ref anyShard rest e1 (now + 1)).1,
            Event.CreateProwJob (newProwJob c ic pr ref job) r1 ::
              (startJobs { c with CreateProwJob := f } ic pr ref anyShard rest e1 (now + 1)).2) := by
        cases h1 : f now (newProwJob c ic pr ref job) with
        | none =>
          exact ⟨none, errors, startJobs_run_ok { c with CreateProwJob := f } ic pr ref anyShard
            job rest errors now hr h1⟩
        | some err =>
          exact ⟨some err, errors ++ [err],
            startJobs_run_err { c with CreateProwJob := f } ic pr ref anyShard job rest errors
              now err hr h1⟩
      have e2 : ∃ r2 e2, startJobs c ic pr ref anyShard (job :: rest) errors2 now =
          ((startJobs c ic pr ref anyShard rest e2 (now + 1)).1,
            Event.CreateProwJob (newProwJob c ic pr ref job) r2 ::
              (startJobs c ic pr ref anyShard rest e2 (now + 1)).2) := by
        cases h1 : c.CreateProwJob now (newProwJob c ic pr ref job) with
        | none =>
          exact ⟨none, errors2, startJobs_run_ok c ic pr ref anyShard job rest errors2 now hr h1⟩
        | some err =>
          exact ⟨some err, errors2 ++ [err],
            startJobs_run_err c ic pr ref anyShard job rest errors2 now err hr h1⟩
      obtain ⟨r1, x1, h1⟩ := e1
      obtain ⟨r2, x2, h2⟩ := e2
      rw [h1, h2]
      simp only [submitted, List.filterMap_cons, Event.submitted?]
      exact congrArg _ (ih x1 x2 (now + 1))
    | false =>
      cases hs : (!job.SkipReport && !(anyShard.contains job.Context)) with
      | false =>
        rw [startJobs_silent { c with CreateProwJob := f } ic pr ref anyShard job rest errors
            now hr hs,
          startJobs_silent c ic pr ref anyShard job rest errors2 now hr hs]
        exact ih _ _ _
      | true =>
        cases h1 : c.CreateStatus now ic.Repo.Owner.Login ic.Repo.Name pr.Head.SHA
            (skippedStatus job) with
        | none =>
          rw [startJobs_skip_ok { c with CreateProwJob := f } ic pr ref anyShard job rest errors
              now hr hs h1,
            startJobs_skip_ok c ic pr ref anyShard job rest errors2 now hr hs h1]
          simp only [submitted, List.filterMap_cons, Event.submitted?]
          exact ih _ _ _
        | some err =>
          rw [startJobs_skip_err { c with CreateProwJob := f } ic pr ref anyShard job rest errors
              now err hr hs h1,
            startJobs_skip_err c ic pr ref anyShard job rest errors2 now err hr hs h1]

theorem submitted_startJobs_sublist (c : Client) (ic : IssueCommentEvent) (pr : PullRequest)
    (ref : String) (anyShard : List String) (jobs : List Presubmit) (errors : List Error)
    (now : Nat) :
    submitted (startJobs c ic pr ref anyShard jobs errors now).2 <+:
      (jobs.filter (fun job => job.RunsAgainstBranch pr.Base.Ref)).map
        (newProwJob c ic pr ref) := by
  induction jobs generalizing errors now with
  | nil => simp [startJobs, submitted]
  | cons job rest ih =>
    cases hr : job.RunsAgainstBranch pr.Base.Ref with
    | true =>
      cases h1 : c.CreateProwJob now (newProwJob c ic pr ref job) with
      | none =>
        rw [startJobs_run_ok c ic pr ref anyShard job rest errors now hr h1]
        simp only [submitted, List.filterMap_cons, Event.submitted?, List.filter_cons, hr,
          if_true, List.map_cons, List.prefix_cons_inj]
        exact ih _ _
      | some err =>
        rw [startJobs_run_err c ic pr ref anyShard job rest errors now err hr h1]
        simp only [submitted, List.filterMap_cons, Event.submitted?, List.filter_cons, hr,
          if_true, List.map_cons, List.prefix_cons_inj]
        exact ih _ _
    | false =>
      simp only [List.filter_cons, hr, Bool.false_eq_true, if_false]
      cases hs : (!job.SkipReport && !(anyShard.contains job.Context)) with
      | false =>
        rw [startJobs_silent c ic pr ref anyShard job rest errors now hr hs]
        exact ih _ _
      | true =>
        cases h1 : c.CreateStatus now ic.Repo.Owner.Login ic.Repo.Name pr.Head.SHA
            (skippedStatus job) with
        | none =>
          rw [startJobs_skip_ok c ic pr ref anyShard job rest errors now hr hs h1]
          simp only [submitted, List.filterMap_cons, Event.submitted?]
          exact ih _ _
        | some err =>
          rw [startJobs_skip_err c ic pr ref anyShard job rest errors now err hr hs h1]
          simp [submitted, Event.submitted?]

theorem submitted_startJobs_all (c : Client) (ic : IssueCommentEvent) (pr : PullRequest)
    (ref : String) (anyShard : List String) (jobs : List Presubmit) (errors : List Error)
    (now : Nat)
    (hstatus : ∀ n org repo sha status, c.CreateStatus n org repo sha status = none) :
    submitted (startJobs c ic pr ref anyShard jobs errors now).2 =
      (jobs.filter (fun job => job.RunsAgainstBranch pr.Base.Ref)).map
        (newProwJob c ic pr ref) := by
  induction jobs generalizing errors now with
  | nil => simp [startJobs, submitted]
  | cons job rest ih =>
    cases hr : job.RunsAgainstBranch pr.Base.Ref with
    | true =>
      cases h1 : c.CreateProwJob now (newProwJob c ic pr ref job) with
      | none =>
        rw [startJobs_run_ok c ic pr ref anyShard job rest errors now hr h1]
        simp only [submitted, List.filterMap_cons, Event.submitted?, List.filter_cons, hr,
          if_true, List.map_cons]
        exact congrArg _ (ih _ _)
      | some err =>
        rw [startJobs_run_err c ic pr ref anyShard job rest errors now err hr h1]
        simp only [submitted, List.filterMap_cons, Event.submitted?, List.filter_cons, hr,
          if_true, List.map_cons]
        exact congrArg _ (ih _ _)
    | false =>
      simp only [List.filter_cons, hr, Bool.false_eq_true, if_false]
      cases hs : (!job.SkipReport && !(anyShard.contains job.Context)) with
      | false =>
        rw [startJobs_silent c ic pr ref anyShard job rest errors now hr hs]
        exact ih _ _
      | true =>
        rw [startJobs_skip_ok c ic pr ref anyShard job rest errors now hr hs (hstatus _ _ _ _ _)]
        simp only [submitted, List.filterMap_cons, Event.submitted?]
        exact ih _ _

/-- The entries of the candidate list that the second loop reports as skipped on `context`,
in terms of the map built by the first loop. -/
theorem countP_isSkippedFor_startJobs (c : Client) (ic : IssueCommentEvent) (pr : PullRequest)
    (ref : String) (anyShard : List String) (context : String) (jobs : List Presubmit)
    (errors : List Error) (now : Nat) :
    List.countP (Event.isSkippedFor context) (startJobs c ic pr ref anyShard jobs errors now).2 ≤
      (jobs.filter (fun job => !job.RunsAgainstBranch pr.Base.Ref &&
        ((!job.SkipReport && !(anyShard.contains job.Context)) &&
          job.Context == context))).length ∧
    ((∀ n org repo sha status, c.CreateStatus n org repo sha status = none) →
      List.countP (Event.isSkippedFor context)
          (startJobs c ic pr ref anyShard jobs errors now).2 =
        (jobs.filter (fun job => !job.RunsAgainstBranch pr.Base.Ref &&
          ((!job.SkipReport && !(anyShard.contains job.Context)) &&
            job.Context == context))).length) := by
  induction jobs generalizing errors now with
  | nil => simp [startJobs]
  | cons job rest ih =>
    cases hr : job.RunsAgainstBranch pr.Base.Ref with
    | true =>
      simp only [List.filter_cons, hr, Bool.not_true, Bool.false_and, Bool.false_eq_true,
        if_false]
      cases h1 : c.CreateProwJob now (newProwJob c ic pr ref job) with
      | none =>
        rw [startJobs_run_ok c ic pr ref anyShard job rest errors now hr h1]
        simp only [List.countP_cons, Event.isSkippedFor, Bool.false_eq_true, if_false,
          Nat.add_zero]
        exact ih _ _
      | some err =>
        rw [startJobs_run_err c ic pr ref anyShard job rest errors now err hr h1]
        simp only [List.countP_cons, Event.isSkippedFor, Bool.false_eq_true, if_false,
          Nat.add_zero]
        exact ih _ _
    | false =>
      cases hs : (!job.SkipReport && !(anyShard.contains job.Context)) with
      | false =>
        rw [startJobs_silent c ic pr ref anyShard job rest errors now hr hs]
        simp only [List.filter_cons, hr, hs, Bool.not_false, Bool.true_and, Bool.false_and,
          Bool.false_eq_true, if_false]
        exact ih _ _
      | true =>
        have hev : ∀ r, Event.isSkippedFor context
            (Event.CreateStatus ic.Repo.Owner.Login ic.Repo.Name pr.Head.SHA
              (skippedStatus job) r) = (job.Context == context) := by
          intro r
          simp [Event.isSkippedFor, skippedStatus]
        simp only [List.filter_cons, hr, hs, Bool.not_false, Bool.true_and]
        cases hc : (job.Context == context) with
        | false =>
          simp only [Bool.false_eq_true, if_false]
          cases h1 : c.CreateStatus now ic.Repo.Owner.Login ic.Repo.Name pr.Head.SHA
              (skippedStatus job) with
          | none =>
            rw [startJobs_skip_ok c ic pr ref anyShard job rest errors now hr hs h1]
            simp only [List.countP_cons, hev, hc, Bool.false_eq_true, if_false, Nat.add_zero]
            exact ih _ _
          | some err =>
            rw [startJobs_skip_err c ic pr ref anyShard job rest errors now err hr hs h1]
            constructor
            · simp [List.countP_cons, hev, hc]
            · intro hall
              rw [hall] at h1
              exact absurd h1 (by simp)
        | true =>
          simp only [if_true, List.length_cons]
          cases h1 : c.CreateStatus now ic.Repo.Owner.Login ic.Repo.Name pr.Head.SHA
              (skippedStatus job) with
          | none =>
            rw [startJobs_skip_ok c ic pr ref anyShard job rest errors now hr hs h1]
            simp only [List.countP_cons, hev, hc, if_true]
            have := ih errors (now + 1)
            constructor
            · omega
            · intro hall
              have := this.2 hall
              omega
          | some err =>
            rw [startJobs_skip_err c ic pr ref anyShard job rest errors now err hr hs h1]
            constructor
            · simp [List.countP_cons, hev, hc]
            · intro hall
              rw [hall] at h1
              exact absurd h1 (by simp)

theorem skipReported_eq (baseRef : String) (jobs : List Presubmit) (context : String) :
    jobs.filter (fun job => !job.RunsAgainstBranch baseRef &&
        ((!job.SkipReport && !((anyShardRunsAgainstBranch baseRef jobs []).contains job.Context))
          && job.Context == context)) = skipReported baseRef jobs context := by
  unfold skipReported
  apply List.filter_congr
  intro job _
  by_cases hc : job.Context = context
  · have h : (anyShardRunsAgainstBranch baseRef jobs []).contains job.Context =
        jobs.any (fun other => other.RunsAgainstBranch baseRef && other.Context == context) := by
      rw [Bool.eq_iff_iff]
      simp [mem_anyShardRunsAgainstBranch, hc]
    subst hc
    rw [h]
    simp [Bool.and_assoc]
  · have hc2 : (job.Context == context) = false := by simpa using hc
    simp [hc2]

theorem gatherJobs_quiet (c : Client) (trustedOrg : String) (ic : IssueCommentEvent) :
    List.countP Event.isCreateStatus (gatherJobs c trustedOrg ic).calls = 0 ∧
    List.countP Event.isCreateProwJob (gatherJobs c trustedOrg ic).calls = 0 := by
  obtain ⟨M, hM⟩ : ∃ M : Gathered → Prop, ∀ g, M g ↔
      (List.countP Event.isCreateStatus g.calls = 0 ∧
        List.countP Event.isCreateProwJob g.calls = 0) := ⟨_, fun _ => Iff.rfl⟩
  refine (hM (gatherJobs c trustedOrg ic)).1 ?_
  repeat' first
    | apply gatherJobs_cases
    | apply noCandidateJobs_cases
    | apply fetchPullRequest_cases
    | apply trustGate_cases
    | apply resolveBase_cases
    | intro _
  all_goals rw [hM]
  all_goals simp [Gathered.calls, callsAfterMatching, countP_matchingPresubmits,
    countP_retestSelection, countP_cleanupCalls, Event.isCreateProwJob, Event.isCreateStatus]

theorem handleIC_of_returned (c : Client) (trustedOrg : String) (ic : IssueCommentEvent)
    (err : Option Error) (calls : List Event)
    (hg : gatherJobs c trustedOrg ic = .returned err calls) :
    handleIC c trustedOrg ic = (err, calls) := by
  simp [handleIC, hg, dispatchJobs]

theorem handleIC_of_dispatch (c : Client) (trustedOrg : String) (ic : IssueCommentEvent)
    (pr : PullRequest) (ref : String) (requestedJobs : List Presubmit) (calls : List Event)
    (hg : gatherJobs c trustedOrg ic = .dispatch pr ref requestedJobs calls) :
    (handleIC c trustedOrg ic).2 = calls ++
      (startJobs c ic pr ref (anyShardRunsAgainstBranch pr.Base.Ref requestedJobs [])
        requestedJobs [] calls.length).2 := by
  simp [handleIC, hg, dispatchJobs]

theorem quiet_of_returned (c : Client) (trustedOrg : String) (ic : IssueCommentEvent)
    (err : Option Error) (calls : List Event)
    (hg : gatherJobs c trustedOrg ic = .returned err calls) :
    List.countP Event.isCreateStatus calls = 0 ∧ List.countP Event.isCreateProwJob calls = 0 := by
  have h := gatherJobs_quiet c trustedOrg ic
  rw [hg] at h
  exact h

theorem quiet_of_dispatch (c : Client) (trustedOrg : String) (ic : IssueCommentEvent)
    (pr : PullRequest) (ref : String) (requestedJobs : List Presubmit) (calls : List Event)
    (hg : gatherJobs c trustedOrg ic = .dispatch pr ref requestedJobs calls) :
    List.countP Event.isCreateStatus calls = 0 ∧ List.countP Event.isCreateProwJob calls = 0 := by
  have h := gatherJobs_quiet c trustedOrg ic
  rw [hg] at h
  exact h

/-- C3, as stated, fails: in Scenario D (two shards of `e2e`, neither running against
`release-1.2`, `SkipReport` false on both) two "Skipped" statuses are created for `e2e`. -/
theorem scenarioD_two_skipped :
    List.countP (Event.isSkippedFor "e2e") scenarioD.2 = 2 ∧
    ¬ List.countP (Event.isSkippedFor "e2e") scenarioD.2 ≤ 1 := by
  decide

/-- C3, amended. `CreateStatus` with the description "Skipped" is called at most once per
candidate-list entry that does not run against the base branch, has `SkipReport` false and
shares its context with no candidate that runs against the base branch, and exactly once per
such entry when every `CreateStatus` call succeeds; a run that returns before the loops
creates no status. -/
theorem skipped_once_per_entry (c : Client) (trustedOrg : String) (ic : IssueCommentEvent)
    (context : String) :
    (∀ err calls, gatherJobs c trustedOrg ic = .returned err calls →
      List.countP (Event.isSkippedFor context) (handleIC c trustedOrg ic).2 = 0) ∧
    (∀ pr ref requestedJobs calls,
      gatherJobs c trustedOrg ic = .dispatch pr ref requestedJobs calls →
      List.countP (Event.isSkippedFor context) (handleIC c trustedOrg ic).2 ≤
        (skipReported pr.Base.Ref requestedJobs context).length ∧
      ((∀ n org repo sha status, c.CreateStatus n org repo sha status = none) →
        List.countP (Event.isSkippedFor context) (handleIC c trustedOrg ic).2 =
          (skipReported pr.Base.Ref requestedJobs context).length)) := by
  constructor
  · intro err calls hg
    rw [handleIC_of_returned c trustedOrg ic err calls hg]
    exact countP_isSkippedFor_eq_zero _ _ (quiet_of_returned c trustedOrg ic err calls hg).1
  · intro pr ref requestedJobs calls hg
    rw [handleIC_of_dispatch c trustedOrg ic pr ref requestedJobs calls hg, List.countP_append,
      countP_isSkippedFor_eq_zero _ _ (quiet_of_dispatch c trustedOrg ic pr ref requestedJobs
        calls hg).1, Nat.zero_add, ← skipReported_eq]
    exact countP_isSkippedFor_startJobs c ic pr ref _ context requestedJobs [] calls.length

/-- Witness of C3, amended: in Scenario D the two shards are the entries reported. -/
theorem skipped_once_per_entry_witness :
    List.countP (Event.isSkippedFor "e2e")
      (handleIC
        (sampleClient true false
          [shard "e2e" "e2e" "master", shard "e2e" "e2e" "release-1.1"] [])
        "kubernetes" (sampleEvent "/test e2e" false)).2 =
      (skipReported "release-1.2"
        [shard "e2e" "e2e" "master", shard "e2e" "e2e" "release-1.1"] "e2e").length :=
  ((skipped_once_per_entry
      (sampleClient true false [shard "e2e" "e2e" "master", shard "e2e" "e2e" "release-1.1"] [])
      "kubernetes" (sampleEvent "/test e2e" false) "e2e").2 _ _ _ _ rfl).2
    (fun _ _ _ _ _ => rfl)

/-- C4, as stated, fails: a job named by both `MatchingPresubmits` and `RetestPresubmits` is
submitted twice, under the same context. -/
theorem named_twice_submitted_twice :
    submittedContexts namedTwice.2 = ["unit", "unit"] ∧
    ¬ (submittedContexts namedTwice.2).Nodup := by
  decide

theorem matchedJobs_append (a b : List Event) :
    matchedJobs (a ++ b) = matchedJobs a ++ matchedJobs b := by
  induction a with
  | nil => rfl
  | cons e es ih =>
    cases e with
    | MatchingPresubmits f body ta r =>
      cases r with
      | ok jobs => simp [matchedJobs, ih]
      | error err => simp [matchedJobs, ih]
    | _ => simp [matchedJobs, ih]

theorem retestJobs_append (a b : List Event) :
    retestJobs (a ++ b) = retestJobs a ++ retestJobs b := by
  induction a with
  | nil => rfl
  | cons e es ih =>
    cases e with
    | RetestPresubmits f s rc r =>
      cases r with
      | ok jobs => simp [retestJobs, ih]
      | error err => simp [retestJobs, ih]
    | _ => simp [retestJobs, ih]

theorem matchedJobs_of_quiet (l : List Event)
    (h : List.countP Event.isMatchingPresubmits l = 0) : matchedJobs l = [] := by
  induction l with
  | nil => rfl
  | cons e es ih =>
    rw [List.countP_cons] at h
    have h1 : List.countP Event.isMatchingPresubmits es = 0 := by omega
    cases e <;> simp_all [matchedJobs, Event.isMatchingPresubmits]

theorem retestJobs_of_quiet (l : List Event)
    (h : List.countP Event.isRetestPresubmits l = 0) : retestJobs l = [] := by
  induction l with
  | nil => rfl
  | cons e es ih =>
    rw [List.countP_cons] at h
    have h1 : List.countP Event.isRetestPresubmits es = 0 := by omega
    cases e <;> simp_all [retestJobs, Event.isRetestPresubmits]

theorem matchedJobs_callsAfterMatching (c : Client) (ic : IssueCommentEvent)
    (botName : String) (jobs : List Presubmit) :
    matchedJobs (callsAfterMatching c ic botName (.ok jobs)) = jobs := by
  unfold callsAfterMatching
  rw [matchedJobs_append, matchedJobs_append, matchedJobs_of_quiet
    (matchingPresubmits c ic).2.2 (countP_matchingPresubmits _ (fun _ _ _ _ => rfl) c ic)]
  simp [matchedJobs]

theorem retestJobs_callsAfterMatching (c : Client) (ic : IssueCommentEvent)
    (botName : String) (r : Except Error (List Presubmit)) :
    retestJobs (callsAfterMatching c ic botName r) = [] := by
  apply retestJobs_of_quiet
  unfold callsAfterMatching
  simp [countP_matchingPresubmits, Event.isRetestPresubmits]

theorem retestJobs_retestSelection (c : Client) (ic : IssueCommentEvent) (pr : PullRequest)
    (cf : Option (List String)) (b : Bool) (now : Nat) :
    retestJobs (retestSelection c ic pr cf b now).2 =
      match (retestSelection c ic pr cf b now).1 with
      | .ok jobs => jobs
      | .error _ => [] := by
  unfold retestSelection
  split
  · unfold retestBlock
    dsimp only
    split
    · simp [retestJobs]
    · rw [retestJobs_append, retestJobs_append, retestJobs_of_quiet _
        (countP_runWithFiles _ (fun _ _ _ _ => rfl) _ _ _ _ _ _ _)]
      generalize (runWithFiles _ _ _ _ _ _ _).1 = m
      cases m <;> simp [retestJobs]
  · simp [retestJobs]

theorem candidates_of_dispatch (c : Client) (trustedOrg : String) (ic : IssueCommentEvent) :
    ∀ pr ref requestedJobs calls,
      gatherJobs c trustedOrg ic = .dispatch pr ref requestedJobs calls →
      requestedJobs = matchedJobs calls ++ retestJobs calls := by
  obtain ⟨M, hM⟩ : ∃ M : Gathered → Prop, ∀ g, M g ↔
      (∀ pr ref requestedJobs calls, g = .dispatch pr ref requestedJobs calls →
        requestedJobs = matchedJobs calls ++ retestJobs calls) := ⟨_, fun _ => Iff.rfl⟩
  refine (hM (gatherJobs c trustedOrg ic)).1 ?_
  repeat' first
    | apply gatherJobs_cases
    | apply noCandidateJobs_cases
    | apply fetchPullRequest_cases
    | apply trustGate_cases
    | apply resolveBase_cases
    | intro _
  all_goals rw [hM]
  all_goals
    intro pr ref requestedJobs calls h
    cases h <;>
      simp [*, matchedJobs_append, retestJobs_append, matchedJobs_callsAfterMatching,
        retestJobs_callsAfterMatching, retestJobs_retestSelection, matchedJobs_of_quiet,
        retestJobs_of_quiet, countP_matchingPresubmits, countP_retestSelection,
        countP_cleanupCalls, matchedJobs,
        retestJobs, Event.isMatchingPresubmits, Event.isRetestPresubmits]

theorem pull_of_dispatch (c : Client) (trustedOrg : String) (ic : IssueCommentEvent) :
    ∀ pr ref requestedJobs calls,
      gatherJobs c trustedOrg ic = .dispatch pr ref requestedJobs calls →
      Event.GetPullRequest ic.Repo.Owner.Login ic.Repo.Name ic.Issue.Number (.ok pr) ∈
        calls := by
  obtain ⟨M, hM⟩ : ∃ M : Gathered → Prop, ∀ g, M g ↔
      (∀ pr ref requestedJobs calls, g = .dispatch pr ref requestedJobs calls →
        Event.GetPullRequest ic.Repo.Owner.Login ic.Repo.Name ic.Issue.Number (.ok pr) ∈
          calls) := ⟨_, fun _ => Iff.rfl⟩
  refine (hM (gatherJobs c trustedOrg ic)).1 ?_
  repeat' first
    | apply gatherJobs_cases
    | apply noCandidateJobs_cases
    | apply fetchPullRequest_cases
    | apply trustGate_cases
    | apply resolveBase_cases
    | intro _
  all_goals rw [hM]
  all_goals
    intro pr ref requestedJobs calls h
    cases h <;> simp

/-- C4, amended. The contexts of the submitted jobs are pairwise distinct whenever those of
the candidate-list entries that run against the base branch are: the candidate list is the
jobs returned by `MatchingPresubmits` followed by those returned by `RetestPresubmits`, each
entry that runs against the base branch of the fetched pull request is submitted on its own,
in candidate-list order (all of them when every `CreateStatus` call succeeds), so a job
returned by both collaborators is submitted twice; nothing is submitted by a run that returns
before the loops. -/
theorem submitted_contexts_distinct (c : Client) (trustedOrg : String)
    (ic : IssueCommentEvent) :
    (∀ err calls, gatherJobs c trustedOrg ic = .returned err calls →
      submittedContexts (handleIC c trustedOrg ic).2 = []) ∧
    (∀ pr ref requestedJobs calls,
      gatherJobs c trustedOrg ic = .dispatch pr ref requestedJobs calls →
      Event.GetPullRequest ic.Repo.Owner.Login ic.Repo.Name ic.Issue.Number (.ok pr) ∈
        (handleIC c trustedOrg ic).2 ∧
      requestedJobs =
        matchedJobs (handleIC c trustedOrg ic).2 ++ retestJobs (handleIC c trustedOrg ic).2 ∧
      (((requestedJobs.filter (fun job => job.RunsAgainstBranch pr.Base.Ref)).map
          (fun job => job.Context)).Nodup →
        (submittedContexts (handleIC c trustedOrg ic).2).Nodup) ∧
      ((∀ n org repo sha status, c.CreateStatus n org repo sha status = none) →
        submittedContexts (handleIC c trustedOrg ic).2 =
          (requestedJobs.filter (fun job => job.RunsAgainstBranch pr.Base.Ref)).map
            (fun job => job.Context)) ∧
      ((∀ n org repo sha status, c.CreateStatus n org repo sha status = none) →
        ∀ job, job ∈ matchedJobs (handleIC c trustedOrg ic).2 →
          job ∈ retestJobs (handleIC c trustedOrg ic).2 →
          job.RunsAgainstBranch pr.Base.Ref = true →
          2 ≤ (submittedContexts (handleIC c trustedOrg ic).2).count job.Context)) := by
  constructor
  · intro err calls hg
    rw [handleIC_of_returned c trustedOrg ic err calls hg]
    simp [submittedContexts,
      submitted_eq_nil _ (quiet_of_returned c trustedOrg ic err calls hg).2]
  · intro pr ref requestedJobs calls hg
    have hT := handleIC_of_dispatch c trustedOrg ic pr ref requestedJobs calls hg
    have hs : submitted (handleIC c trustedOrg ic).2 =
        submitted (startJobs c ic pr ref (anyShardRunsAgainstBranch pr.Base.Ref requestedJobs [])
          requestedJobs [] calls.length).2 := by
      rw [hT, submitted_append,
        submitted_eq_nil _ (quiet_of_dispatch c trustedOrg ic pr ref requestedJobs calls hg).2,
        List.nil_append]
    have hctx : ((requestedJobs.filter (fun job => job.RunsAgainstBranch pr.Base.Ref)).map
        (newProwJob c ic pr ref)).map (fun pj => pj.job.Context) =
        (requestedJobs.filter (fun job => job.RunsAgainstBranch pr.Base.Ref)).map
          (fun job => job.Context) := by
      simp [List.map_map, Function.comp_def, newProwJob]
    have hcand : requestedJobs =
        matchedJobs (handleIC c trustedOrg ic).2 ++ retestJobs (handleIC c trustedOrg ic).2 := by
      rw [hT, matchedJobs_append, retestJobs_append,
        matchedJobs_of_quiet (startJobs c ic pr ref _ requestedJobs [] calls.length).2
          (countP_startJobs _ (fun _ _ _ _ _ => rfl) (fun _ _ => rfl) _ _ _ _ _ _ _ _),
        retestJobs_of_quiet (startJobs c ic pr ref _ requestedJobs [] calls.length).2
          (countP_startJobs _ (fun _ _ _ _ _ => rfl) (fun _ _ => rfl) _ _ _ _ _ _ _ _),
        List.append_nil, List.append_nil]
      exact candidates_of_dispatch c trustedOrg ic pr ref requestedJobs calls hg
    have hall : (∀ n org repo sha status, c.CreateStatus n org repo sha status = none) →
        submittedContexts (handleIC c trustedOrg ic).2 =
          (requestedJobs.filter (fun job => job.RunsAgainstBranch pr.Base.Ref)).map
            (fun job => job.Context) := by
      intro hall
      unfold submittedContexts
      rw [hs, submitted_startJobs_all c ic pr ref _ requestedJobs [] calls.length hall, hctx]
    refine ⟨?_, hcand, ?_, hall, ?_⟩
    · rw [hT]
      exact List.mem_append_left _ (pull_of_dispatch c trustedOrg ic pr ref requestedJobs calls hg)
    · intro hnd
      have hp := submitted_startJobs_sublist c ic pr ref
        (anyShardRunsAgainstBranch pr.Base.Ref requestedJobs []) requestedJobs [] calls.length
      have hsub := (hp.sublist.map (fun pj => pj.job.Context))
      rw [hctx] at hsub
      unfold submittedContexts
      rw [hs]
      exact hnd.sublist hsub
    · intro hstatus job hm hr hruns
      rw [hall hstatus]
      have h1 : job.Context ∈ ((matchedJobs (handleIC c trustedOrg ic).2).filter
          (fun job => job.RunsAgainstBranch pr.Base.Ref)).map (fun job => job.Context) :=
        List.mem_map.2 ⟨job, List.mem_filter.2 ⟨hm, hruns⟩, rfl⟩
      have h2 : job.Context ∈ ((retestJobs (handleIC c trustedOrg ic).2).filter
          (fun job => job.RunsAgainstBranch pr.Base.Ref)).map (fun job => job.Context) :=
        List.mem_map.2 ⟨job, List.mem_filter.2 ⟨hr, hruns⟩, rfl⟩
      have h3 := List.count_pos_iff.2 h1
      have h4 := List.count_pos_iff.2 h2
      rw [hcand, List.filter_append, List.map_append, List.count_append]
      omega

/-- Witness of C4, amended: two jobs with two contexts, both running against the base branch,
are submitted under two contexts; and the job `unit`, returned by `MatchingPresubmits` and
by `RetestPresubmits`, is submitted twice. -/
theorem submitted_contexts_distinct_witness :
    (submittedContexts
      (handleIC
        (sampleClient true false
          [shard "unit" "unit" "release-1.2", shard "lint" "lint" "release-1.2"] [])
        "kubernetes" (sampleEvent "/test all" false)).2).Nodup ∧
    2 ≤ (submittedContexts
      (handleIC (sampleClient true false [shard "unit" "unit" "release-1.2"]
          [shard "unit" "unit" "release-1.2"])
        "kubernetes" (sampleEvent "/test unit\n/retest" false)).2).count "unit" :=
  ⟨((submitted_contexts_distinct
      (sampleClient true false
        [shard "unit" "unit" "release-1.2", shard "lint" "lint" "release-1.2"] [])
      "kubernetes" (sampleEvent "/test all" false)).2 _ _ _ _ rfl).2.2.1 (by decide),
    ((submitted_contexts_distinct
      (sampleClient true false [shard "unit" "unit" "release-1.2"]
        [shard "unit" "unit" "release-1.2"])
      "kubernetes" (sampleEvent "/test unit\n/retest" false)).2 _ _ _ _ rfl).2.2.2.2
      (fun _ _ _ _ _ => rfl) (shard "unit" "unit" "release-1.2")
      (List.mem_cons_self _ _) (List.mem_cons_self _ _) rfl⟩

/-- C10. Submission failures are isolated per job: the jobs for which `CreateProwJob` is
called, and their order, do not depend on what `CreateProwJob` returns; when every
`CreateStatus` call succeeds they are exactly the candidate-list entries that run against
the base branch, once each, in candidate-list order. -/
theorem submissions_isolated (c : Client) (trustedOrg : String) (ic : IssueCommentEvent) :
    (∀ f : Nat → ProwJob → Option Error,
      submitted (handleIC { c with CreateProwJob := f } trustedOrg ic).2 =
        submitted (handleIC c trustedOrg ic).2) ∧
    (∀ pr ref requestedJobs calls,
      gatherJobs c trustedOrg ic = .dispatch pr ref requestedJobs calls →
      (∀ n org repo sha status, c.CreateStatus n org repo sha status = none) →
      submitted (handleIC c trustedOrg ic).2 =
        (requestedJobs.filter (fun job => job.RunsAgainstBranch pr.Base.Ref)).map
          (newProwJob c ic pr ref)) := by
  constructor
  · intro f
    have hg := gatherJobs_setCreateProwJob c f trustedOrg ic
    cases h : gatherJobs c trustedOrg ic with
    | returned err calls =>
      rw [h] at hg
      rw [handleIC_of_returned _ trustedOrg ic err calls hg,
        handleIC_of_returned c trustedOrg ic err calls h]
    | dispatch pr ref requestedJobs calls =>
      rw [h] at hg
      rw [handleIC_of_dispatch _ trustedOrg ic pr ref requestedJobs calls hg,
        handleIC_of_dispatch c trustedOrg ic pr ref requestedJobs calls h,
        submitted_append, submitted_append]
      exact congrArg _ (submitted_startJobs_setCreateProwJob c f ic pr ref _ requestedJobs [] []
        calls.length)
  · intro pr ref requestedJobs calls hg hall
    rw [handleIC_of_dispatch c trustedOrg ic pr ref requestedJobs calls hg, submitted_append,
      submitted_eq_nil _ (quiet_of_dispatch c trustedOrg ic pr ref requestedJobs calls hg).2,
      List.nil_append]
    exact submitted_startJobs_all c ic pr ref _ requestedJobs [] calls.length hall

/-- Witness of C10: of three requested jobs the two that run against `release-1.2` are
submitted, in order, also when every submission fails. -/
theorem submissions_isolated_witness :
    (submitted
      (handleIC
        { sampleClient true false
            [shard "unit" "unit" "release-1.2", shard "e2e" "e2e" "master",
              shard "lint" "lint" "release-1.2"] [] with
          CreateProwJob := fun _ _ => some "backend down" }
        "kubernetes" (sampleEvent "/test all" false)).2).map (fun pj => pj.job.Name)
      = ["unit", "lint"] :=
  (congrArg (List.map (fun pj => pj.job.Name))
    ((submissions_isolated
      (sampleClient true false
        [shard "unit" "unit" "release-1.2", shard "e2e" "e2e" "master",
          shard "lint" "lint" "release-1.2"] [])
      "kubernetes" (sampleEvent "/test all" false)).1 (fun _ _ => some "backend down"))).trans
    (congrArg (List.map (fun pj => pj.job.Name))
      ((submissions_isolated
        (sampleClient true false
          [shard "unit" "unit" "release-1.2", shard "e2e" "e2e" "master",
            shard "lint" "lint" "release-1.2"] [])
        "kubernetes" (sampleEvent "/test all" false)).2 _ _ _ _ rfl (fun _ _ _ _ _ => rfl)))

/-- C20. The `/ok-to-test` token is line-anchored and case-sensitive, and independent of
`/retest`: a body matched by `(?m)^/ok-to-test\s*$` has a line that, trimmed of whitespace,
is exactly `/ok-to-test`; `/OK-TO-TEST`, `/ok-to-test please` and `not /ok-to-test` are not
matched; `/retest` requests a retest and not a test of everything, `/ok-to-test` the
converse. -/
theorem okToTest_anchored :
    (∀ body : String, MatchString okToTest body = true →
      hasTrimmedLine "/ok-to-test" body = true) ∧
    MatchString okToTest "/OK-TO-TEST" = false ∧
    MatchString okToTest "/ok-to-test please" = false ∧
    MatchString okToTest "not /ok-to-test" = false ∧
    (MatchString retest "/retest" = true ∧ MatchString okToTest "/retest" = false) ∧
    (MatchString okToTest "/ok-to-test" = true ∧ MatchString retest "/ok-to-test" = false) :=
  ⟨fun body h => line_of_command_match "/ok-to-test" body (by decide) ⟨'/', _, rfl, by decide⟩
      ⟨'t', _, rfl, by decide⟩ h,
    by decide, by decide, by decide, by decide, by decide⟩

/-- Witness of C20: a matched body and its line. -/
theorem okToTest_anchored_witness :
    MatchString okToTest "thanks\n/ok-to-test  \n" = true ∧
    hasTrimmedLine "/ok-to-test" "thanks\n/ok-to-test  \n" = true :=
  ⟨by decide, okToTest_anchored.1 _ (by decide)⟩

/-! ## The classification of statuses -/

theorem mem_classifyStatuses (statuses : List Status) (skipContexts runContexts : List String)
    (x : String) :
    (x ∈ (classifyStatuses statuses (skipContexts, runContexts)).1 ↔
      x ∈ skipContexts ∨ ∃ status ∈ statuses,
        (status.State = StatusSuccess ∨ status.State = StatusPending) ∧ status.Context = x) ∧
    (x ∈ (classifyStatuses statuses (skipContexts, runContexts)).2 ↔
      x ∈ runContexts ∨ ∃ status ∈ statuses,
        (status.State = StatusError ∨ status.State = StatusFailure) ∧ status.Context = x) := by
  induction statuses generalizing skipContexts runContexts with
  | nil => simp [classifyStatuses]
  | cons status rest ih =>
    unfold classifyStatuses
    split
    · rename_i h
      have hne : ¬ (status.State = StatusError ∨ status.State = StatusFailure) := by
        rcases h with h | h <;> rw [h] <;> decide
      rw [(ih _ _).1, (ih _ _).2, mem_setInsert]
      constructor
      · constructor
        · rintro ((h1 | h1) | ⟨s, hs, h2⟩)
          · exact Or.inl h1
          · exact Or.inr ⟨status, List.mem_cons_self _ _, h, h1.symm⟩
          · exact Or.inr ⟨s, List.mem_cons_of_mem _ hs, h2⟩
        · rintro (h1 | ⟨s, hs, h2⟩)
          · exact Or.inl (Or.inl h1)
          · rcases List.mem_cons.1 hs with rfl | hs
            · exact Or.inl (Or.inr h2.2.symm)
            · exact Or.inr ⟨s, hs, h2⟩
      · constructor
        · rintro (h1 | ⟨s, hs, h2⟩)
          · exact Or.inl h1
          · exact Or.inr ⟨s, List.mem_cons_of_mem _ hs, h2⟩
        · rintro (h1 | ⟨s, hs, h2⟩)
          · exact Or.inl h1
          · rcases List.mem_cons.1 hs with rfl | hs
            · exact absurd h2.1 hne
            · exact Or.inr ⟨s, hs, h2⟩
    · rename_i h
      split
      · rename_i h'
        rw [(ih _ _).1, (ih _ _).2, mem_setInsert]
        constructor
        · constructor
          · rintro (h1 | ⟨s, hs, h2⟩)
            · exact Or.inl h1
            · exact Or.inr ⟨s, List.mem_cons_of_mem _ hs, h2⟩
          · rintro (h1 | ⟨s, hs, h2⟩)
            · exact Or.inl h1
            · rcases List.mem_cons.1 hs with rfl | hs
              · exact absurd h2.1 h
              · exact Or.inr ⟨s, hs, h2⟩
        · constructor
          · rintro ((h1 | h1) | ⟨s, hs, h2⟩)
            · exact Or.inl h1
            · exact Or.inr ⟨status, List.mem_cons_self _ _, h', h1.symm⟩
            · exact Or.inr ⟨s, List.mem_cons_of_mem _ hs, h2⟩
          · rintro (h1 | ⟨s, hs, h2⟩)
            · exact Or.inl (Or.inl h1)
            · rcases List.mem_cons.1 hs with rfl | hs
              · exact Or.inl (Or.inr h2.2.symm)
              · exact Or.inr ⟨s, hs, h2⟩
      · rename_i h'
        rw [(ih _ _).1, (ih _ _).2]
        constructor
        · constructor
          · rintro (h1 | ⟨s, hs, h2⟩)
            · exact Or.inl h1
            · exact Or.inr ⟨s, List.mem_cons_of_mem _ hs, h2⟩
          · rintro (h1 | ⟨s, hs, h2⟩)
            · exact Or.inl h1
            · rcases List.mem_cons.1 hs with rfl | hs
              · exact absurd h2.1 h
              · exact Or.inr ⟨s, hs, h2⟩
        · constructor
          · rintro (h1 | ⟨s, hs, h2⟩)
            · exact Or.inl h1
            · exact Or.inr ⟨s, List.mem_cons_of_mem _ hs, h2⟩
          · rintro (h1 | ⟨s, hs, h2⟩)
            · exact Or.inl h1
            · rcases List.mem_cons.1 hs with rfl | hs
              · exact absurd h2.1 h'
              · exact Or.inr ⟨s, hs, h2⟩

theorem filterMap_eq_nil_of_countP {β : Type} (f : Event → Option β) (l : List Event)
    (h : List.countP (fun e => (f e).isSome) l = 0) : l.filterMap f = [] := by
  induction l with
  | nil => rfl
  | cons e es ih =>
    rw [List.countP_cons] at h
    have h1 : List.countP (fun e => (f e).isSome) es = 0 := by omega
    have h2 : f e = none := by
      cases hf : f e with
      | none => rfl
      | some b => simp [hf] at h
    simp [List.filterMap_cons, h2, ih h1]

theorem retestSets_retestBlock (c : Client) (ic : IssueCommentEvent) (pr : PullRequest)
    (cf : Option (List String)) (now : Nat) :
    ∀ sets ∈ retestSets (retestBlock c ic pr cf now).2,
      ∃ combinedStatus ∈ combinedStatuses (retestBlock c ic pr cf now).2,
        sets = classifyStatuses combinedStatus.Statuses ([], []) := by
  have hfiles : ∀ {β : Type} (f : Event → Option β)
      (_ : ∀ org repo number r, f (Event.GetPullRequestChanges org repo number r) = none)
      (w : WithFiles (Except Error (List Presubmit))) (n : Nat),
      (runWithFiles c ic.Repo.Owner.Login ic.Repo.Name ic.Issue.Number w cf n).2.2.filterMap f
        = [] := by
    intro β f hf w n
    apply filterMap_eq_nil_of_countP
    exact countP_runWithFiles _ (by intro o r k x; simp [hf]) _ _ _ _ _ _ _
  unfold retestBlock
  dsimp only
  split
  · simp [retestSets, Event.retestSets?]
  · rename_i combinedStatus _
    intro sets hsets
    refine ⟨combinedStatus, ?_, ?_⟩
    · simp [combinedStatuses, Event.combinedStatus?, List.filterMap_append, List.filterMap_cons]
    · simp only [retestSets, List.filterMap_append, List.filterMap_cons, Event.retestSets?,
        List.filterMap_nil, hfiles Event.retestSets? (fun _ _ _ _ => rfl), List.nil_append,
        List.mem_singleton] at hsets
      exact hsets

theorem classified_append (a b : List Event) (ha : Classified a) (hb : Classified b) :
    Classified (a ++ b) := by
  intro sets hsets
  simp only [retestSets, List.filterMap_append, List.mem_append] at hsets
  rcases hsets with h | h
  · obtain ⟨cs, hcs, heq⟩ := ha sets h
    exact ⟨cs, by simp only [combinedStatuses, List.filterMap_append, List.mem_append]; exact Or.inl hcs, heq⟩
  · obtain ⟨cs, hcs, heq⟩ := hb sets h
    exact ⟨cs, by simp only [combinedStatuses, List.filterMap_append, List.mem_append]; exact Or.inr hcs, heq⟩

theorem classified_of_quiet (a : List Event)
    (h : List.countP (fun e => (Event.retestSets? e).isSome) a = 0) : Classified a := by
  intro sets hsets
  rw [retestSets, filterMap_eq_nil_of_countP _ _ h] at hsets
  simp at hsets

theorem classified_retestSelection (c : Client) (ic : IssueCommentEvent) (pr : PullRequest)
    (cf : Option (List String)) (b : Bool) (now : Nat) :
    Classified (retestSelection c ic pr cf b now).2 := by
  unfold retestSelection
  split
  · exact retestSets_retestBlock c ic pr cf now
  · exact classified_of_quiet _ rfl

theorem classified_handleIC (c : Client) (trustedOrg : String) (ic : IssueCommentEvent) :
    Classified (handleIC c trustedOrg ic).2 := by
  obtain ⟨M, hM⟩ : ∃ M : Gathered → Prop, ∀ g, M g ↔ Classified (dispatchJobs c ic g).2 :=
    ⟨_, fun _ => Iff.rfl⟩
  refine (hM (gatherJobs c trustedOrg ic)).1 ?_
  repeat' first
    | apply gatherJobs_cases
    | apply noCandidateJobs_cases
    | apply fetchPullRequest_cases
    | apply trustGate_cases
    | apply resolveBase_cases
    | intro _
  all_goals rw [hM]
  all_goals simp only [dispatchJobs, callsAfterMatching]
  all_goals
    repeat' first
      | apply classified_append
      | exact classified_retestSelection _ _ _ _ _ _
      | (apply classified_of_quiet
         simp [countP_matchingPresubmits, countP_startJobs, countP_cleanupCalls,
           Event.retestSets?])

/-- C14. Status classification for `/retest`: the skip set passed to `RetestPresubmits` is
the set of contexts with a status in state success or pending of the combined status fetched
in the run, the rerun set the set of contexts with a status in state failure or error; other
states add to neither set. In Scenario B the skip set is `lint` and the rerun set is
`unit-tests`. -/
theorem status_classification (c : Client) (trustedOrg : String) (ic : IssueCommentEvent) :
    (∀ sets ∈ retestSets (handleIC c trustedOrg ic).2,
      ∃ combinedStatus ∈ combinedStatuses (handleIC c trustedOrg ic).2,
        (∀ x, x ∈ sets.1 ↔ ∃ status ∈ combinedStatus.Statuses,
          (status.State = "success" ∨ status.State = "pending") ∧ status.Context = x) ∧
        (∀ x, x ∈ sets.2 ↔ ∃ status ∈ combinedStatus.Statuses,
          (status.State = "failure" ∨ status.State = "error") ∧ status.Context = x)) ∧
    retestSets scenarioB.2 = [(["lint"], ["unit-tests"])] := by
  refine ⟨?_, by decide⟩
  intro sets hsets
  obtain ⟨cs, hcs, heq⟩ := classified_handleIC c trustedOrg ic sets hsets
  refine ⟨cs, hcs, ?_, ?_⟩
  · intro x
    rw [heq, (mem_classifyStatuses _ _ _ x).1]
    simp [StatusSuccess, StatusPending]
  · intro x
    rw [heq, (mem_classifyStatuses _ _ _ x).2]
    simp only [StatusError, StatusFailure, List.not_mem_nil, false_or]
    constructor
    · rintro ⟨s, hs, h1 | h1, h2⟩
      · exact ⟨s, hs, Or.inr h1, h2⟩
      · exact ⟨s, hs, Or.inl h1, h2⟩
    · rintro ⟨s, hs, h1 | h1, h2⟩
      · exact ⟨s, hs, Or.inr h1, h2⟩
      · exact ⟨s, hs, Or.inl h1, h2⟩

/-- Witness of C14: the sets of Scenario B come from the combined status of Scenario B. -/
theorem status_classification_witness :
    ∃ combinedStatus ∈ combinedStatuses scenarioB.2,
      (∀ x, x ∈ ["lint"] ↔ ∃ status ∈ combinedStatus.Statuses,
        (status.State = "success" ∨ status.State = "pending") ∧ status.Context = x) ∧
      (∀ x, x ∈ ["unit-tests"] ↔ ∃ status ∈ combinedStatus.Statuses,
        (status.State = "failure" ∨ status.State = "error") ∧ status.Context = x) :=
  (status_classification _ _ _).1 (["lint"], ["unit-tests"]) (by decide)

/-! ## The placeholder statuses and the job records -/

theorem createdStatuses_append (a b : List Event) :
    createdStatuses (a ++ b) = createdStatuses a ++ createdStatuses b := by
  simp [createdStatuses, List.filterMap_append]

theorem createdStatuses_eq_nil (l : List Event) (h : List.countP Event.isCreateStatus l = 0) :
    createdStatuses l = [] := by
  apply filterMap_eq_nil_of_countP
  rw [List.countP_eq_zero] at h ⊢
  intro e he
  have := h e he
  cases e <;> simp_all [Event.status?, Event.isCreateStatus]

theorem createdStatuses_startJobs (c : Client) (ic : IssueCommentEvent) (pr : PullRequest)
    (ref : String) (anyShard : List String) (jobs : List Presubmit) (errors : List Error)
    (now : Nat) :
    createdStatuses (startJobs c ic pr ref anyShard jobs errors now).2 <+:
      (jobs.filter (fun job => !job.RunsAgainstBranch pr.Base.Ref &&
        (!job.SkipReport && !(anyShard.contains job.Context)))).map
        (fun job => (ic.Repo.Owner.Login, ic.Repo.Name, pr.Head.SHA, skippedStatus job)) ∧
    ((∀ n org repo sha status, c.CreateStatus n org repo sha status = none) →
      createdStatuses (startJobs c ic pr ref anyShard jobs errors now).2 =
        (jobs.filter (fun job => !job.RunsAgainstBranch pr.Base.Ref &&
          (!job.SkipReport && !(anyShard.contains job.Context)))).map
          (fun job => (ic.Repo.Owner.Login, ic.Repo.Name, pr.Head.SHA, skippedStatus job))) := by
  induction jobs generalizing errors now with
  | nil => simp [startJobs, createdStatuses]
  | cons job rest ih =>
    cases hr : job.RunsAgainstBranch pr.Base.Ref with
    | true =>
      simp only [List.filter_cons, hr, Bool.not_true, Bool.false_and, Bool.false_eq_true,
        if_false]
      cases h1 : c.CreateProwJob now (newProwJob c ic pr ref job) with
      | none =>
        rw [startJobs_run_ok c ic pr ref anyShard job rest errors now hr h1]
        simp only [createdStatuses, List.filterMap_cons, Event.status?]
        exact ih _ _
      | some err =>
        rw [startJobs_run_err c ic pr ref anyShard job rest errors now err hr h1]
        simp only [createdStatuses, List.filterMap_cons, Event.status?]
        exact ih _ _
    | false =>
      cases hs : (!job.SkipReport && !(anyShard.contains job.Context)) with
      | false =>
        rw [startJobs_silent c ic pr ref anyShard job rest errors now hr hs]
        simp only [List.filter_cons, hr, hs, Bool.not_false, Bool.true_and, Bool.and_false,
          Bool.false_eq_true, if_false]
        exact ih _ _
      | true =>
        simp only [List.filter_cons, hr, hs, Bool.not_false, Bool.true_and, if_true,
          List.map_cons]
        cases h1 : c.CreateStatus now ic.Repo.Owner.Login ic.Repo.Name pr.Head.SHA
            (skippedStatus job) with
        | none =>
          rw [startJobs_skip_ok c ic pr ref anyShard job rest errors now hr hs h1]
          simp only [createdStatuses, List.filterMap_cons, Event.status?, List.prefix_cons_inj,
            List.cons.injEq, true_and]
          exact ih _ _
        | some err =>
          rw [startJobs_skip_err c ic pr ref anyShard job rest errors now err hr hs h1]
          constructor
          · simp [createdStatuses, Event.status?, List.prefix_cons_inj]
          · intro hall
            rw [hall] at h1
            exact absurd h1 (by simp)

theorem skipPlaceholders_eq (baseRef : String) (jobs : List Presubmit) :
    jobs.filter (fun job => !job.RunsAgainstBranch baseRef &&
        (!job.SkipReport && !((anyShardRunsAgainstBranch baseRef jobs []).contains job.Context)))
      = skipPlaceholders baseRef jobs := by
  unfold skipPlaceholders
  apply List.filter_congr
  intro job _
  have h : (anyShardRunsAgainstBranch baseRef jobs []).contains job.Context =
      jobs.any (fun other => other.RunsAgainstBranch baseRef && other.Context == job.Context) := by
    rw [Bool.eq_iff_iff]
    simp [mem_anyShardRunsAgainstBranch]
  rw [h]
  simp [Bool.and_assoc]

/-- C18. Skip-placeholder rule: in a decision that reaches the loops, `CreateStatus` is called
for candidate-list entries that do not run against the base branch, have `SkipReport` false
and share their context with no candidate that runs against the base branch, in order, and
for all of them when every `CreateStatus` call succeeds; every such status is created on the
head commit of the pull request with state "success" and description "Skipped", and no
context that gets one is the context of a submitted job. -/
theorem skip_placeholder_rule (c : Client) (trustedOrg : String) (ic : IssueCommentEvent) :
    ∀ pr ref requestedJobs calls,
      gatherJobs c trustedOrg ic = .dispatch pr ref requestedJobs calls →
      ((∀ n org repo sha status, c.CreateStatus n org repo sha status = none) →
        createdStatuses (handleIC c trustedOrg ic).2 =
          (skipPlaceholders pr.Base.Ref requestedJobs).map
            (fun job => (ic.Repo.Owner.Login, ic.Repo.Name, pr.Head.SHA, skippedStatus job))) ∧
      createdStatuses (handleIC c trustedOrg ic).2 <+:
          (skipPlaceholders pr.Base.Ref requestedJobs).map
            (fun job => (ic.Repo.Owner.Login, ic.Repo.Name, pr.Head.SHA, skippedStatus job)) ∧
      (∀ s ∈ createdStatuses (handleIC c trustedOrg ic).2,
        s.1 = ic.Repo.Owner.Login ∧ s.2.1 = ic.Repo.Name ∧ s.2.2.1 = pr.Head.SHA ∧
        s.2.2.2.State = "success" ∧ s.2.2.2.Description = "Skipped" ∧
        s.2.2.2.Context ∉ submittedContexts (handleIC c trustedOrg ic).2) := by
  intro pr ref requestedJobs calls hg
  have hq := quiet_of_dispatch c trustedOrg ic pr ref requestedJobs calls hg
  have hst : createdStatuses (handleIC c trustedOrg ic).2 =
      createdStatuses (startJobs c ic pr ref
        (anyShardRunsAgainstBranch pr.Base.Ref requestedJobs []) requestedJobs []
        calls.length).2 := by
    rw [handleIC_of_dispatch c trustedOrg ic pr ref requestedJobs calls hg,
      createdStatuses_append, createdStatuses_eq_nil _ hq.1, List.nil_append]
  have hsub : submitted (handleIC c trustedOrg ic).2 =
      submitted (startJobs c ic pr ref
        (anyShardRunsAgainstBranch pr.Base.Ref requestedJobs []) requestedJobs []
        calls.length).2 := by
    rw [handleIC_of_dispatch c trustedOrg ic pr ref requestedJobs calls hg, submitted_append,
      submitted_eq_nil _ hq.2, List.nil_append]
  have hmain := createdStatuses_startJobs c ic pr ref
    (anyShardRunsAgainstBranch pr.Base.Ref requestedJobs []) requestedJobs [] calls.length
  rw [skipPlaceholders_eq, ← hst] at hmain
  refine ⟨hmain.2, hmain.1, ?_⟩
  intro s hs
  have hmem := hmain.1.subset hs
  simp only [List.mem_map] at hmem
  obtain ⟨job, hjob, rfl⟩ := hmem
  refine ⟨rfl, rfl, rfl, rfl, rfl, ?_⟩
  intro hctx
  simp only [submittedContexts, hsub, List.mem_map] at hctx
  obtain ⟨pj, hpj, hpjc⟩ := hctx
  have hp := (submitted_startJobs_sublist c ic pr ref
    (anyShardRunsAgainstBranch pr.Base.Ref requestedJobs []) requestedJobs []
    calls.length).subset hpj
  simp only [List.mem_map, List.mem_filter] at hp
  obtain ⟨other, ⟨hother, hruns⟩, rfl⟩ := hp
  simp only [skipPlaceholders, List.mem_filter, Bool.and_eq_true, Bool.not_eq_true',
    List.any_eq_false, beq_iff_eq, not_and] at hjob
  have := hjob.2.2 other hother hruns
  exact this (by simpa [newProwJob, skippedStatus] using hpjc)

/-- Witness of C18: Scenario D, where both shards get a placeholder. -/
theorem skip_placeholder_rule_witness :
    createdStatuses scenarioD.2 =
      [("kubernetes", "test-infra", "h0",
          { State := "success", Context := "e2e", Description := "Skipped" }),
        ("kubernetes", "test-infra", "h0",
          { State := "success", Context := "e2e", Description := "Skipped" })] :=
  ((skip_placeholder_rule
      (sampleClient true false [shard "e2e" "e2e" "master", shard "e2e" "e2e" "release-1.1"] [])
      "kubernetes" (sampleEvent "/test e2e" false) _ _ _ _ rfl).1 (fun _ _ _ _ _ => rfl))

theorem mapGet_mapSet_self (m : List (String × String)) (k v : String) :
    mapGet (mapSet m k v) k = some v := by
  have h : (m.filter (fun e => e.1 != k)).find? (fun e => e.1 == k) = none := by
    rw [List.find?_eq_none]
    intro e he
    simp only [List.mem_filter, bne_iff_ne, ne_eq] at he
    simpa using he.2
  simp [mapGet, mapSet, List.find?_append, h]

theorem find?_filter_of_imp {α : Type} (p q : α → Bool) (l : List α)
    (h : ∀ a, p a = true → q a = true) : (l.filter q).find? p = l.find? p := by
  induction l with
  | nil => rfl
  | cons a as ih =>
    by_cases hq : q a = true
    · by_cases hp : p a = true
      · simp [List.filter_cons, hq, List.find?_cons, hp]
      · simp [List.filter_cons, hq, List.find?_cons, hp, ih]
    · have hp : ¬ p a = true := fun hp => hq (h a hp)
      simp [List.filter_cons, hq, List.find?_cons, hp, ih]

theorem mapGet_mapSet_other (m : List (String × String)) (k v x : String) (hx : x ≠ k) :
    mapGet (mapSet m k v) x = mapGet m x := by
  have h1 : (m.filter (fun e => e.1 != k)).find? (fun e => e.1 == x) =
      m.find? (fun e => e.1 == x) := by
    apply find?_filter_of_imp
    intro a ha
    have : a.1 = x := by simpa using ha
    simp [this, hx]
  have h2 : ([(k, v)] : List (String × String)).find? (fun e => e.1 == x) = none := by
    simp [List.find?_cons, Ne.symm hx]
  simp only [mapGet, mapSet, List.find?_append, h1, h2]
  cases m.find? (fun e => e.1 == x) <;> rfl

theorem mapGet_eq_none_of_not_mem (m : List (String × String)) (x : String)
    (h : x ∉ m.map Prod.fst) : mapGet m x = none := by
  have : m.find? (fun e => e.1 == x) = none := by
    rw [List.find?_eq_none]
    intro e he hx
    exact h (List.mem_map.2 ⟨e, he, by simpa using hx⟩)
  simp [mapGet, this]

theorem mapGet_copy (entries acc : List (String × String)) (x : String)
    (h : (entries.map Prod.fst).Nodup) :
    mapGet (entries.foldl (fun labels e => mapSet labels e.1 e.2) acc) x =
      match mapGet entries x with
      | some v => some v
      | none => mapGet acc x := by
  induction entries generalizing acc with
  | nil => simp [mapGet]
  | cons e rest ih =>
    simp only [List.map_cons, List.nodup_cons] at h
    rw [List.foldl_cons, ih _ h.2]
    by_cases hk : e.1 = x
    · subst hk
      have h1 : mapGet rest e.1 = none := mapGet_eq_none_of_not_mem _ _ h.1
      have h2 : mapGet (e :: rest) e.1 = some e.2 := by simp [mapGet, List.find?_cons]
      rw [h1, h2, mapGet_mapSet_self]
    · have h2 : mapGet (e :: rest) x = mapGet rest x := by
        simp [mapGet, List.find?_cons, hk]
      rw [h2, mapGet_mapSet_other _ _ _ _ (Ne.symm hk)]

theorem jobLabels_spec (c : Client) (ic : IssueCommentEvent) (job : Presubmit) :
    mapGet (jobLabels c ic job) c.EventGUID = some ic.GUID ∧
    ∀ k, k ≠ c.EventGUID → (job.Labels.map Prod.fst).Nodup →
      mapGet (jobLabels c ic job) k = mapGet job.Labels k := by
  constructor
  · exact mapGet_mapSet_self _ _ _
  · intro k hk hnd
    unfold jobLabels
    rw [mapGet_mapSet_other _ _ _ _ hk, mapGet_copy _ _ _ hnd]
    cases mapGet job.Labels k <;> simp [mapGet]

theorem fetched_of_dispatch (c : Client) (trustedOrg : String) (ic : IssueCommentEvent) :
    ∀ pr ref requestedJobs calls,
      gatherJobs c trustedOrg ic = .dispatch pr ref requestedJobs calls →
      Event.GetPullRequest ic.Repo.Owner.Login ic.Repo.Name ic.Issue.Number (.ok pr) ∈ calls ∧
      Event.GetRef ic.Repo.Owner.Login ic.Repo.Name ("heads/" ++ pr.Base.Ref) (.ok ref)
        ∈ calls := by
  obtain ⟨M, hM⟩ : ∃ M : Gathered → Prop, ∀ g, M g ↔
      (∀ pr ref requestedJobs calls, g = .dispatch pr ref requestedJobs calls →
        Event.GetPullRequest ic.Repo.Owner.Login ic.Repo.Name ic.Issue.Number (.ok pr) ∈ calls ∧
        Event.GetRef ic.Repo.Owner.Login ic.Repo.Name ("heads/" ++ pr.Base.Ref) (.ok ref)
          ∈ calls) := ⟨_, fun _ => Iff.rfl⟩
  refine (hM (gatherJobs c trustedOrg ic)).1 ?_
  repeat' first
    | apply gatherJobs_cases
    | apply noCandidateJobs_cases
    | apply fetchPullRequest_cases
    | apply trustGate_cases
    | apply resolveBase_cases
    | intro _
  all_goals rw [hM]
  all_goals
    intro pr ref requestedJobs calls h
    cases h <;> simp

/-- C19. Job record construction: every job submitted is built from a candidate-list entry
that runs against the base branch; its refs carry the organisation and name of the event's
repository, the base branch of the fetched pull request, the commit returned by `GetRef` for
`heads/` followed by that branch, and one pull entry (issue number, login of the author of
the pull request, head commit); its labels are the labels of the job with the key
`github.EventGUID` set to the GUID of the event, and the job keeps its own labels. -/
theorem job_record (c : Client) (trustedOrg : String) (ic : IssueCommentEvent) :
    ∀ pr ref requestedJobs calls,
      gatherJobs c trustedOrg ic = .dispatch pr ref requestedJobs calls →
      Event.GetPullRequest ic.Repo.Owner.Login ic.Repo.Name ic.Issue.Number (.ok pr) ∈ calls ∧
      Event.GetRef ic.Repo.Owner.Login ic.Repo.Name ("heads/" ++ pr.Base.Ref) (.ok ref)
        ∈ calls ∧
      ∀ pj ∈ submitted (handleIC c trustedOrg ic).2,
        (∃ job ∈ requestedJobs, job.RunsAgainstBranch pr.Base.Ref = true ∧ pj.job = job) ∧
        pj.refs =
          { Org := ic.Repo.Owner.Login, Repo := ic.Repo.Name, BaseRef := pr.Base.Ref,
            BaseSHA := ref,
            Pulls := [{ Number := ic.Issue.Number, Author := pr.User.Login,
                        SHA := pr.Head.SHA }] } ∧
        mapGet pj.labels c.EventGUID = some ic.GUID ∧
        ∀ k, k ≠ c.EventGUID → (pj.job.Labels.map Prod.fst).Nodup →
          mapGet pj.labels k = mapGet pj.job.Labels k := by
  intro pr ref requestedJobs calls hg
  have hf := fetched_of_dispatch c trustedOrg ic pr ref requestedJobs calls hg
  refine ⟨hf.1, hf.2, ?_⟩
  intro pj hpj
  rw [handleIC_of_dispatch c trustedOrg ic pr ref requestedJobs calls hg, submitted_append,
    submitted_eq_nil _ (quiet_of_dispatch c trustedOrg ic pr ref requestedJobs calls hg).2,
    List.nil_append] at hpj
  have hp := (submitted_startJobs_sublist c ic pr ref
    (anyShardRunsAgainstBranch pr.Base.Ref requestedJobs []) requestedJobs []
    calls.length).subset hpj
  simp only [List.mem_map, List.mem_filter] at hp
  obtain ⟨job, ⟨hjob, hruns⟩, rfl⟩ := hp
  exact ⟨⟨job, hjob, hruns, rfl⟩, rfl, (jobLabels_spec c ic job).1, (jobLabels_spec c ic job).2⟩

/-- Witness of C19: the record of a job that carries a label under the key of the GUID. -/
theorem job_record_witness :
    ∃ pj ∈ submitted
      (handleIC
        (sampleClient true false
          [{ shard "unit" "unit" "release-1.2" with
              Labels := [("event-GUID", "stale"), ("team", "infra")] }] [])
        "kubernetes" (sampleEvent "/test unit" false)).2,
      pj.refs =
        { Org := "kubernetes", Repo := "test-infra", BaseRef := "release-1.2", BaseSHA := "b0",
          Pulls := [{ Number := 7, Author := "bob", SHA := "h0" }] } ∧
      mapGet pj.labels "event-GUID" = some "guid-1" ∧
      mapGet pj.labels "team" = mapGet pj.job.Labels "team" :=
  have h := (job_record
    (sampleClient true false
      [{ shard "unit" "unit" "release-1.2" with
          Labels := [("event-GUID", "stale"), ("team", "infra")] }] [])
    "kubernetes" (sampleEvent "/test unit" false) _ _ _ _ rfl).2.2 _ (List.mem_cons_self _ _)
  ⟨_, List.mem_cons_self _ _, h.2.1, h.2.2.1, h.2.2.2 "team" (by decide) (by decide)⟩

/-! ## The value returned after the loops -/

theorem dispatchJobs_fst (c : Client) (trustedOrg : String) (ic : IssueCommentEvent)
    (pr : PullRequest) (ref : String) (requestedJobs : List Presubmit) (calls : List Event)
    (hg : gatherJobs c trustedOrg ic = .dispatch pr ref requestedJobs calls) :
    (handleIC c trustedOrg ic).1 =
      (startJobs c ic pr ref (anyShardRunsAgainstBranch pr.Base.Ref requestedJobs [])
        requestedJobs [] calls.length).1 := by
  simp [handleIC, hg, dispatchJobs]

theorem startJobs_result (c : Client) (ic : IssueCommentEvent) (pr : PullRequest)
    (ref : String) (anyShard : List String) (jobs : List Presubmit) (errors : List Error)
    (now : Nat) :
    (List.countP Event.statusFailed (startJobs c ic pr ref anyShard jobs errors now).2 = 0 →
      (startJobs c ic pr ref anyShard jobs errors now).1 =
        if errors ++ submitErrors (startJobs c ic pr ref anyShard jobs errors now).2 = [] then none
        else some (startErrors
          (errors ++ submitErrors (startJobs c ic pr ref anyShard jobs errors now).2))) ∧
    (∀ org repo sha status err,
      Event.CreateStatus org repo sha status (some err) ∈
          (startJobs c ic pr ref anyShard jobs errors now).2 →
        (startJobs c ic pr ref anyShard jobs errors now).1 = some err) := by
  induction jobs generalizing errors now with
  | nil =>
    constructor
    · intro _
      cases errors with
      | nil => simp [startJobs, submitErrors]
      | cons e es => simp [startJobs, submitErrors]
    · intro org repo sha status err h
      simp [startJobs] at h
  | cons job rest ih =>
    cases hr : job.RunsAgainstBranch pr.Base.Ref with
    | true =>
      cases h1 : c.CreateProwJob now (newProwJob c ic pr ref job) with
      | none =>
        rw [startJobs_run_ok c ic pr ref anyShard job rest errors now hr h1]
        constructor
        · intro h
          simp only [List.countP_cons, Event.statusFailed, Bool.false_eq_true, if_false,
            Nat.add_zero] at h
          simp only [submitErrors, List.filterMap_cons, Event.submitError?]
          exact (ih errors (now + 1)).1 h
        · intro org repo sha status err h
          simp only [List.mem_cons, reduceCtorEq, false_or] at h
          exact (ih errors (now + 1)).2 org repo sha status err h
      | some e =>
        rw [startJobs_run_err c ic pr ref anyShard job rest errors now e hr h1]
        constructor
        · intro h
          simp only [List.countP_cons, Event.statusFailed, Bool.false_eq_true, if_false,
            Nat.add_zero] at h
          have := (ih (errors ++ [e]) (now + 1)).1 h
          simp only [submitErrors, List.filterMap_cons, Event.submitError?]
          simpa [submitErrors, List.append_assoc] using this
        · intro org repo sha status err h
          simp only [List.mem_cons, reduceCtorEq, false_or] at h
          exact (ih (errors ++ [e]) (now + 1)).2 org repo sha status err h
    | false =>
      cases hs : (!job.SkipReport && !(anyShard.contains job.Context)) with
      | false =>
        rw [startJobs_silent c ic pr ref anyShard job rest errors now hr hs]
        exact ih errors now
      | true =>
        cases h1 : c.CreateStatus now ic.Repo.Owner.Login ic.Repo.Name pr.Head.SHA
            (skippedStatus job) with
        | none =>
          rw [startJobs_skip_ok c ic pr ref anyShard job rest errors now hr hs h1]
          constructor
          · intro h
            simp only [List.countP_cons, Event.statusFailed, Bool.false_eq_true, if_false,
              Nat.add_zero] at h
            simp only [submitErrors, List.filterMap_cons, Event.submitError?]
            exact (ih errors (now + 1)).1 h
          · intro org repo sha status err h
            simp only [List.mem_cons, Event.CreateStatus.injEq, reduceCtorEq, and_false,
              false_or] at h
            exact (ih errors (now + 1)).2 org repo sha status err h
        | some e =>
          rw [startJobs_skip_err c ic pr ref anyShard job rest errors now e hr hs h1]
          constructor
          · intro h
            simp [Event.statusFailed] at h
          · intro org repo sha status err h
            simp only [List.mem_singleton, Event.CreateStatus.injEq, Option.some.injEq] at h
            rw [h.2.2.2.2]

theorem submitErrors_eq_nil (l : List Event) (h : List.countP Event.isCreateProwJob l = 0) :
    submitErrors l = [] := by
  apply filterMap_eq_nil_of_countP
  rw [List.countP_eq_zero] at h ⊢
  intro e he
  have := h e he
  cases e <;> simp_all [Event.submitError?, Event.isCreateProwJob]

theorem countP_statusFailed_eq_zero (l : List Event)
    (h : List.countP Event.isCreateStatus l = 0) : List.countP Event.statusFailed l = 0 := by
  rw [List.countP_eq_zero] at h ⊢
  intro e he
  have := h e he
  cases e <;> simp_all [Event.statusFailed, Event.isCreateStatus]

/-- C11, as stated, fails: the submission of `unit` failed, and `handleIC` returns the error
of the status write that failed next, not the combined error. -/
theorem status_error_hides_submit_errors :
    submitErrors submitThenStatusFails.2 = ["backend down"] ∧
    submitThenStatusFails.1 = some "status down" ∧
    submitThenStatusFails.1 ≠ some (startErrors ["backend down"]) := by
  decide

theorem startJobs_failure_last (c : Client) (ic : IssueCommentEvent) (pr : PullRequest)
    (ref : String) (anyShard : List String) (jobs : List Presubmit) (errors : List Error)
    (now : Nat) (pre : List Event) (e : Event) (post : List Event)
    (h : (startJobs c ic pr ref anyShard jobs errors now).2 = pre ++ e :: post)
    (he : e.statusFailed = true) : post = [] := by
  induction jobs generalizing errors now pre with
  | nil => simp [startJobs] at h
  | cons job rest ih =>
    have step : ∀ (x : Event) (l : List Event), x :: l = pre ++ e :: post →
        x.statusFailed = false → ∃ pre2, l = pre2 ++ e :: post := by
      intro x l hl hx
      cases pre with
      | nil =>
        simp only [List.nil_append, List.cons.injEq] at hl
        rw [hl.1, he] at hx
        cases hx
      | cons y ys =>
        simp only [List.cons_append, List.cons.injEq] at hl
        exact ⟨ys, hl.2⟩
    cases hr : job.RunsAgainstBranch pr.Base.Ref with
    | true =>
      cases h1 : c.CreateProwJob now (newProwJob c ic pr ref job) with
      | none =>
        rw [startJobs_run_ok c ic pr ref anyShard job rest errors now hr h1] at h
        obtain ⟨pre2, h2⟩ := step _ _ h rfl
        exact ih _ _ _ h2
      | some e1 =>
        rw [startJobs_run_err c ic pr ref anyShard job rest errors now e1 hr h1] at h
        obtain ⟨pre2, h2⟩ := step _ _ h rfl
        exact ih _ _ _ h2
    | false =>
      cases hs : (!job.SkipReport && !(anyShard.contains job.Context)) with
      | false =>
        rw [startJobs_silent c ic pr ref anyShard job rest errors now hr hs] at h
        exact ih _ _ _ h
      | true =>
        cases h1 : c.CreateStatus now ic.Repo.Owner.Login ic.Repo.Name pr.Head.SHA
            (skippedStatus job) with
        | none =>
          rw [startJobs_skip_ok c ic pr ref anyShard job rest errors now hr hs h1] at h
          obtain ⟨pre2, h2⟩ := step _ _ h rfl
          exact ih _ _ _ h2
        | some e1 =>
          rw [startJobs_skip_err c ic pr ref anyShard job rest errors now e1 hr hs h1] at h
          cases pre with
          | nil =>
            simp only [List.nil_append, List.cons.injEq] at h
            exact h.2.symm
          | cons y ys =>
            simp only [List.cons_append, List.cons.injEq] at h
            have := congrArg List.length h.2
            simp at this
            omega

theorem split_in_suffix (p : Event → Bool) (a b pre : List Event) (e : Event)
    (post : List Event) (ha : List.countP p a = 0) (he : p e = true)
    (h : a ++ b = pre ++ e :: post) : ∃ pre2, pre = a ++ pre2 ∧ b = pre2 ++ e :: post := by
  induction a generalizing pre with
  | nil => exact ⟨pre, rfl, h⟩
  | cons x xs ih =>
    rw [List.countP_cons] at ha
    have h1 : List.countP p xs = 0 := by omega
    have h2 : p x = false := by
      cases hx : p x with
      | false => rfl
      | true => simp [hx] at ha
    cases pre with
    | nil =>
      simp only [List.cons_append, List.nil_append, List.cons.injEq] at h
      rw [h.1, he] at h2
      cases h2
    | cons y ys =>
      simp only [List.cons_append, List.cons.injEq] at h
      obtain ⟨pre2, h3, h4⟩ := ih ys h1 h.2
      exact ⟨pre2, by rw [h.1, h3]; rfl, h4⟩

/-- C11, amended. Error aggregation: in a decision that reaches the loops and in which no
`CreateStatus` call fails, `handleIC` returns the combined error `errors starting jobs: [...]`
of the errors of all failed `CreateProwJob` calls, in submission order, when there is one,
and nil when there is none; when a `CreateStatus` call fails, `handleIC` returns the error
of that call at once: the failed call is the last call of the run. -/
theorem errors_aggregated (c : Client) (trustedOrg : String) (ic : IssueCommentEvent) :
    (∀ pr ref requestedJobs calls,
      gatherJobs c trustedOrg ic = .dispatch pr ref requestedJobs calls →
      (List.countP Event.statusFailed (handleIC c trustedOrg ic).2 = 0 →
        (submitErrors (handleIC c trustedOrg ic).2 ≠ [] →
          (handleIC c trustedOrg ic).1 =
            some ("errors starting jobs: [" ++
              " ".intercalate (submitErrors (handleIC c trustedOrg ic).2) ++ "]")) ∧
        (submitErrors (handleIC c trustedOrg ic).2 = [] → (handleIC c trustedOrg ic).1 = none)) ∧
      (∀ org repo sha status err,
        Event.CreateStatus org repo sha status (some err) ∈ (handleIC c trustedOrg ic).2 →
          (handleIC c trustedOrg ic).1 = some err)) ∧
    (∀ pre org repo sha status err post,
      (handleIC c trustedOrg ic).2 =
        pre ++ Event.CreateStatus org repo sha status (some err) :: post →
      post = [] ∧ (handleIC c trustedOrg ic).1 = some err) := by
  constructor
  · intro pr ref requestedJobs calls hg
    have hq := quiet_of_dispatch c trustedOrg ic pr ref requestedJobs calls hg
    have h1 := dispatchJobs_fst c trustedOrg ic pr ref requestedJobs calls hg
    have h2 := handleIC_of_dispatch c trustedOrg ic pr ref requestedJobs calls hg
    have hmain := startJobs_result c ic pr ref
      (anyShardRunsAgainstBranch pr.Base.Ref requestedJobs []) requestedJobs [] calls.length
    have herr : submitErrors (handleIC c trustedOrg ic).2 =
        submitErrors (startJobs c ic pr ref
          (anyShardRunsAgainstBranch pr.Base.Ref requestedJobs []) requestedJobs []
          calls.length).2 := by
      rw [h2, submitErrors, List.filterMap_append]
      have := submitErrors_eq_nil _ hq.2
      rw [submitErrors] at this
      rw [this, List.nil_append, submitErrors]
    constructor
    · intro hno
      rw [h2, List.countP_append, countP_statusFailed_eq_zero _ hq.1, Nat.zero_add] at hno
      have hres := hmain.1 hno
      rw [List.nil_append, ← herr, ← h1] at hres
      constructor
      · intro hne
        rw [hres, if_neg hne]
        rfl
      · intro he
        rw [hres, if_pos he]
    · intro org repo sha status err hmem
      rw [h2, List.mem_append] at hmem
      rw [h1]
      rcases hmem with h | h
      · have h0 := hq.1
        rw [List.countP_eq_zero] at h0
        exact absurd rfl (h0 _ h)
      · exact hmain.2 org repo sha status err h
  · intro pre org repo sha status err post ht
    cases hg : gatherJobs c trustedOrg ic with
    | returned e0 calls =>
      have hq := quiet_of_returned c trustedOrg ic e0 calls hg
      have h0 := hq.1
      rw [List.countP_eq_zero] at h0
      have hmem : Event.CreateStatus org repo sha status (some err) ∈ calls := by
        have h2 := congrArg Prod.snd (handleIC_of_returned c trustedOrg ic e0 calls hg)
        simp only at h2
        rw [← h2, ht]
        simp
      exact absurd rfl (h0 _ hmem)
    | dispatch pr ref requestedJobs calls =>
      have hq := quiet_of_dispatch c trustedOrg ic pr ref requestedJobs calls hg
      have h1 := dispatchJobs_fst c trustedOrg ic pr ref requestedJobs calls hg
      have h2 := handleIC_of_dispatch c trustedOrg ic pr ref requestedJobs calls hg
      rw [ht] at h2
      obtain ⟨pre2, _, h3⟩ := split_in_suffix Event.isCreateStatus calls _ pre
        (Event.CreateStatus org repo sha status (some err)) post hq.1 rfl h2.symm
      refine ⟨startJobs_failure_last c ic pr ref _ requestedJobs [] calls.length pre2 _ post
        h3 rfl, ?_⟩
      rw [h1]
      exact (startJobs_result c ic pr ref _ requestedJobs [] calls.length).2 org repo sha
        status err (by rw [h3]; simp)

/-- Witness of C11, amended: two submissions fail and no status is written; and in the run in
which a status write fails after a failed submission, that write is the last call. -/
theorem errors_aggregated_witness :
    (handleIC
      { sampleClient true false
          [shard "unit" "unit" "release-1.2", shard "lint" "lint" "release-1.2"] [] with
        CreateProwJob := fun n _ => if n = 5 then some "first" else some "second" }
      "kubernetes" (sampleEvent "/test all" false)).1 =
      some "errors starting jobs: [first second]" ∧
    (submitThenStatusFails.2.drop 7 = [] ∧ submitThenStatusFails.1 = some "status down") :=
  ⟨((((errors_aggregated
      { sampleClient true false
          [shard "unit" "unit" "release-1.2", shard "lint" "lint" "release-1.2"] [] with
        CreateProwJob := fun n _ => if n = 5 then some "first" else some "second" }
      "kubernetes" (sampleEvent "/test all" false)).1 _ _ _ _ rfl).1 (by decide)).1
    (by decide)).trans (by decide),
    (errors_aggregated
      { sampleClient true false
          [shard "unit" "unit" "release-1.2", shard "e2e" "e2e" "master"] [] with
        CreateProwJob := fun _ _ => some "backend down"
        CreateStatus := fun _ _ _ _ _ => some "status down" }
      "kubernetes" (sampleEvent "/test all" false)).2
      (submitThenStatusFails.2.take 6) "kubernetes" "test-infra" "h0"
      (skippedStatus (shard "e2e" "e2e" "master")) "status down"
      (submitThenStatusFails.2.drop 7) rfl⟩

/-! ## The accessor `files` -/

theorem fetchesAfterSuccess_append (a b : List Event)
    (ha : fetchesAfterSuccess a = 0) (hb : fetchesAfterSuccess b = 0)
    (hab : List.countP Event.isGetPullRequestChanges b = 0 ∨
      List.countP Event.changesFetched a = 0) :
    fetchesAfterSuccess (a ++ b) = 0 := by
  induction a with
  | nil => simpa using hb
  | cons e es ih =>
    by_cases he : e.changesFetched = true
    · simp only [fetchesAfterSuccess, he, if_true] at ha
      have hb0 : List.countP Event.isGetPullRequestChanges b = 0 := by
        rcases hab with h | h
        · exact h
        · simp [List.countP_cons, he] at h
      simp [fetchesAfterSuccess, he, List.countP_append, ha, hb0]
    · simp only [fetchesAfterSuccess, he, Bool.false_eq_true, if_false] at ha
      have hab2 : List.countP Event.isGetPullRequestChanges b = 0 ∨
          List.countP Event.changesFetched es = 0 := by
        rcases hab with h | h
        · exact Or.inl h
        · simp only [List.countP_cons, he, Bool.false_eq_true, if_false, Nat.add_zero] at h
          exact Or.inr h
      simp only [List.cons_append, fetchesAfterSuccess, he, Bool.false_eq_true, if_false]
      exact ih ha hab2

theorem fetchesAfterSuccess_of_quiet (a : List Event)
    (h : List.countP Event.isGetPullRequestChanges a = 0) : fetchesAfterSuccess a = 0 := by
  induction a with
  | nil => rfl
  | cons e es ih =>
    rw [List.countP_cons] at h
    have h1 : List.countP Event.isGetPullRequestChanges es = 0 := by omega
    by_cases he : e.changesFetched = true
    · simp [fetchesAfterSuccess, he, h1]
    · simp only [fetchesAfterSuccess, he, Bool.false_eq_true, if_false]
      exact ih h1

theorem quiet_after_success (l : List Event) (h : fetchesAfterSuccess l = 0)
    (pre : List Event) (e : Event) (post : List Event) (hl : l = pre ++ e :: post)
    (he : e.changesFetched = true) : List.countP Event.isGetPullRequestChanges post = 0 := by
  subst hl
  induction pre with
  | nil => simpa [fetchesAfterSuccess, he] using h
  | cons x xs ih =>
    by_cases hx : x.changesFetched = true
    · rw [List.cons_append, fetchesAfterSuccess] at h
      simp only [hx, if_true] at h
      rw [List.countP_append, List.countP_cons] at h
      omega
    · rw [List.cons_append, fetchesAfterSuccess] at h
      simp only [hx, Bool.false_eq_true, if_false] at h
      exact ih h

theorem changesFetched_le (l : List Event) :
    List.countP Event.changesFetched l ≤ List.countP Event.isGetPullRequestChanges l := by
  induction l with
  | nil => simp
  | cons e es ih =>
    simp only [List.countP_cons]
    cases e <;> simp [Event.changesFetched, Event.isGetPullRequestChanges] <;>
      first | omega | (split <;> omega)

theorem changesFetched_le_one (l : List Event) (h : fetchesAfterSuccess l = 0) :
    List.countP Event.changesFetched l ≤ 1 := by
  induction l with
  | nil => simp
  | cons e es ih =>
    by_cases he : e.changesFetched = true
    · simp only [fetchesAfterSuccess, he, if_true] at h
      have := changesFetched_le es
      simp only [List.countP_cons, he, if_true]
      omega
    · simp only [fetchesAfterSuccess, he, Bool.false_eq_true, if_false] at h
      simp only [List.countP_cons, he, Bool.false_eq_true, if_false, Nat.add_zero]
      exact ih h

theorem runWithFiles_memo {α : Type} (c : Client) (org repo : String) (number : Int)
    (w : WithFiles α) (cf : Option (List String)) (now : Nat) :
    (∀ l, cf = some l → (runWithFiles c org repo number w cf now).2.2 = [] ∧
      (runWithFiles c org repo number w cf now).2.1 = some l) ∧
    fetchesAfterSuccess (runWithFiles c org repo number w cf now).2.2 = 0 ∧
    (List.countP Event.changesFetched (runWithFiles c org repo number w cf now).2.2 ≠ 0 →
      ((runWithFiles c org repo number w cf now).2.1).isSome = true) := by
  induction w generalizing cf now with
  | ret a => simp [runWithFiles, fetchesAfterSuccess]
  | callFiles k ih =>
    cases cf with
    | some l =>
      have hf : files c org repo number (some l) now = (.ok l, some l, []) := rfl
      have h := ih (.ok l) (some l) now
      have h1 := h.1 l rfl
      simp only [runWithFiles, hf, List.length_nil, Nat.add_zero, List.nil_append]
      refine ⟨?_, ?_, ?_⟩
      · intro l2 hl2
        cases hl2
        exact h1
      · rw [h1.1]; rfl
      · rw [h1.1]; simp
    | none =>
      cases hc : c.GetPullRequestChanges now org repo number with
      | error err =>
        have hf : files c org repo number none now =
            (.error err, none, [Event.GetPullRequestChanges org repo number (.error err)]) := by
          simp [files, hc]
        have h := ih (.error err) none (now + 1)
        simp only [runWithFiles, hf, List.length_singleton, List.singleton_append]
        refine ⟨?_, ?_, ?_⟩
        · intro l hl
          cases hl
        · simp only [fetchesAfterSuccess, Event.changesFetched, Bool.false_eq_true, if_false]
          exact h.2.1
        · intro hcount
          apply h.2.2
          simpa [List.countP_cons, Event.changesFetched] using hcount
      | ok changes =>
        have hf : files c org repo number none now =
            (.ok (changes.map (·.Filename)), some (changes.map (·.Filename)),
              [Event.GetPullRequestChanges org repo number (.ok changes)]) := by
          simp [files, hc]
        have h := ih (.ok (changes.map (·.Filename))) (some (changes.map (·.Filename))) (now + 1)
        have h1 := h.1 _ rfl
        simp only [runWithFiles, hf, List.length_singleton, List.singleton_append]
        refine ⟨?_, ?_, ?_⟩
        · intro l hl
          cases hl
        · rw [h1.1]
          simp [fetchesAfterSuccess, Event.changesFetched]
        · intro _
          rw [h1.2]
          rfl

theorem retestSelection_memo (c : Client) (ic : IssueCommentEvent) (pr : PullRequest)
    (cf : Option (List String)) (b : Bool) (now : Nat) :
    fetchesAfterSuccess (retestSelection c ic pr cf b now).2 = 0 ∧
    (cf.isSome = true →
      List.countP Event.isGetPullRequestChanges (retestSelection c ic pr cf b now).2 = 0) := by
  unfold retestSelection
  split
  · unfold retestBlock
    dsimp only
    split
    · simp [fetchesAfterSuccess, Event.changesFetched, Event.isGetPullRequestChanges]
    · rename_i combinedStatus _
      have h := runWithFiles_memo c ic.Repo.Owner.Login ic.Repo.Name ic.Issue.Number
        (c.RetestPresubmits (now + 1) ic.Repo.FullName
          (classifyStatuses combinedStatus.Statuses ([], [])).1
          (classifyStatuses combinedStatus.Statuses ([], [])).2) cf (now + 1)
      constructor
      · apply fetchesAfterSuccess_append
        · apply fetchesAfterSuccess_append
          · rfl
          · exact h.2.1
          · right; rfl
        · rfl
        · left; rfl
      · intro hcf
        obtain ⟨l, hl⟩ := Option.isSome_iff_exists.1 hcf
        have h1 := (h.1 l hl).1
        simp [List.countP_append, h1, Event.isGetPullRequestChanges]
  · simp [fetchesAfterSuccess]

theorem matching_link (c : Client) (ic : IssueCommentEvent) (pr : PullRequest) (b : Bool)
    (now : Nat) :
    List.countP Event.isGetPullRequestChanges
        (retestSelection c ic pr (matchingPresubmits c ic).2.1 b now).2 = 0 ∨
      List.countP Event.changesFetched (matchingPresubmits c ic).2.2 = 0 := by
  by_cases h : List.countP Event.changesFetched (matchingPresubmits c ic).2.2 = 0
  · exact Or.inr h
  · left
    apply (retestSelection_memo c ic pr _ b now).2
    exact (runWithFiles_memo c _ _ _ _ none 1).2.2 h

set_option maxHeartbeats 1600000 in
theorem fetchesAfterSuccess_handleIC (c : Client) (trustedOrg : String)
    (ic : IssueCommentEvent) : fetchesAfterSuccess (handleIC c trustedOrg ic).2 = 0 := by
  obtain ⟨M, hM⟩ : ∃ M : Gathered → Prop, ∀ g, M g ↔
      fetchesAfterSuccess (dispatchJobs c ic g).2 = 0 := ⟨_, fun _ => Iff.rfl⟩
  refine (hM (gatherJobs c trustedOrg ic)).1 ?_
  repeat' first
    | apply gatherJobs_cases
    | apply noCandidateJobs_cases
    | apply fetchPullRequest_cases
    | apply trustGate_cases
    | apply resolveBase_cases
    | intro _
  all_goals rw [hM]
  all_goals simp only [dispatchJobs, callsAfterMatching]
  all_goals
    repeat' first
      | exact (runWithFiles_memo c _ _ _ _ none 1).2.1
      | exact (retestSelection_memo _ _ _ _ _ _).1
      | apply fetchesAfterSuccess_append
      | (apply fetchesAfterSuccess_of_quiet
         simp [countP_startJobs, countP_cleanupCalls, Event.isGetPullRequestChanges]
         done)
      | (left
         simp [countP_startJobs, countP_cleanupCalls, Event.isGetPullRequestChanges]
         done)
      | (simp only [List.countP_append, List.countP_cons, List.countP_nil,
           Event.changesFetched, Bool.false_eq_true, if_false, Nat.add_zero, Nat.zero_add]
         exact matching_link _ _ _ _ _)

theorem fetchedFiles_append (a b : List Event) :
    fetchedFiles (a ++ b) =
      match fetchedFiles a with
      | some l => some l
      | none => fetchedFiles b := by
  induction a with
  | nil => simp [fetchedFiles]
  | cons e es ih =>
    cases e with
    | GetPullRequestChanges o r n x =>
      cases x with
      | ok changes => simp [fetchedFiles]
      | error err => simpa [fetchedFiles] using ih
    | _ => simpa [fetchedFiles] using ih

theorem fetchedFiles_of_quiet (l : List Event)
    (h : List.countP Event.isGetPullRequestChanges l = 0) : fetchedFiles l = none := by
  induction l with
  | nil => rfl
  | cons e es ih =>
    rw [List.countP_cons] at h
    have h1 : List.countP Event.isGetPullRequestChanges es = 0 := by omega
    cases e <;> simp_all [fetchedFiles, Event.isGetPullRequestChanges]

theorem split_unique (p : Event → Bool) (a c f d : List Event) (e e2 : Event)
    (ha : List.countP p a = 0) (hc : List.countP p c = 0)
    (he2 : p e2 = true) (h : a ++ e :: c = f ++ e2 :: d) : f = a ∧ e2 = e ∧ d = c := by
  induction a generalizing f with
  | nil =>
    cases f with
    | nil =>
      simp only [List.nil_append, List.cons.injEq] at h
      exact ⟨rfl, h.1.symm, h.2.symm⟩
    | cons x xs =>
      simp only [List.nil_append, List.cons_append, List.cons.injEq] at h
      rw [List.countP_eq_zero] at hc
      have : e2 ∈ c := by rw [h.2]; simp
      exact absurd he2 (hc e2 this)
  | cons y ys ih =>
    rw [List.countP_cons] at ha
    have h1 : List.countP p ys = 0 := by omega
    have h2 : p y = false := by
      cases hy : p y with
      | false => rfl
      | true => simp [hy] at ha
    cases f with
    | nil =>
      simp only [List.nil_append, List.cons_append, List.cons.injEq] at h
      rw [h.1, he2] at h2
      cases h2
    | cons x xs =>
      simp only [List.cons_append, List.cons.injEq] at h
      obtain ⟨h3, h4, h5⟩ := ih xs h1 h.2
      exact ⟨by rw [h.1, h3], h4, h5⟩

theorem countP_eq_zero_of_imp (p q : Event → Bool) (l : List Event)
    (hpq : ∀ e, q e = true → p e = true) (h : List.countP p l = 0) : List.countP q l = 0 := by
  rw [List.countP_eq_zero] at h ⊢
  intro e he hq
  exact h e he (hpq e hq)

theorem runWithFiles_answers {α : Type} (c : Client) (org repo : String) (number : Int)
    (w : WithFiles α) (cf : Option (List String)) (now : Nat) :
    (∀ l, cf = some l →
      (runWithFiles c org repo number w cf now).1 = w.withAnswers [] (.ok l) ∧
      (runWithFiles c org repo number w cf now).2.2 = [] ∧
      (runWithFiles c org repo number w cf now).2.1 = some l) ∧
    (cf = none →
      (∀ v, (∀ l, fetchedFiles (runWithFiles c org repo number w cf now).2.2 = some l →
          v = .ok l) →
        (runWithFiles c org repo number w cf now).1 =
          w.withAnswers (failedFetches (runWithFiles c org repo number w cf now).2.2) v) ∧
      (runWithFiles c org repo number w cf now).2.1 =
        fetchedFiles (runWithFiles c org repo number w cf now).2.2) := by
  induction w generalizing cf now with
  | ret a =>
    refine ⟨fun l hl => ⟨rfl, rfl, hl⟩, fun hn => ⟨fun v _ => rfl, ?_⟩⟩
    simp [runWithFiles, fetchedFiles, hn]
  | callFiles k ih =>
    cases cf with
    | some l =>
      have hf : files c org repo number (some l) now = (.ok l, some l, []) := rfl
      have h := (ih (.ok l) (some l) now).1 l rfl
      refine ⟨?_, fun hn => by cases hn⟩
      intro l2 hl2
      cases hl2
      simp only [runWithFiles, hf, List.length_nil, Nat.add_zero, List.nil_append]
      exact ⟨by rw [h.1]; rfl, h.2.1, h.2.2⟩
    | none =>
      refine ⟨fun l hl => (by cases hl), fun _ => ?_⟩
      cases hc : c.GetPullRequestChanges now org repo number with
      | error err =>
        have hf : files c org repo number none now =
            (.error err, none, [Event.GetPullRequestChanges org repo number (.error err)]) := by
          simp [files, hc]
        have h := (ih (.error err) none (now + 1)).2 rfl
        simp only [runWithFiles, hf, List.length_singleton, List.singleton_append,
          fetchedFiles, failedFetches]
        refine ⟨fun v hv => ?_, h.2⟩
        rw [h.1 v hv]
        rfl
      | ok changes =>
        have hf : files c org repo number none now =
            (.ok (changes.map (·.Filename)), some (changes.map (·.Filename)),
              [Event.GetPullRequestChanges org repo number (.ok changes)]) := by
          simp [files, hc]
        have h := (ih (.ok (changes.map (·.Filename))) (some (changes.map (·.Filename)))
          (now + 1)).1 _ rfl
        simp only [runWithFiles, hf, List.length_singleton, List.singleton_append, h.2.1,
          fetchedFiles, failedFetches]
        refine ⟨fun v hv => ?_, h.2.2⟩
        rw [hv _ rfl, h.1]
        rfl

theorem noCandidateJobs_extends (c : Client) (trustedOrg : String) (ic : IssueCommentEvent)
    (testAll : Bool) (calls : List Event) :
    ∃ tail, (dispatchJobs c ic (noCandidateJobs c trustedOrg ic testAll calls)).2 =
        calls ++ tail ∧ List.countP Event.isSelection tail = 0 := by
  obtain ⟨M, hM⟩ : ∃ M : Gathered → Prop, ∀ g, M g ↔
      (∃ tail, (dispatchJobs c ic g).2 = calls ++ tail ∧
        List.countP Event.isSelection tail = 0) := ⟨_, fun _ => Iff.rfl⟩
  refine (hM _).1 ?_
  repeat' first
    | apply noCandidateJobs_cases
    | intro _
  all_goals rw [hM]
  all_goals simp only [dispatchJobs, List.append_assoc]
  · exact ⟨[], by simp, rfl⟩
  all_goals exact ⟨_, rfl, by simp [Event.isSelection]⟩

theorem trustGate_extends (c : Client) (trustedOrg : String) (ic : IssueCommentEvent)
    (pr : PullRequest) (requestedJobs : List Presubmit) (testAll : Bool)
    (calls : List Event) :
    ∃ tail, (dispatchJobs c ic (trustGate c trustedOrg ic pr requestedJobs testAll calls)).2 =
        calls ++ tail ∧ List.countP Event.isSelection tail = 0 := by
  obtain ⟨M, hM⟩ : ∃ M : Gathered → Prop, ∀ g, M g ↔
      (∃ tail, (dispatchJobs c ic g).2 = calls ++ tail ∧
        List.countP Event.isSelection tail = 0) := ⟨_, fun _ => Iff.rfl⟩
  refine (hM _).1 ?_
  repeat' first
    | apply trustGate_cases
    | apply resolveBase_cases
    | intro _
  all_goals rw [hM]
  all_goals simp only [dispatchJobs, List.append_assoc]
  all_goals exact ⟨_, rfl, by simp [countP_startJobs, countP_cleanupCalls, Event.isSelection]⟩

theorem fetchPullRequest_shape (c : Client) (trustedOrg : String) (ic : IssueCommentEvent)
    (requestedJobs : List Presubmit) (cf : Option (List String))
    (testAll shouldRetestFailed : Bool) (calls : List Event) :
    (∃ err, (dispatchJobs c ic (fetchPullRequest c trustedOrg ic requestedJobs cf testAll
        shouldRetestFailed calls)).2 =
      calls ++ [Event.GetPullRequest ic.Repo.Owner.Login ic.Repo.Name ic.Issue.Number
        (.error err)]) ∨
    ∃ pr tail, (dispatchJobs c ic (fetchPullRequest c trustedOrg ic requestedJobs cf testAll
        shouldRetestFailed calls)).2 =
      calls ++ Event.GetPullRequest ic.Repo.Owner.Login ic.Repo.Name ic.Issue.Number (.ok pr) ::
        ((retestSelection c ic pr cf shouldRetestFailed (calls.length + 1)).2 ++ tail) ∧
      List.countP Event.isSelection tail = 0 := by
  unfold fetchPullRequest
  split
  · exact Or.inl ⟨_, rfl⟩
  · rename_i pr hp
    right
    split
    · exact ⟨pr, [], by simp [dispatchJobs], rfl⟩
    · obtain ⟨tail, h1, h2⟩ := trustGate_extends c trustedOrg ic pr _ testAll
        (calls ++ [Event.GetPullRequest ic.Repo.Owner.Login ic.Repo.Name ic.Issue.Number
          (.ok pr)] ++ (retestSelection c ic pr cf shouldRetestFailed (calls.length + 1)).2)
      exact ⟨pr, tail, by rw [h1]; simp, h2⟩

/-- The shape of a run: nothing, the call of `BotName` alone, or the call of `BotName`, the
fetches made for `MatchingPresubmits`, the call of `MatchingPresubmits`, and then either
no further selection call or the fetch of the pull request followed by the retest
selection. -/
theorem handleIC_shape (c : Client) (trustedOrg : String) (ic : IssueCommentEvent) :
    (handleIC c trustedOrg ic).2 = [] ∨
    (∃ r, (handleIC c trustedOrg ic).2 = [Event.BotName r]) ∨
    ∃ b tail0, (handleIC c trustedOrg ic).2 =
        Event.BotName (.ok b) :: ((matchingPresubmits c ic).2.2 ++
          Event.MatchingPresubmits ic.Repo.FullName ic.Comment.Body
            (MatchString okToTest ic.Comment.Body) (matchingPresubmits c ic).1 :: tail0) ∧
      (List.countP Event.isSelection tail0 = 0 ∨
        ∃ pr tail, tail0 =
          Event.GetPullRequest ic.Repo.Owner.Login ic.Repo.Name ic.Issue.Number (.ok pr) ::
            ((retestSelection c ic pr (matchingPresubmits c ic).2.1
                (MatchString retest ic.Comment.Body)
                ((matchingPresubmits c ic).2.2.length + 3)).2 ++ tail) ∧
          List.countP Event.isSelection tail = 0) := by
  unfold handleIC
  apply gatherJobs_cases (fun g =>
    (dispatchJobs c ic g).2 = [] ∨
    (∃ r, (dispatchJobs c ic g).2 = [Event.BotName r]) ∨
    ∃ b tail0, (dispatchJobs c ic g).2 =
        Event.BotName (.ok b) :: ((matchingPresubmits c ic).2.2 ++
          Event.MatchingPresubmits ic.Repo.FullName ic.Comment.Body
            (MatchString okToTest ic.Comment.Body) (matchingPresubmits c ic).1 :: tail0) ∧
      (List.countP Event.isSelection tail0 = 0 ∨
        ∃ pr tail, tail0 =
          Event.GetPullRequest ic.Repo.Owner.Login ic.Repo.Name ic.Issue.Number (.ok pr) ::
            ((retestSelection c ic pr (matchingPresubmits c ic).2.1
                (MatchString retest ic.Comment.Body)
                ((matchingPresubmits c ic).2.2.length + 3)).2 ++ tail) ∧
          List.countP Event.isSelection tail = 0))
  · intro _
    exact Or.inl rfl
  · intro err _ _ _ _
    exact Or.inr (Or.inl ⟨_, rfl⟩)
  · intro b _ _ _ _ _
    exact Or.inr (Or.inl ⟨_, rfl⟩)
  · intro b err _ _ _ _ _ hm
    refine Or.inr (Or.inr ⟨b, [], ?_, Or.inl rfl⟩)
    simp [dispatchJobs, callsAfterMatching, hm]
  · intro b _ _ _ _ _ hm _
    obtain ⟨tail, h1, h2⟩ := noCandidateJobs_extends c trustedOrg ic
      (MatchString okToTest ic.Comment.Body) (callsAfterMatching c ic b (.ok []))
    refine Or.inr (Or.inr ⟨b, tail, ?_, Or.inl h2⟩)
    rw [h1]
    simp [callsAfterMatching, hm]
  · intro b jobs _ _ _ _ _ hm _
    have hlen : (callsAfterMatching c ic b (.ok jobs)).length + 1 =
        (matchingPresubmits c ic).2.2.length + 3 := by
      simp [callsAfterMatching]
    rcases fetchPullRequest_shape c trustedOrg ic jobs (matchingPresubmits c ic).2.1
      (MatchString okToTest ic.Comment.Body) (MatchString retest ic.Comment.Body)
      (callsAfterMatching c ic b (.ok jobs)) with ⟨err, h1⟩ | ⟨pr, tail, h1, h2⟩
    · refine Or.inr (Or.inr ⟨b,
        [Event.GetPullRequest ic.Repo.Owner.Login ic.Repo.Name ic.Issue.Number (.error err)],
        ?_, Or.inl ?_⟩)
      · rw [h1]
        simp only [callsAfterMatching, hm, List.append_assoc, List.cons_append,
          List.nil_append]
      · simp [Event.isSelection]
    · refine Or.inr (Or.inr ⟨b,
        Event.GetPullRequest ic.Repo.Owner.Login ic.Repo.Name ic.Issue.Number (.ok pr) ::
          ((retestSelection c ic pr (matchingPresubmits c ic).2.1
              (MatchString retest ic.Comment.Body)
              ((matchingPresubmits c ic).2.2.length + 3)).2 ++ tail),
        ?_, Or.inr ⟨pr, tail, rfl, h2⟩⟩)
      rw [h1, hlen]
      simp only [callsAfterMatching, hm, List.append_assoc, List.cons_append,
        List.nil_append]

theorem retestSelection_shape (c : Client) (ic : IssueCommentEvent) (pr : PullRequest)
    (cf : Option (List String)) (b : Bool) (now : Nat) :
    List.countP Event.isGetCombinedStatus (retestSelection c ic pr cf b now).2 = 0 ∨
    (∃ err, (retestSelection c ic pr cf b now).2 =
      [Event.GetCombinedStatus ic.Repo.Owner.Login ic.Repo.Name pr.Head.SHA (.error err)]) ∨
    ∃ cs, (retestSelection c ic pr cf b now).2 =
      Event.GetCombinedStatus ic.Repo.Owner.Login ic.Repo.Name pr.Head.SHA (.ok cs) ::
        ((runWithFiles c ic.Repo.Owner.Login ic.Repo.Name ic.Issue.Number
            (c.RetestPresubmits (now + 1) ic.Repo.FullName
              (classifyStatuses cs.Statuses ([], [])).1
              (classifyStatuses cs.Statuses ([], [])).2) cf (now + 1)).2.2 ++
          [Event.RetestPresubmits ic.Repo.FullName
            (classifyStatuses cs.Statuses ([], [])).1
            (classifyStatuses cs.Statuses ([], [])).2
            (runWithFiles c ic.Repo.Owner.Login ic.Repo.Name ic.Issue.Number
              (c.RetestPresubmits (now + 1) ic.Repo.FullName
                (classifyStatuses cs.Statuses ([], [])).1
                (classifyStatuses cs.Statuses ([], [])).2) cf (now + 1)).1]) := by
  unfold retestSelection
  split
  · unfold retestBlock
    dsimp only
    split
    · exact Or.inr (Or.inl ⟨_, rfl⟩)
    · rename_i cs _
      exact Or.inr (Or.inr ⟨cs, by simp⟩)
  · exact Or.inl rfl

theorem fetchedFiles_matching (c : Client) (ic : IssueCommentEvent) :
    (matchingPresubmits c ic).2.1 = fetchedFiles (matchingPresubmits c ic).2.2 :=
  ((runWithFiles_answers c ic.Repo.Owner.Login ic.Repo.Name ic.Issue.Number
    (c.MatchingPresubmits 1 ic.Repo.FullName ic.Comment.Body
      (MatchString okToTest ic.Comment.Body)) none 1).2 rfl).2

/-- The result of `MatchingPresubmits` is what that collaborator returns when its invocations
of the accessor are answered with the errors of the fetches that failed, in order, and from
the first fetch that succeeded on with the filenames fetched. -/
theorem matching_answers (c : Client) (trustedOrg : String) (ic : IssueCommentEvent)
    (b0 : Except Error String) (F : List Event) (f body : String) (ta : Bool)
    (r : Except Error (List Presubmit)) (tail : List Event)
    (v : Except Error (List String))
    (h : (handleIC c trustedOrg ic).2 =
      Event.BotName b0 :: (F ++ Event.MatchingPresubmits f body ta r :: tail))
    (hv : ∀ l, fetchedFiles F = some l → v = .ok l) :
    r = (c.MatchingPresubmits 1 f body ta).withAnswers (failedFetches F) v := by
  rcases handleIC_shape c trustedOrg ic with h0 | ⟨r0, h0⟩ | ⟨b, tail0, h0, hrest⟩
  · rw [h0] at h
    cases h
  · rw [h0] at h
    simp at h
  · rw [h0] at h
    simp only [List.cons.injEq] at h
    have hM : List.countP Event.isMatchingPresubmits (matchingPresubmits c ic).2.2 = 0 :=
      countP_matchingPresubmits _ (fun _ _ _ _ => rfl) c ic
    have ht : List.countP Event.isMatchingPresubmits tail0 = 0 := by
      rcases hrest with h1 | ⟨pr, tl, h1, h2⟩
      · exact countP_eq_zero_of_imp Event.isSelection _ _
          (fun e he => by cases e <;> simp_all [Event.isMatchingPresubmits, Event.isSelection])
          h1
      · have h3 := countP_eq_zero_of_imp Event.isSelection Event.isMatchingPresubmits tl
          (fun e he => by cases e <;> simp_all [Event.isMatchingPresubmits, Event.isSelection])
          h2
        rw [h1]
        simp [h3, countP_retestSelection, Event.isMatchingPresubmits]
    obtain ⟨hF, he, _⟩ := split_unique Event.isMatchingPresubmits _ _ F tail _
      (Event.MatchingPresubmits f body ta r) hM ht rfl h.2
    simp only [Event.MatchingPresubmits.injEq] at he
    obtain ⟨hf, hb, hta, hr⟩ := he
    subst hF hf hb hta hr
    exact ((runWithFiles_answers c ic.Repo.Owner.Login ic.Repo.Name ic.Issue.Number
      (c.MatchingPresubmits 1 ic.Repo.FullName ic.Comment.Body
        (MatchString okToTest ic.Comment.Body)) none 1).2 rfl).1 v hv

/-- The result of `RetestPresubmits` is what that collaborator returns when its invocations
of the accessor are answered with the errors of the fetches that failed during the call, in
order, and, once a fetch of the run has succeeded, with the filenames fetched. -/
theorem retest_answers (c : Client) (trustedOrg : String) (ic : IssueCommentEvent)
    (p1 : List Event) (o rp sha : String) (cs : CombinedStatus) (F : List Event)
    (f : String) (s rc : List String) (x : Except Error (List Presubmit)) (p2 : List Event)
    (v : Except Error (List String))
    (h : (handleIC c trustedOrg ic).2 =
      p1 ++ Event.GetCombinedStatus o rp sha (.ok cs) ::
        (F ++ Event.RetestPresubmits f s rc x :: p2))
    (hv : ∀ l, fetchedFiles (p1 ++ F) = some l → v = .ok l) :
    x = (c.RetestPresubmits (p1.length + 1) f s rc).withAnswers (failedFetches F) v := by
  have hsel : ∀ l : List Event, List.countP Event.isSelection l = 0 →
      List.countP Event.isGetCombinedStatus l = 0 ∧
      List.countP Event.isRetestPresubmits l = 0 ∧
      List.countP Event.isGetPullRequestChanges l = 0 := by
    intro l hl
    refine ⟨countP_eq_zero_of_imp Event.isSelection _ l ?_ hl,
      countP_eq_zero_of_imp Event.isSelection _ l ?_ hl,
      countP_eq_zero_of_imp Event.isSelection _ l ?_ hl⟩
    · intro e he
      cases e <;> simp_all [Event.isGetCombinedStatus, Event.isSelection]
    · intro e he
      cases e <;> simp_all [Event.isRetestPresubmits, Event.isSelection]
    · intro e he
      cases e <;> simp_all [Event.isGetPullRequestChanges, Event.isSelection]
  have hcount : 0 < List.countP Event.isGetCombinedStatus (handleIC c trustedOrg ic).2 := by
    rw [h]
    simp [List.countP_append, List.countP_cons, Event.isGetCombinedStatus]
  rcases handleIC_shape c trustedOrg ic with h0 | ⟨r0, h0⟩ | ⟨b, tail0, h0, hrest⟩
  · rw [h0] at hcount
    simp at hcount
  · rw [h0] at hcount
    simp [Event.isGetCombinedStatus] at hcount
  · rcases hrest with h1 | ⟨pr, tl, h1, h2⟩
    · rw [h0] at hcount
      simp [List.countP_append, List.countP_cons, countP_matchingPresubmits, (hsel _ h1).1,
        Event.isGetCombinedStatus] at hcount
    · obtain ⟨ht1, ht2, ht3⟩ := hsel _ h2
      subst h1
      rcases retestSelection_shape c ic pr (matchingPresubmits c ic).2.1
        (MatchString retest ic.Comment.Body) ((matchingPresubmits c ic).2.2.length + 3)
        with hR | ⟨err, hR⟩ | ⟨cs0, hR⟩
      · rw [h0] at hcount
        simp [List.countP_append, List.countP_cons, countP_matchingPresubmits, hR, ht1,
          Event.isGetCombinedStatus] at hcount
      · rw [h0, hR] at h
        have hP : Event.BotName (Except.ok b) :: ((matchingPresubmits c ic).2.2 ++
            Event.MatchingPresubmits ic.Repo.FullName ic.Comment.Body
              (MatchString okToTest ic.Comment.Body) (matchingPresubmits c ic).1 ::
            Event.GetPullRequest ic.Repo.Owner.Login ic.Repo.Name ic.Issue.Number (.ok pr) ::
            ([Event.GetCombinedStatus ic.Repo.Owner.Login ic.Repo.Name pr.Head.SHA
              (.error err)] ++ tl)) =
            (Event.BotName (Except.ok b) :: ((matchingPresubmits c ic).2.2 ++
              [Event.MatchingPresubmits ic.Repo.FullName ic.Comment.Body
                (MatchString okToTest ic.Comment.Body) (matchingPresubmits c ic).1,
              Event.GetPullRequest ic.Repo.Owner.Login ic.Repo.Name ic.Issue.Number
                (.ok pr)])) ++
            Event.GetCombinedStatus ic.Repo.Owner.Login ic.Repo.Name pr.Head.SHA
              (.error err) :: tl := by simp
        rw [hP] at h
        obtain ⟨_, he, _⟩ := split_unique Event.isGetCombinedStatus _ tl p1
          (F ++ Event.RetestPresubmits f s rc x :: p2) _
          (Event.GetCombinedStatus o rp sha (.ok cs))
          (by simp [List.countP_append, List.countP_cons, countP_matchingPresubmits,
            Event.isGetCombinedStatus]) ht1 rfl h
        simp at he
      · rw [h0, hR] at h
        have hP : Event.BotName (Except.ok b) :: ((matchingPresubmits c ic).2.2 ++
            Event.MatchingPresubmits ic.Repo.FullName ic.Comment.Body
              (MatchString okToTest ic.Comment.Body) (matchingPresubmits c ic).1 ::
            Event.GetPullRequest ic.Repo.Owner.Login ic.Repo.Name ic.Issue.Number (.ok pr) ::
            (Event.GetCombinedStatus ic.Repo.Owner.Login ic.Repo.Name pr.Head.SHA (.ok cs0) ::
              ((runWithFiles c ic.Repo.Owner.Login ic.Repo.Name ic.Issue.Number
                  (c.RetestPresubmits ((matchingPresubmits c ic).2.2.length + 3 + 1)
                    ic.Repo.FullName
                    (classifyStatuses cs0.Statuses ([], [])).1
                    (classifyStatuses cs0.Statuses ([], [])).2)
                  (matchingPresubmits c ic).2.1
                  ((matchingPresubmits c ic).2.2.length + 3 + 1)).2.2 ++
                [Event.RetestPresubmits ic.Repo.FullName
                  (classifyStatuses cs0.Statuses ([], [])).1
                  (classifyStatuses cs0.Statuses ([], [])).2
                  (runWithFiles c ic.Repo.Owner.Login ic.Repo.Name ic.Issue.Number
                    (c.RetestPresubmits ((matchingPresubmits c ic).2.2.length + 3 + 1)
                      ic.Repo.FullName
                      (classifyStatuses cs0.Statuses ([], [])).1
                      (classifyStatuses cs0.Statuses ([], [])).2)
                    (matchingPresubmits c ic).2.1
                    ((matchingPresubmits c ic).2.2.length + 3 + 1)).1]) ++ tl)) =
            (Event.BotName (Except.ok b) :: ((matchingPresubmits c ic).2.2 ++
              [Event.MatchingPresubmits ic.Repo.FullName ic.Comment.Body
                (MatchString okToTest ic.Comment.Body) (matchingPresubmits c ic).1,
              Event.GetPullRequest ic.Repo.Owner.Login ic.Repo.Name ic.Issue.Number
                (.ok pr)])) ++
            Event.GetCombinedStatus ic.Repo.Owner.Login ic.Repo.Name pr.Head.SHA (.ok cs0) ::
              ((runWithFiles c ic.Repo.Owner.Login ic.Repo.Name ic.Issue.Number
                  (c.RetestPresubmits ((matchingPresubmits c ic).2.2.length + 3 + 1)
                    ic.Repo.FullName
                    (classifyStatuses cs0.Statuses ([], [])).1
                    (classifyStatuses cs0.Statuses ([], [])).2)
                  (matchingPresubmits c ic).2.1
                  ((matchingPresubmits c ic).2.2.length + 3 + 1)).2.2 ++
                Event.RetestPresubmits ic.Repo.FullName
                  (classifyStatuses cs0.Statuses ([], [])).1
                  (classifyStatuses cs0.Statuses ([], [])).2
                  (runWithFiles c ic.Repo.Owner.Login ic.Repo.Name ic.Issue.Number
                    (c.RetestPresubmits ((matchingPresubmits c ic).2.2.length + 3 + 1)
                      ic.Repo.FullName
                      (classifyStatuses cs0.Statuses ([], [])).1
                      (classifyStatuses cs0.Statuses ([], [])).2)
                    (matchingPresubmits c ic).2.1
                    ((matchingPresubmits c ic).2.2.length + 3 + 1)).1 :: tl) := by simp
        rw [hP] at h
        obtain ⟨hp1, he, hrest2⟩ := split_unique Event.isGetCombinedStatus _ _ p1
          (F ++ Event.RetestPresubmits f s rc x :: p2) _
          (Event.GetCombinedStatus o rp sha (.ok cs))
          (by simp [List.countP_append, List.countP_cons, countP_matchingPresubmits,
            Event.isGetCombinedStatus])
          (by simp [List.countP_append, List.countP_cons, countP_runWithFiles, ht1,
            Event.isGetCombinedStatus]) rfl h
        obtain ⟨hF, he2, _⟩ := split_unique Event.isRetestPresubmits _ tl F p2 _
          (Event.RetestPresubmits f s rc x)
          (countP_runWithFiles _ (fun _ _ _ _ => rfl) _ _ _ _ _ _ _) ht2 rfl hrest2.symm
        simp only [Event.RetestPresubmits.injEq] at he2
        obtain ⟨hf, hs, hrc, hx⟩ := he2
        have hlen : p1.length + 1 = (matchingPresubmits c ic).2.2.length + 3 + 1 := by
          rw [hp1]
          simp
        have hfm := fetchedFiles_matching c ic
        have hpre : fetchedFiles p1 = (matchingPresubmits c ic).2.1 := by
          rw [hp1, hfm]
          simp only [fetchedFiles, fetchedFiles_append]
          cases fetchedFiles (matchingPresubmits c ic).2.2 <;> rfl
        have hans := runWithFiles_answers c ic.Repo.Owner.Login ic.Repo.Name ic.Issue.Number
          (c.RetestPresubmits ((matchingPresubmits c ic).2.2.length + 3 + 1) ic.Repo.FullName
            (classifyStatuses cs0.Statuses ([], [])).1
            (classifyStatuses cs0.Statuses ([], [])).2)
          (matchingPresubmits c ic).2.1 ((matchingPresubmits c ic).2.2.length + 3 + 1)
        rw [fetchedFiles_append, hpre] at hv
        rw [hlen, hx, hf, hs, hrc, hF]
        rw [hF] at hv
        cases hcf : (matchingPresubmits c ic).2.1 with
        | some l =>
          rw [hcf] at hv hans
          obtain ⟨ha1, ha2, _⟩ := hans.1 l rfl
          rw [ha1, ha2]
          rw [hv l rfl]
          rfl
        | none =>
          rw [hcf] at hv hans
          exact (hans.2 rfl).1 v hv

/-- C17, as stated, fails: the accessor is invoked twice in one run, the fetch fails both
times, and `GetPullRequestChanges` is called twice. -/
theorem failed_fetch_is_repeated :
    List.countP Event.isGetPullRequestChanges fetchFailsTwice.2 = 2 ∧
    ¬ List.countP Event.isGetPullRequestChanges fetchFailsTwice.2 ≤ 1 := by
  decide

/-- C17, amended. The accessor `files` fetches at most once with success per decision: in
every run no call of `GetPullRequestChanges` follows one that succeeded, and at most one
succeeds; the result of `MatchingPresubmits` and of `RetestPresubmits` is what the
collaborator returns when each invocation of the accessor that led to a failed fetch is
answered with the error of that fetch (a failed fetch is not remembered, the next invocation
fetches again) and every invocation from the first successful fetch of the run on, in the
same collaborator call or in a later one, is answered with the filenames of the fetched
changes, in their order (also when there are zero changes). -/
theorem files_memoized (c : Client) (trustedOrg : String) (ic : IssueCommentEvent) :
    (∀ pre e post, (handleIC c trustedOrg ic).2 = pre ++ e :: post →
      e.changesFetched = true → List.countP Event.isGetPullRequestChanges post = 0) ∧
    List.countP Event.changesFetched (handleIC c trustedOrg ic).2 ≤ 1 ∧
    (∀ b0 F f body ta r tail v,
      (handleIC c trustedOrg ic).2 =
        Event.BotName b0 :: (F ++ Event.MatchingPresubmits f body ta r :: tail) →
      (∀ l, fetchedFiles F = some l → v = .ok l) →
      r = (c.MatchingPresubmits 1 f body ta).withAnswers (failedFetches F) v) ∧
    (∀ p1 o rp sha cs F f s rc x p2 v,
      (handleIC c trustedOrg ic).2 =
        p1 ++ Event.GetCombinedStatus o rp sha (.ok cs) ::
          (F ++ Event.RetestPresubmits f s rc x :: p2) →
      (∀ l, fetchedFiles (p1 ++ F) = some l → v = .ok l) →
      x = (c.RetestPresubmits (p1.length + 1) f s rc).withAnswers (failedFetches F) v) :=
  ⟨fun pre e post hl he =>
      quiet_after_success _ (fetchesAfterSuccess_handleIC c trustedOrg ic) pre e post hl he,
    changesFetched_le_one _ (fetchesAfterSuccess_handleIC c trustedOrg ic),
    fun b0 F f body ta r tail v h hv =>
      matching_answers c trustedOrg ic b0 F f body ta r tail v h hv,
    fun p1 o rp sha cs F f s rc x p2 v h hv =>
      retest_answers c trustedOrg ic p1 o rp sha cs F f s rc x p2 v h hv⟩

/-- Witness of C17, amended: the fetch returns two files; `MatchingPresubmits` invokes the
accessor twice and `RetestPresubmits` once, there is one call of `GetPullRequestChanges`, and
both collaborators return what they return on the answer `a.go`, `b.go`. -/
theorem files_memoized_witness :
    List.countP Event.isGetPullRequestChanges
      (handleIC twoFiles "kubernetes" (sampleEvent "/test all\n/retest" false)).2 = 1 ∧
    (Except.ok [shard "a.go" "a.go" "release-1.2", shard "b.go" "b.go" "release-1.2"] =
      (twoFiles.MatchingPresubmits 1 "kubernetes/test-infra" "/test all\n/retest"
        false).withAnswers [] (.ok ["a.go", "b.go"])) ∧
    (Except.ok [shard "a.go" "a.go" "release-1.2", shard "b.go" "b.go" "release-1.2"] =
      (twoFiles.RetestPresubmits 5 "kubernetes/test-infra" [] []).withAnswers []
        (.ok ["a.go", "b.go"])) :=
  ⟨by decide,
    (files_memoized twoFiles "kubernetes" (sampleEvent "/test all\n/retest" false)).2.2.1
      (.ok "k8s-ci-robot")
      [Event.GetPullRequestChanges "kubernetes" "test-infra" 7
        (.ok [{ Filename := "a.go" }, { Filename := "b.go" }])]
      "kubernetes/test-infra" "/test all\n/retest" false
      (.ok [shard "a.go" "a.go" "release-1.2", shard "b.go" "b.go" "release-1.2"])
      ((handleIC twoFiles "kubernetes" (sampleEvent "/test all\n/retest" false)).2.drop 3)
      (.ok ["a.go", "b.go"]) rfl
      (fun l hl => congrArg Except.ok (Option.some.inj hl)),
    (files_memoized twoFiles "kubernetes" (sampleEvent "/test all\n/retest" false)).2.2.2
      ((handleIC twoFiles "kubernetes" (sampleEvent "/test all\n/retest" false)).2.take 4)
      "kubernetes" "test-infra" "h0" { Statuses := [] } []
      "kubernetes/test-infra" [] []
      (.ok [shard "a.go" "a.go" "release-1.2", shard "b.go" "b.go" "release-1.2"])
      ((handleIC twoFiles "kubernetes" (sampleEvent "/test all\n/retest" false)).2.drop 6)
      (.ok ["a.go", "b.go"]) rfl
      (fun l hl => congrArg Except.ok (Option.some.inj hl))⟩

theorem fallback_guarded_by_refusal (c : Client) (trustedOrg : String)
    (ic : IssueCommentEvent) :
    guarded Event.userUntrusted Event.isFallback (handleIC c trustedOrg ic).2 = true := by
  obtain ⟨M, hM⟩ : ∃ M : Gathered → Prop, ∀ g, M g ↔
      (guarded Event.userUntrusted Event.isFallback (dispatchJobs c ic g).2 = true) :=
    ⟨_, fun _ => Iff.rfl⟩
  refine (hM (gatherJobs c trustedOrg ic)).1 ?_
  repeat' first
    | apply gatherJobs_cases
    | apply noCandidateJobs_cases
    | apply fetchPullRequest_cases
    | apply trustGate_cases
    | apply resolveBase_cases
    | intro _
  all_goals rw [hM]
  all_goals simp [dispatchJobs, callsAfterMatching, countP_matchingPresubmits,
    countP_retestSelection, countP_startJobs, countP_cleanupCalls, guarded_append,
    guarded_of_countP, any_eq_false_of_countP, guarded,
    Event.isFallback, Event.userUntrusted]

theorem fallback_guarded_by_fetch (c : Client) (trustedOrg : String)
    (ic : IssueCommentEvent) :
    guarded Event.isGetPullRequest Event.isFallback (handleIC c trustedOrg ic).2 = true := by
  obtain ⟨M, hM⟩ : ∃ M : Gathered → Prop, ∀ g, M g ↔
      (guarded Event.isGetPullRequest Event.isFallback (dispatchJobs c ic g).2 = true) :=
    ⟨_, fun _ => Iff.rfl⟩
  refine (hM (gatherJobs c trustedOrg ic)).1 ?_
  repeat' first
    | apply gatherJobs_cases
    | apply noCandidateJobs_cases
    | apply fetchPullRequest_cases
    | apply trustGate_cases
    | apply resolveBase_cases
    | intro _
  all_goals rw [hM]
  all_goals simp [dispatchJobs, callsAfterMatching, countP_matchingPresubmits,
    countP_retestSelection, countP_startJobs, countP_cleanupCalls, guarded_append,
    guarded_of_countP, any_eq_false_of_countP, guarded,
    Event.isFallback, Event.isGetPullRequest]

theorem fallback_absent (c : Client) (trustedOrg : String) (ic : IssueCommentEvent) :
    (0 < (handleIC c trustedOrg ic).2.countP Event.userTrusted →
      (handleIC c trustedOrg ic).2.countP Event.isFallback = 0) ∧
    ((handleIC c trustedOrg ic).2.countP Event.isGetPullRequest = 0 →
      (handleIC c trustedOrg ic).2.countP Event.isFallback = 0) := by
  obtain ⟨M, hM⟩ : ∃ M : Gathered → Prop, ∀ g, M g ↔
      ((0 < (dispatchJobs c ic g).2.countP Event.userTrusted →
        (dispatchJobs c ic g).2.countP Event.isFallback = 0) ∧
      ((dispatchJobs c ic g).2.countP Event.isGetPullRequest = 0 →
        (dispatchJobs c ic g).2.countP Event.isFallback = 0)) := ⟨_, fun _ => Iff.rfl⟩
  refine (hM (gatherJobs c trustedOrg ic)).1 ?_
  repeat' first
    | apply gatherJobs_cases
    | apply noCandidateJobs_cases
    | apply fetchPullRequest_cases
    | apply trustGate_cases
    | apply resolveBase_cases
    | intro _
  all_goals rw [hM]
  all_goals simp [dispatchJobs, callsAfterMatching, countP_matchingPresubmits,
    countP_retestSelection, countP_startJobs, countP_cleanupCalls,
    Event.isFallback, Event.isGetPullRequest, Event.userTrusted]

/-- C16. The comment-history fallback is consulted only when the primary rule fails at the
trust gate: every call of `ListIssueComments` or `trustedPullRequest` comes after a call of
`isUserTrusted` that returned false and after the fetch of the pull request; there is none
in a run in which `isUserTrusted` returned true, and none in a run that does not fetch the
pull request (the no-candidate path). -/
theorem fallback_only_after_refusal (c : Client) (trustedOrg : String)
    (ic : IssueCommentEvent) :
    (∀ pre e post, (handleIC c trustedOrg ic).2 = pre ++ e :: post → e.isFallback = true →
      (∃ x ∈ pre, x.userUntrusted = true) ∧ (∃ y ∈ pre, y.isGetPullRequest = true)) ∧
    ((∃ e ∈ (handleIC c trustedOrg ic).2, e.userTrusted = true) →
      (handleIC c trustedOrg ic).2.countP Event.isFallback = 0) ∧
    ((handleIC c trustedOrg ic).2.countP Event.isGetPullRequest = 0 →
      (handleIC c trustedOrg ic).2.countP Event.isFallback = 0) := by
  refine ⟨?_, ?_, (fallback_absent c trustedOrg ic).2⟩
  · intro pre e post ht he
    refine ⟨preceded_of_guarded _ _ ?_ _ (fallback_guarded_by_refusal c trustedOrg ic)
        pre e post ht he,
      preceded_of_guarded _ _ ?_ _ (fallback_guarded_by_fetch c trustedOrg ic)
        pre e post ht he⟩
    · intro x hx
      cases x <;> simp_all [Event.isFallback, Event.userUntrusted]
    · intro x hx
      cases x <;> simp_all [Event.isFallback, Event.isGetPullRequest]
  · intro h
    rw [← List.countP_pos_iff] at h
    exact (fallback_absent c trustedOrg ic).1 h

/-- Witness of C16: the author is no member and the pull request was approved before, so the
fallback is consulted after the refusal. -/
theorem fallback_only_after_refusal_witness :
    (∃ x ∈ (handleIC (sampleClient false true [shard "unit" "unit" "release-1.2"] [])
        "kubernetes" (sampleEvent "/test unit" false)).2.take 4, x.userUntrusted = true) ∧
    (∃ y ∈ (handleIC (sampleClient false true [shard "unit" "unit" "release-1.2"] [])
        "kubernetes" (sampleEvent "/test unit" false)).2.take 4, y.isGetPullRequest = true) :=
  (fallback_only_after_refusal (sampleClient false true [shard "unit" "unit" "release-1.2"] [])
    "kubernetes" (sampleEvent "/test unit" false)).1
    ((handleIC (sampleClient false true [shard "unit" "unit" "release-1.2"] [])
        "kubernetes" (sampleEvent "/test unit" false)).2.take 4)
    (Event.ListIssueComments "kubernetes" "test-infra" 7 (.ok []))
    ((handleIC (sampleClient false true [shard "unit" "unit" "release-1.2"] [])
        "kubernetes" (sampleEvent "/test unit" false)).2.drop 5) rfl rfl

theorem endsAtFetchError_append_quiet (res : Option Error) (a b : List Event)
    (h : List.countP Event.isFetchError a = 0) :
    endsAtFetchError res (a ++ b) = endsAtFetchError res b := by
  induction a with
  | nil => rfl
  | cons e es ih =>
    rw [List.countP_cons] at h
    have h1 : List.countP Event.isFetchError es = 0 := by omega
    have h2 : e.fetchError? = none := by
      cases he : e.fetchError? with
      | none => rfl
      | some err => simp [Event.isFetchError, he] at h
    simp only [List.cons_append, endsAtFetchError, h2]
    exact ih h1

theorem endsAtFetchError_of_quiet (res : Option Error) (a : List Event)
    (h : List.countP Event.isFetchError a = 0) : endsAtFetchError res a = true := by
  have := endsAtFetchError_append_quiet res a [] h
  simpa [endsAtFetchError] using this

theorem last_of_endsAtFetchError (res : Option Error) (t : List Event)
    (h : endsAtFetchError res t = true) (pre : List Event) (e : Event) (post : List Event)
    (err : Error) (ht : t = pre ++ e :: post) (he : e.fetchError? = some err) :
    post = [] ∧ res = some err := by
  subst ht
  induction pre with
  | nil =>
    simp only [List.nil_append, endsAtFetchError, he, Bool.and_eq_true, List.isEmpty_iff,
      beq_iff_eq] at h
    exact h
  | cons x xs ih =>
    cases hx : x.fetchError? with
    | some err2 => simp [endsAtFetchError, hx] at h
    | none =>
      simp only [List.cons_append, endsAtFetchError, hx] at h
      exact ih h

theorem countP_isFetchError_callsAfterMatching (c : Client) (ic : IssueCommentEvent)
    (botName : String) (r : Except Error (List Presubmit)) :
    List.countP Event.isFetchError (callsAfterMatching c ic botName r) =
      match r with
      | .error _ => 1
      | .ok _ => 0 := by
  cases r <;> simp [callsAfterMatching, countP_matchingPresubmits, Event.isFetchError,
    Event.fetchError?]

theorem endsAtFetchError_callsAfterMatching (res : Option Error) (c : Client)
    (ic : IssueCommentEvent) (botName : String) (err : Error) :
    endsAtFetchError res (callsAfterMatching c ic botName (.error err)) = (res == some err) := by
  unfold callsAfterMatching
  rw [endsAtFetchError_append_quiet]
  · simp [endsAtFetchError, Event.fetchError?]
  · simp [countP_matchingPresubmits, Event.isFetchError, Event.fetchError?]

theorem countP_isFetchError_retestSelection (c : Client) (ic : IssueCommentEvent)
    (pr : PullRequest) (cf : Option (List String)) (b : Bool) (now : Nat) :
    List.countP Event.isFetchError (retestSelection c ic pr cf b now).2 =
      match (retestSelection c ic pr cf b now).1 with
      | .error _ => 1
      | .ok _ => 0 := by
  unfold retestSelection
  split
  · unfold retestBlock
    dsimp only
    split
    · simp [Event.isFetchError, Event.fetchError?]
    · simp only [List.countP_append, List.countP_cons, List.countP_nil]
      rw [countP_runWithFiles _ (by simp [Event.isFetchError, Event.fetchError?])]
      generalize (runWithFiles _ _ _ _ _ _ _).1 = m
      cases m <;> simp [Event.isFetchError, Event.fetchError?]
  · simp

theorem endsAtFetchError_retestSelection (res : Option Error) (c : Client)
    (ic : IssueCommentEvent) (pr : PullRequest) (cf : Option (List String)) (b : Bool)
    (now : Nat) :
    endsAtFetchError res (retestSelection c ic pr cf b now).2 =
      match (retestSelection c ic pr cf b now).1 with
      | .error err => res == some err
      | .ok _ => true := by
  unfold retestSelection
  split
  · unfold retestBlock
    dsimp only
    split
    · simp [endsAtFetchError, Event.fetchError?]
    · rw [endsAtFetchError_append_quiet]
      · generalize (runWithFiles _ _ _ _ _ _ _).1 = m
        cases m <;> simp [endsAtFetchError, Event.fetchError?]
      · simp [countP_runWithFiles, Event.isFetchError, Event.fetchError?]
  · simp [endsAtFetchError]

theorem countP_callsAfterMatching (p : Event → Bool)
    (hb : ∀ r, p (Event.BotName r) = false)
    (hp : ∀ org repo number r, p (Event.GetPullRequestChanges org repo number r) = false)
    (hm : ∀ f b t r, p (Event.MatchingPresubmits f b t r) = false)
    (c : Client) (ic : IssueCommentEvent) (botName : String)
    (r : Except Error (List Presubmit)) :
    List.countP p (callsAfterMatching c ic botName r) = 0 := by
  simp [callsAfterMatching, countP_matchingPresubmits p hp, hb, hm]

theorem endsAtFetchError_handleIC (c : Client) (trustedOrg : String) (ic : IssueCommentEvent) :
    endsAtFetchError (handleIC c trustedOrg ic).1 (handleIC c trustedOrg ic).2 = true := by
  obtain ⟨M, hM⟩ : ∃ M : Gathered → Prop, ∀ g, M g ↔
      (endsAtFetchError (dispatchJobs c ic g).1 (dispatchJobs c ic g).2 = true) :=
    ⟨_, fun _ => Iff.rfl⟩
  refine (hM (gatherJobs c trustedOrg ic)).1 ?_
  repeat' first
    | apply gatherJobs_cases
    | apply noCandidateJobs_cases
    | apply fetchPullRequest_cases
    | apply trustGate_cases
    | apply resolveBase_cases
    | intro _
  all_goals rw [hM]
  all_goals simp [*, dispatchJobs, endsAtFetchError_append_quiet, endsAtFetchError_of_quiet,
    endsAtFetchError_callsAfterMatching, endsAtFetchError_retestSelection,
    countP_isFetchError_callsAfterMatching, countP_isFetchError_retestSelection,
    countP_matchingPresubmits, countP_startJobs, countP_cleanupCalls, endsAtFetchError,
    Event.isFetchError, Event.fetchError?]

theorem no_write_of_fetchError (c : Client) (trustedOrg : String) (ic : IssueCommentEvent) :
    0 < (handleIC c trustedOrg ic).2.countP Event.isFetchError →
      (handleIC c trustedOrg ic).2.countP Event.isCreateProwJob = 0 ∧
      (handleIC c trustedOrg ic).2.countP Event.isCreateComment = 0 := by
  obtain ⟨M, hM⟩ : ∃ M : Gathered → Prop, ∀ g, M g ↔
      (0 < (dispatchJobs c ic g).2.countP Event.isFetchError →
        (dispatchJobs c ic g).2.countP Event.isCreateProwJob = 0 ∧
        (dispatchJobs c ic g).2.countP Event.isCreateComment = 0) :=
    ⟨_, fun _ => Iff.rfl⟩
  refine (hM (gatherJobs c trustedOrg ic)).1 ?_
  repeat' first
    | apply gatherJobs_cases
    | apply noCandidateJobs_cases
    | apply fetchPullRequest_cases
    | apply trustGate_cases
    | apply resolveBase_cases
    | intro _
  all_goals rw [hM]
  all_goals simp [*, dispatchJobs, countP_callsAfterMatching,
    countP_isFetchError_callsAfterMatching,
    countP_isFetchError_retestSelection, countP_retestSelection,
    countP_startJobs, countP_cleanupCalls,
    Event.isFetchError, Event.fetchError?, Event.isCreateProwJob, Event.isCreateComment]

/-- C15. Fetch failures abort the decision: when a call of `BotName`, `MatchingPresubmits`,
`GetPullRequest`, `GetCombinedStatus`, `RetestPresubmits`, `isUserTrusted`,
`ListIssueComments`, `trustedPullRequest` or `GetRef` returns an error, that call is the last
collaborator call of the run and `handleIC` returns that same error; no job is submitted and
no comment (in particular no denial comment) is created in such a run. -/
theorem fetch_failure_aborts (c : Client) (trustedOrg : String) (ic : IssueCommentEvent)
    (pre : List Event) (e : Event) (post : List Event) (err : Error)
    (ht : (handleIC c trustedOrg ic).2 = pre ++ e :: post)
    (he : e.fetchError? = some err) :
    post = [] ∧ (handleIC c trustedOrg ic).1 = some err ∧
      (handleIC c trustedOrg ic).2.countP Event.isCreateProwJob = 0 ∧
      (handleIC c trustedOrg ic).2.countP Event.isCreateComment = 0 := by
  have h1 := last_of_endsAtFetchError _ _ (endsAtFetchError_handleIC c trustedOrg ic)
    pre e post err ht he
  have h2 : 0 < (handleIC c trustedOrg ic).2.countP Event.isFetchError := by
    rw [List.countP_pos_iff]
    exact ⟨e, by simp [ht], by simp [Event.isFetchError, he]⟩
  exact ⟨h1.1, h1.2, no_write_of_fetchError c trustedOrg ic h2⟩

/-- Witness of C15: the membership lookup fails after three successful calls; it is the last
call and its error is returned. -/
theorem fetch_failure_aborts_witness :
    (handleIC lookupFails "kubernetes" (sampleEvent "/test unit" false)).2.drop 4 = [] ∧
    (handleIC lookupFails "kubernetes" (sampleEvent "/test unit" false)).1
      = some "lookup failed" ∧
    (handleIC lookupFails "kubernetes" (sampleEvent "/test unit" false)).2.countP
      Event.isCreateProwJob = 0 ∧
    (handleIC lookupFails "kubernetes" (sampleEvent "/test unit" false)).2.countP
      Event.isCreateComment = 0 :=
  fetch_failure_aborts lookupFails "kubernetes" (sampleEvent "/test unit" false)
    ((handleIC lookupFails "kubernetes" (sampleEvent "/test unit" false)).2.take 3)
    (Event.isUserTrusted "alice" "kubernetes" "kubernetes" (.error "lookup failed"))
    ((handleIC lookupFails "kubernetes" (sampleEvent "/test unit" false)).2.drop 4)
    "lookup failed" rfl rfl

/-! ## The outcomes of `RemoveLabel` and `clearStaleComments` -/

theorem runWithFiles_setCleanup {α : Type} (c : Client)
    (f : Nat → String → String → Int → String → Option Error)
    (g : Nat → String → PullRequest → List IssueComment → Option Error)
    (org repo : String) (number : Int)
    (w : WithFiles α) (cf : Option (List String)) (now : Nat) :
    runWithFiles { c with RemoveLabel := f, clearStaleComments := g } org repo number w cf now =
      runWithFiles c org repo number w cf now := by
  induction w generalizing cf now with
  | ret a => rfl
  | callFiles k ih =>
    have hf : files { c with RemoveLabel := f, clearStaleComments := g } org repo number cf now =
        files c org repo number cf now := rfl
    simp only [runWithFiles, hf, ih]

theorem retestSelection_setCleanup (c : Client)
    (f : Nat → String → String → Int → String → Option Error)
    (g : Nat → String → PullRequest → List IssueComment → Option Error)
    (ic : IssueCommentEvent) (pr : PullRequest) (cf : Option (List String)) (b : Bool)
    (now : Nat) :
    retestSelection { c with RemoveLabel := f, clearStaleComments := g } ic pr cf b now =
      retestSelection c ic pr cf b now := by
  unfold retestSelection retestBlock
  simp only [runWithFiles_setCleanup]

theorem startJobs_setCleanup (c : Client)
    (f : Nat → String → String → Int → String → Option Error)
    (g : Nat → String → PullRequest → List IssueComment → Option Error)
    (ic : IssueCommentEvent) (pr : PullRequest) (ref : String) (anyShard : List String)
    (jobs : List Presubmit) (errors : List Error) (now : Nat) :
    startJobs { c with RemoveLabel := f, clearStaleComments := g } ic pr ref anyShard jobs
        errors now =
      startJobs c ic pr ref anyShard jobs errors now := by
  induction jobs generalizing errors now with
  | nil => rfl
  | cons job rest ih =>
    rw [startJobs, startJobs]
    simp only [ih]
    rfl

theorem cleanupCalls_setCleanup (c : Client)
    (f : Nat → String → String → Int → String → Option Error)
    (g : Nat → String → PullRequest → List IssueComment → Option Error)
    (trustedOrg : String) (ic : IssueCommentEvent) (pr : PullRequest)
    (comments : List IssueComment) (testAll : Bool) (now : Nat) :
    (cleanupCalls { c with RemoveLabel := f, clearStaleComments := g } trustedOrg ic pr comments
        testAll now).map Event.eraseCleanup =
      (cleanupCalls c trustedOrg ic pr comments testAll now).map Event.eraseCleanup := by
  unfold cleanupCalls
  split <;> rfl

theorem length_cleanupCalls_setCleanup (c : Client)
    (f : Nat → String → String → Int → String → Option Error)
    (g : Nat → String → PullRequest → List IssueComment → Option Error)
    (trustedOrg : String) (ic : IssueCommentEvent) (pr : PullRequest)
    (comments : List IssueComment) (testAll : Bool) (now : Nat) :
    (cleanupCalls { c with RemoveLabel := f, clearStaleComments := g } trustedOrg ic pr comments
        testAll now).length =
      (cleanupCalls c trustedOrg ic pr comments testAll now).length := by
  have h := congrArg List.length (cleanupCalls_setCleanup c f g trustedOrg ic pr comments
    testAll now)
  simpa using h

theorem resolveBase_setCleanup (c : Client)
    (f : Nat → String → String → Int → String → Option Error)
    (g : Nat → String → PullRequest → List IssueComment → Option Error)
    (trustedOrg : String) (ic : IssueCommentEvent) (pr : PullRequest)
    (requestedJobs : List Presubmit) (comments : List IssueComment) (testAll : Bool)
    (calls : List Event) :
    (resolveBase { c with RemoveLabel := f, clearStaleComments := g } trustedOrg ic pr
        requestedJobs comments testAll calls).eraseCleanup =
      (resolveBase c trustedOrg ic pr requestedJobs comments testAll calls).eraseCleanup := by
  have hl := length_cleanupCalls_setCleanup c f g trustedOrg ic pr comments testAll calls.length
  have hm := cleanupCalls_setCleanup c f g trustedOrg ic pr comments testAll calls.length
  unfold resolveBase
  simp only [List.length_append, hl]
  split <;> simp [Gathered.eraseCleanup, hm]

theorem trustGate_setCleanup (c : Client)
    (f : Nat → String → String → Int → String → Option Error)
    (g : Nat → String → PullRequest → List IssueComment → Option Error)
    (trustedOrg : String) (ic : IssueCommentEvent) (pr : PullRequest)
    (requestedJobs : List Presubmit) (testAll : Bool) (calls : List Event) :
    (trustGate { c with RemoveLabel := f, clearStaleComments := g } trustedOrg ic pr
        requestedJobs testAll calls).eraseCleanup =
      (trustGate c trustedOrg ic pr requestedJobs testAll calls).eraseCleanup := by
  unfold trustGate
  dsimp only
  split
  · rfl
  · split
    · split
      · rfl
      · split
        · rfl
        · split
          · rfl
          · exact resolveBase_setCleanup _ _ _ _ _ _ _ _ _ _
    · exact resolveBase_setCleanup _ _ _ _ _ _ _ _ _ _

theorem fetchPullRequest_setCleanup (c : Client)
    (f : Nat → String → String → Int → String → Option Error)
    (g : Nat → String → PullRequest → List IssueComment → Option Error)
    (trustedOrg : String) (ic : IssueCommentEvent) (requestedJobs : List Presubmit)
    (cf : Option (List String)) (testAll shouldRetestFailed : Bool) (calls : List Event) :
    (fetchPullRequest { c with RemoveLabel := f, clearStaleComments := g } trustedOrg ic
        requestedJobs cf testAll shouldRetestFailed calls).eraseCleanup =
      (fetchPullRequest c trustedOrg ic requestedJobs cf testAll shouldRetestFailed
        calls).eraseCleanup := by
  unfold fetchPullRequest
  simp only [retestSelection_setCleanup]
  split
  · rfl
  · split
    · rfl
    · exact trustGate_setCleanup _ _ _ _ _ _ _ _ _

theorem noCandidateJobs_setCleanup (c : Client)
    (f : Nat → String → String → Int → String → Option Error)
    (g : Nat → String → PullRequest → List IssueComment → Option Error)
    (trustedOrg : String) (ic : IssueCommentEvent) (testAll : Bool) (calls : List Event)
    (hcalls : calls.countP Event.isGetPullRequest = 0) :
    ∃ e1 e2 cs1 cs2,
      noCandidateJobs { c with RemoveLabel := f, clearStaleComments := g } trustedOrg ic testAll
        calls = .returned e1 cs1 ∧
      noCandidateJobs c trustedOrg ic testAll calls = .returned e2 cs2 ∧
      cs1.map Event.eraseCleanup = cs2.map Event.eraseCleanup ∧
      cs2.countP Event.isGetPullRequest = 0 := by
  unfold noCandidateJobs
  dsimp only
  split
  · split
    · exact ⟨_, _, _, _, rfl, rfl, rfl, by simp [Event.isGetPullRequest, hcalls]⟩
    · split
      · exact ⟨_, _, _, _, rfl, rfl, by simp [Event.eraseCleanup],
          by simp [Event.isGetPullRequest, hcalls]⟩
      · exact ⟨_, _, _, _, rfl, rfl, rfl, by simp [Event.isGetPullRequest, hcalls]⟩
  · exact ⟨_, _, _, _, rfl, rfl, rfl, hcalls⟩

theorem gatherJobs_setCleanup (c : Client)
    (f : Nat → String → String → Int → String → Option Error)
    (g : Nat → String → PullRequest → List IssueComment → Option Error)
    (trustedOrg : String) (ic : IssueCommentEvent) :
    (gatherJobs { c with RemoveLabel := f, clearStaleComments := g } trustedOrg ic).eraseCleanup =
        (gatherJobs c trustedOrg ic).eraseCleanup ∨
      ∃ e1 e2 cs1 cs2,
        gatherJobs { c with RemoveLabel := f, clearStaleComments := g } trustedOrg ic =
          .returned e1 cs1 ∧
        gatherJobs c trustedOrg ic = .returned e2 cs2 ∧
        cs1.map Event.eraseCleanup = cs2.map Event.eraseCleanup ∧
        cs2.countP Event.isGetPullRequest = 0 := by
  have hm : matchingPresubmits { c with RemoveLabel := f, clearStaleComments := g } ic =
      matchingPresubmits c ic := runWithFiles_setCleanup _ _ _ _ _ _ _ _ _
  have hc : ∀ b r, callsAfterMatching { c with RemoveLabel := f, clearStaleComments := g } ic b r =
      callsAfterMatching c ic b r := by
    intro b r
    unfold callsAfterMatching
    rw [hm]
  unfold gatherJobs
  simp only [hm, hc]
  split
  · exact Or.inl rfl
  · split
    · exact Or.inl rfl
    · split
      · exact Or.inl rfl
      · split
        · exact Or.inl rfl
        · split
          · exact Or.inl rfl
          · split
            · exact Or.inl rfl
            · split
              · exact Or.inr (noCandidateJobs_setCleanup c f g _ _ _ _
                  (countP_callsAfterMatching _ (by simp [Event.isGetPullRequest])
                    (by simp [Event.isGetPullRequest]) (by simp [Event.isGetPullRequest])
                    _ _ _ _))
              · exact Or.inl (fetchPullRequest_setCleanup _ _ _ _ _ _ _ _ _ _)

theorem dispatchJobs_setCleanup (c : Client)
    (f : Nat → String → String → Int → String → Option Error)
    (g : Nat → String → PullRequest → List IssueComment → Option Error)
    (ic : IssueCommentEvent) (g1 g2 : Gathered) (h : g1.eraseCleanup = g2.eraseCleanup) :
    (dispatchJobs { c with RemoveLabel := f, clearStaleComments := g } ic g1).1 =
        (dispatchJobs c ic g2).1 ∧
      (dispatchJobs { c with RemoveLabel := f, clearStaleComments := g } ic g1).2.map
          Event.eraseCleanup =
        (dispatchJobs c ic g2).2.map Event.eraseCleanup := by
  cases g1 with
  | returned e1 cs1 =>
    cases g2 with
    | returned e2 cs2 =>
      simp only [Gathered.eraseCleanup, Gathered.returned.injEq] at h
      exact ⟨h.1, h.2⟩
    | dispatch pr2 ref2 jobs2 cs2 => simp [Gathered.eraseCleanup] at h
  | dispatch pr1 ref1 jobs1 cs1 =>
    cases g2 with
    | returned e2 cs2 => simp [Gathered.eraseCleanup] at h
    | dispatch pr2 ref2 jobs2 cs2 =>
      simp only [Gathered.eraseCleanup, Gathered.dispatch.injEq] at h
      obtain ⟨hp, hr, hj, hcs⟩ := h
      subst hp hr hj
      have hlen : cs1.length = cs2.length := by
        have := congrArg List.length hcs
        simpa using this
      simp only [dispatchJobs, startJobs_setCleanup, hlen, List.map_append, hcs, and_self]

theorem handleIC_setCleanup_calls (c : Client)
    (f : Nat → String → String → Int → String → Option Error)
    (g : Nat → String → PullRequest → List IssueComment → Option Error)
    (trustedOrg : String) (ic : IssueCommentEvent) :
    (handleIC { c with RemoveLabel := f, clearStaleComments := g } trustedOrg ic).2.map
        Event.eraseCleanup =
      (handleIC c trustedOrg ic).2.map Event.eraseCleanup := by
  unfold handleIC
  rcases gatherJobs_setCleanup c f g trustedOrg ic with h | ⟨e1, e2, cs1, cs2, h1, h2, h3, _⟩
  · exact (dispatchJobs_setCleanup c f g ic _ _ h).2
  · rw [h1, h2]
    exact h3

theorem handleIC_setCleanup_result (c : Client)
    (f : Nat → String → String → Int → String → Option Error)
    (g : Nat → String → PullRequest → List IssueComment → Option Error)
    (trustedOrg : String) (ic : IssueCommentEvent)
    (hpr : 0 < (handleIC c trustedOrg ic).2.countP Event.isGetPullRequest) :
    (handleIC { c with RemoveLabel := f, clearStaleComments := g } trustedOrg ic).1 =
      (handleIC c trustedOrg ic).1 := by
  unfold handleIC at hpr ⊢
  rcases gatherJobs_setCleanup c f g trustedOrg ic with h | ⟨e1, e2, cs1, cs2, h1, h2, h3, h4⟩
  · exact (dispatchJobs_setCleanup c f g ic _ _ h).1
  · rw [h2] at hpr
    simp only [dispatchJobs] at hpr
    omega

theorem removal_result_returned (c : Client) (trustedOrg : String) (ic : IssueCommentEvent) :
    (handleIC c trustedOrg ic).2.countP Event.isGetPullRequest = 0 →
      (handleIC c trustedOrg ic).2.countP
        (Event.removalDiffers (handleIC c trustedOrg ic).1) = 0 := by
  obtain ⟨M, hM⟩ : ∃ M : Gathered → Prop, ∀ g, M g ↔
      ((dispatchJobs c ic g).2.countP Event.isGetPullRequest = 0 →
        (dispatchJobs c ic g).2.countP (Event.removalDiffers (dispatchJobs c ic g).1) = 0) :=
    ⟨_, fun _ => Iff.rfl⟩
  refine (hM (gatherJobs c trustedOrg ic)).1 ?_
  repeat' first
    | apply gatherJobs_cases
    | apply noCandidateJobs_cases
    | apply fetchPullRequest_cases
    | apply trustGate_cases
    | apply resolveBase_cases
    | intro _
  all_goals rw [hM]
  all_goals simp [dispatchJobs, callsAfterMatching, countP_matchingPresubmits,
    countP_retestSelection, countP_startJobs, countP_cleanupCalls,
    Event.isGetPullRequest, Event.removalDiffers]

/-- C12 does not hold on the no-candidate path: with no job requested, `/ok-to-test` on a
labelled pull request and a trusted author, the run in which `RemoveLabel` fails returns that
error, and the run that differs from it only in `RemoveLabel` succeeding returns nil. -/
theorem remove_label_error_propagates :
    labelLocked = { sampleClient true false [] [] with
      RemoveLabel := fun _ _ _ _ _ => some "label locked" } ∧
    (handleIC labelLocked "kubernetes" (sampleEvent "/ok-to-test" true)).1
      = some "label locked" ∧
    (handleIC (sampleClient true false [] []) "kubernetes" (sampleEvent "/ok-to-test" true)).1
      = none :=
  ⟨rfl, by decide, by decide⟩

/-- C12, amended. Label removal is non-fatal in the runs that fetch the pull request: two
runs of `handleIC` whose collaborator responses differ only in what `RemoveLabel` returns
yield the same result when the run fetches the pull request.  In a run that does not fetch it
(the no-candidate path) the result of a `RemoveLabel` call is the result of `handleIC`. -/
theorem label_removal_nonfatal_after_fetch (c : Client)
    (f : Nat → String → String → Int → String → Option Error)
    (trustedOrg : String) (ic : IssueCommentEvent) :
    (0 < (handleIC c trustedOrg ic).2.countP Event.isGetPullRequest →
      (handleIC { c with RemoveLabel := f } trustedOrg ic).1 = (handleIC c trustedOrg ic).1) ∧
    ((handleIC c trustedOrg ic).2.countP Event.isGetPullRequest = 0 →
      ∀ pre org repo number label r post,
        (handleIC c trustedOrg ic).2 = pre ++ Event.RemoveLabel org repo number label r :: post →
        (handleIC c trustedOrg ic).1 = r) := by
  refine ⟨fun h => handleIC_setCleanup_result c f c.clearStaleComments trustedOrg ic h, ?_⟩
  intro h pre org repo number label r post ht
  have h0 := removal_result_returned c trustedOrg ic h
  rw [List.countP_eq_zero] at h0
  have h1 := h0 (Event.RemoveLabel org repo number label r) (by simp [ht])
  simp only [Event.removalDiffers, bne_iff_ne, ne_eq, Decidable.not_not] at h1
  exact h1.symm

/-- Witness of C12, amended: with a job requested the failure of `RemoveLabel` does not
change the result; with no job requested the result is what `RemoveLabel` returned. -/
theorem label_removal_nonfatal_after_fetch_witness :
    (handleIC { sampleClient true false [shard "unit" "unit" "release-1.2"] [] with
        RemoveLabel := fun _ _ _ _ _ => some "label locked" }
      "kubernetes" (sampleEvent "/ok-to-test" true)).1 =
      (handleIC (sampleClient true false [shard "unit" "unit" "release-1.2"] [])
        "kubernetes" (sampleEvent "/ok-to-test" true)).1 ∧
    (handleIC labelLocked "kubernetes" (sampleEvent "/ok-to-test" true)).1
      = some "label locked" :=
  ⟨(label_removal_nonfatal_after_fetch
      (sampleClient true false [shard "unit" "unit" "release-1.2"] [])
      (fun _ _ _ _ _ => some "label locked") "kubernetes"
      (sampleEvent "/ok-to-test" true)).1 (by decide),
    (label_removal_nonfatal_after_fetch labelLocked (fun _ _ _ _ _ => none) "kubernetes"
      (sampleEvent "/ok-to-test" true)).2 (by decide)
      ((handleIC labelLocked "kubernetes" (sampleEvent "/ok-to-test" true)).2.take 3)
      "kubernetes" "test-infra" 7 "needs-ok-to-test" (some "label locked")
      ((handleIC labelLocked "kubernetes" (sampleEvent "/ok-to-test" true)).2.drop 4) rfl⟩


theorem cleanupThenRef_append_quiet (a b : List Event)
    (h : List.countP Event.isRemoveLabel a = 0) :
    cleanupThenRef (a ++ b) = cleanupThenRef b := by
  induction a with
  | nil => rfl
  | cons e es ih =>
    rw [List.countP_cons] at h
    have h1 : List.countP Event.isRemoveLabel es = 0 := by omega
    have h2 : e.isRemoveLabel = false := by
      cases he : e.isRemoveLabel with
      | false => rfl
      | true => simp [he] at h
    rw [List.cons_append, cleanupThenRef, h2, Bool.false_and, Bool.false_or]
    exact ih h1

theorem exists_of_cleanupThenRef (t : List Event) (h : cleanupThenRef t = true) :
    ∃ pre e1 e2 e3 post, t = pre ++ e1 :: e2 :: e3 :: post ∧ e1.isRemoveLabel = true ∧
      e2.isClearStaleComments = true ∧ e3.isGetRef = true := by
  induction t with
  | nil => simp [cleanupThenRef] at h
  | cons e es ih =>
    rw [cleanupThenRef, Bool.or_eq_true, Bool.and_eq_true] at h
    rcases h with ⟨h1, h2⟩ | h
    · match es, h2 with
      | [], h2 => simp [startsWithCleanup] at h2
      | [_], h2 => simp [startsWithCleanup] at h2
      | e2 :: e3 :: post, h2 =>
        simp only [startsWithCleanup, Bool.and_eq_true] at h2
        exact ⟨[], e, e2, e3, post, rfl, h1, h2.1, h2.2⟩
    · obtain ⟨pre, e1, e2, e3, post, ht, hh⟩ := ih h
      exact ⟨e :: pre, e1, e2, e3, post, by rw [ht]; rfl, hh⟩

theorem cleanupThenRef_handleIC (c : Client) (trustedOrg : String) (ic : IssueCommentEvent)
    (hok : MatchString okToTest ic.Comment.Body = true)
    (hlabel : ic.Issue.HasLabel needsOkToTest = true) :
    0 < (handleIC c trustedOrg ic).2.countP Event.isGetPullRequest →
      0 < (handleIC c trustedOrg ic).2.countP Event.trustGranted →
      cleanupThenRef (handleIC c trustedOrg ic).2 = true := by
  obtain ⟨M, hM⟩ : ∃ M : Gathered → Prop, ∀ g, M g ↔
      (0 < (dispatchJobs c ic g).2.countP Event.isGetPullRequest →
        0 < (dispatchJobs c ic g).2.countP Event.trustGranted →
        cleanupThenRef (dispatchJobs c ic g).2 = true) :=
    ⟨_, fun _ => Iff.rfl⟩
  refine (hM (gatherJobs c trustedOrg ic)).1 ?_
  repeat' first
    | apply gatherJobs_cases
    | apply noCandidateJobs_cases
    | apply fetchPullRequest_cases
    | apply trustGate_cases
    | apply resolveBase_cases
    | intro _
  all_goals rw [hM]
  all_goals simp [dispatchJobs, callsAfterMatching, countP_matchingPresubmits,
    countP_retestSelection, countP_startJobs, cleanupCalls, hok, hlabel,
    cleanupThenRef_append_quiet, cleanupThenRef, startsWithCleanup,
    Event.isGetPullRequest, Event.trustGranted, Event.userTrusted, Event.prTrusted,
    Event.isRemoveLabel, Event.isClearStaleComments, Event.isGetRef]

theorem countP_map_eraseCleanup (p : Event → Bool) (hp : ∀ e, p e.eraseCleanup = p e)
    (l : List Event) : (l.map Event.eraseCleanup).countP p = l.countP p := by
  induction l with
  | nil => rfl
  | cons e es ih => simp only [List.map_cons, List.countP_cons, hp, ih]

theorem filterMap_map_eraseCleanup {β : Type} (q : Event → Option β)
    (hq : ∀ e, q e.eraseCleanup = q e) (l : List Event) :
    (l.map Event.eraseCleanup).filterMap q = l.filterMap q := by
  induction l with
  | nil => rfl
  | cons e es ih => simp only [List.map_cons, List.filterMap_cons, hq, ih]

/-- C13. In the dispatch path with the trust gate passed, `/ok-to-test` requested and the
label `needs-ok-to-test` present, the outcomes of `RemoveLabel` and `clearStaleComments` do
not influence the rest of the decision: whatever these two calls return, `RemoveLabel` is
directly followed by `clearStaleComments` and by `GetRef`, and the run makes the same calls
with the same results (the outcomes of the two calls apart), creates the same statuses,
submits the same jobs and returns the same value. -/
theorem cleanup_outcomes_ignored (c : Client)
    (f : Nat → String → String → Int → String → Option Error)
    (g : Nat → String → PullRequest → List IssueComment → Option Error)
    (trustedOrg : String) (ic : IssueCommentEvent)
    (hpr : 0 < (handleIC c trustedOrg ic).2.countP Event.isGetPullRequest)
    (htrust : 0 < (handleIC c trustedOrg ic).2.countP Event.trustGranted)
    (hok : MatchString okToTest ic.Comment.Body = true)
    (hlabel : ic.Issue.HasLabel needsOkToTest = true) :
    (∃ pre e1 e2 e3 post,
      (handleIC { c with RemoveLabel := f, clearStaleComments := g } trustedOrg ic).2 =
        pre ++ e1 :: e2 :: e3 :: post ∧
      e1.isRemoveLabel = true ∧ e2.isClearStaleComments = true ∧ e3.isGetRef = true) ∧
    (handleIC { c with RemoveLabel := f, clearStaleComments := g } trustedOrg ic).2.map
        Event.eraseCleanup =
      (handleIC c trustedOrg ic).2.map Event.eraseCleanup ∧
    createdStatuses (handleIC { c with RemoveLabel := f, clearStaleComments := g }
        trustedOrg ic).2 = createdStatuses (handleIC c trustedOrg ic).2 ∧
    submitted (handleIC { c with RemoveLabel := f, clearStaleComments := g } trustedOrg ic).2 =
      submitted (handleIC c trustedOrg ic).2 ∧
    (handleIC { c with RemoveLabel := f, clearStaleComments := g } trustedOrg ic).1 =
      (handleIC c trustedOrg ic).1 := by
  have hcalls := handleIC_setCleanup_calls c f g trustedOrg ic
  have hcount : ∀ p : Event → Bool, (∀ e, p e.eraseCleanup = p e) →
      (handleIC { c with RemoveLabel := f, clearStaleComments := g } trustedOrg ic).2.countP p =
        (handleIC c trustedOrg ic).2.countP p := by
    intro p hp
    rw [← countP_map_eraseCleanup p hp, hcalls, countP_map_eraseCleanup p hp]
  have hfm : ∀ (β : Type) (q : Event → Option β), (∀ e, q e.eraseCleanup = q e) →
      (handleIC { c with RemoveLabel := f, clearStaleComments := g } trustedOrg
          ic).2.filterMap q =
        (handleIC c trustedOrg ic).2.filterMap q := by
    intro β q hq
    rw [← filterMap_map_eraseCleanup q hq, hcalls, filterMap_map_eraseCleanup q hq]
  have hpr2 := hpr
  rw [← hcount Event.isGetPullRequest (by intro e; cases e <;> rfl)] at hpr2
  have htrust2 := htrust
  rw [← hcount Event.trustGranted (by intro e; cases e <;> rfl)] at htrust2
  refine ⟨exists_of_cleanupThenRef _ (cleanupThenRef_handleIC _ trustedOrg ic hok hlabel
      hpr2 htrust2), hcalls, ?_, ?_, handleIC_setCleanup_result c f g trustedOrg ic hpr⟩
  · exact hfm _ Event.status? (by intro e; cases e <;> rfl)
  · exact hfm _ Event.submitted? (by intro e; cases e <;> rfl)

/-- Witness of C13: both cleanup calls fail in the first run and succeed in the second; the
two runs submit the same job and return the same value. -/
theorem cleanup_outcomes_ignored_witness :
    submitted (handleIC { sampleClient true false [shard "unit" "unit" "release-1.2"] [] with
        RemoveLabel := fun _ _ _ _ _ => some "label locked",
        clearStaleComments := fun _ _ _ _ => some "cleanup failed" }
      "kubernetes" (sampleEvent "/ok-to-test" true)).2 =
      submitted (handleIC (sampleClient true false [shard "unit" "unit" "release-1.2"] [])
        "kubernetes" (sampleEvent "/ok-to-test" true)).2 ∧
    (handleIC { sampleClient true false [shard "unit" "unit" "release-1.2"] [] with
        RemoveLabel := fun _ _ _ _ _ => some "label locked",
        clearStaleComments := fun _ _ _ _ => some "cleanup failed" }
      "kubernetes" (sampleEvent "/ok-to-test" true)).1 =
      (handleIC (sampleClient true false [shard "unit" "unit" "release-1.2"] [])
        "kubernetes" (sampleEvent "/ok-to-test" true)).1 :=
  (cleanup_outcomes_ignored (sampleClient true false [shard "unit" "unit" "release-1.2"] [])
    (fun _ _ _ _ _ => some "label locked") (fun _ _ _ _ => some "cleanup failed")
    "kubernetes" (sampleEvent "/ok-to-test" true)
    (by decide) (by decide) (by decide) (by decide)).2.2.2

end Trigger
